import Mathlib

/-!
Package linebound: platform spine extraction

Shallow embedding of `src/linebound/linebound.go`.

Modelling conventions
* `float64` coordinates, bearings and distances are finite values, kept as exact
  rationals (`ℚ`).  `IsPointInRectangle`, `GetRotatedBoundWithPad` and
  `perpendicularBearings` compute on them in exact arithmetic; the results on
  SetPlatformSpine depend on the verdicts of the classifier only, and the example inputs
  are integers of small magnitude, on which every float64 operation is exact.
* The rounding, underflow and overflow of float64 arithmetic are modelled by `F64`
  (round to nearest, ties to even; the two signed zeros identified).  The results on the
  geometry of the classifier and on the perpendicular bearings are stated on
  `IsPointInRectangleF64`, `perpendicularBearingsF64` and `GetRotatedBoundWithPadF64`.
* A Go slice is a `List`; a Go map is a function into `Option`.
* A run-time panic (nil dereference of a missing `nodes[...]` entry, index or
  slice expression out of range) is the result `none`.
* `allClosePoints` (an output parameter in the source) is threaded explicitly.
* Logging calls have no effect on the results and are omitted.
* `slices.Delete` is called in the source with its result discarded, so only
  its effect on the backing array matters.  The vacated tail of the array is
  zeroed by Go 1.22 and later and left untouched by Go 1.21; the flag
  `clearTail` selects between the two.
-/

namespace Linebound

/-- The type orb.Point, `[2]float64`: index 0 is the longitude (x), index 1 the latitude (y). -/
structure Point where
  x : ℚ
  y : ℚ
deriving DecidableEq

/-- The type orb.Ring, a slice of points. -/
abbrev Ring := List Point

/-- The type orb.LineString, a slice of points. -/
abbrev LineString := List Point

/-- The type osm.NodeID. -/
abbrev NodeID := Int

/-- The type osm.ElementID. -/
abbrev ElementID := Int

/-- The fields of osm.Node that the package reads. -/
structure Node where
  ID : NodeID
  Lat : ℚ
  Lon : ℚ
deriving DecidableEq

/-- The zero value of osm.Node. -/
def Node.zero : Node := ⟨0, 0, 0⟩

/-- The type models.PlatformSpine. -/
structure PlatformSpine where
  Start : Point
  End : Point
deriving DecidableEq

/-- The Go map `map[osm.ElementID]models.PlatformSpine`. -/
abbrev SpineMap := ElementID → Option PlatformSpine

/-- The Go map `map[osm.NodeID]*osm.Node`; a missing key is `none`. -/
abbrev NodeTable := NodeID → Option Node

/-- GetRotatedBoundWithPad (lines 20-44).  The library primitives geo.Bearing and
geo.PointAtBearingAndDistance are parameters. -/
def GetRotatedBoundWithPad (Bearing : Point → Point → ℚ)
    (PointAtBearingAndDistance : Point → ℚ → ℚ → Point)
    (p1 p2 : Point) (d : ℚ) : LineString :=
  let lineString : LineString := []
  let lineBearing := Bearing p1 p2
  let bearingUp : ℚ := if lineBearing < 90 then lineBearing + 90 else lineBearing + 90
  let bearingDown : ℚ := if lineBearing < 90 then lineBearing + 270 else lineBearing - 90
  let n1 := PointAtBearingAndDistance p1 bearingUp d
  let n2 := PointAtBearingAndDistance p1 bearingDown d
  let n3 := PointAtBearingAndDistance p2 bearingDown d
  let n4 := PointAtBearingAndDistance p2 bearingUp d
  let lineString := lineString ++ [n1]
  let lineString := lineString ++ [n2]
  let lineString := lineString ++ [n3]
  let lineString := lineString ++ [n4]
  let lineString := lineString ++ [n1]
  lineString

/-- Ring indexing `ring[i]`; used only below the length guard, where every index read is
in range, so the default is never returned. -/
def ringAt (ring : Ring) (i : Nat) : Point :=
  ring.getD i ⟨0, 0⟩

/-- The library method orb.Ring.Closed: at least 4 points, first equal to last. -/
def ringClosed (ring : Ring) : Bool :=
  decide (4 ≤ ring.length) && decide (ringAt ring 0 = ringAt ring (ring.length - 1))

/-- The cross product of the edge a→b with the vector a→point (lines 55-61). -/
def crossProduct (a b point : Point) : ℚ :=
  let edge : Point := ⟨b.x - a.x, b.y - a.y⟩
  let toPoint : Point := ⟨point.x - a.x, point.y - a.y⟩
  edge.x * toPoint.y - edge.y * toPoint.x

/-- The loop `for i := 0; i < 4; i++` of IsPointInRectangle (lines 51-66), run from
index `i` for `fuel` more iterations: false as soon as one cross product is positive. -/
def edgeLoop (ring : Ring) (point : Point) : Nat → Nat → Bool
  | 0, _ => true
  | fuel + 1, i =>
    let a := ringAt ring i
    let b := ringAt ring (i + 1)
    if crossProduct a b point > 0 then false
    else edgeLoop ring point fuel (i + 1)

/-- IsPointInRectangle (lines 46-67).  The result is the pair (bool, error); the error
is `none` for Go nil. -/
def IsPointInRectangle (ring : Ring) (point : Point) : Bool × Option String :=
  if ring.length ≠ 5 || !ringClosed ring then
    (false, some "test")
  else
    (edgeLoop ring point 4 0, none)

/-- NodeToPoint (lines 69-74). -/
def NodeToPoint (node : Node) : Point :=
  ⟨node.Lon, node.Lat⟩

/-- The effect of `slices.Delete(s, i, j)` on the backing array of `s` (same length as `s`):
the elements from `j` on move down to `i`; the vacated tail is zeroed when `clearTail`
(Go 1.22 and later) and keeps its old contents otherwise (Go 1.21). -/
def slicesDelete {α : Type} (clearTail : Bool) (zero : α) (s : List α) (i j : Nat) : List α :=
  if i = j then s
  else
    let kept := s.take i ++ s.drop j
    kept ++ (if clearTail then List.replicate (s.length - kept.length) zero
             else s.drop kept.length)

/-- One pass of the inner loop over `trainTracks` for one node (lines 114-129): `flag`
is the current value of `nodeCloseness[index]`. -/
def closenessLoop (nodes : NodeTable) (node : Node) : List Ring → Bool → Option Bool
  | [], flag => some flag
  | bound :: rest, flag =>
    match nodes node.ID with
    | none => none
    | some n =>
      let isCloseToRails := (IsPointInRectangle bound (NodeToPoint n)).1
      if isCloseToRails then closenessLoop nodes node rest isCloseToRails
      else if flag = true then closenessLoop nodes node rest flag
      else closenessLoop nodes node rest false

/-- The classification loop over `sourceNodes` (lines 113-130); every entry of
`nodeCloseness` starts out false. -/
def classify (nodes : NodeTable) (trainTracks : List Ring) : List Node → Option (List Bool)
  | [] => some []
  | node :: rest =>
    match closenessLoop nodes node trainTracks false with
    | none => none
    | some flag =>
      match classify nodes trainTracks rest with
      | none => none
      | some flags => some (flag :: flags)

/-- The search for the first false flag (lines 132-140), from position `index` on:
the position of the first false entry, 0 when there is none. -/
def findStartingPoint : List Bool → Nat → Nat
  | [], _ => 0
  | value :: rest, index =>
    if value = false then index else findStartingPoint rest (index + 1)

/-- Lines 141-143 and 148-150: `toMove := s[0:startingPoint]` aliases the backing array,
`slices.Delete(s, 0, startingPoint)` rewrites that array and its result is dropped,
then `s = append(s, toMove...)`. -/
def deleteAndAppend {α : Type} (clearTail : Bool) (zero : α) (s : List α)
    (startingPoint : Nat) : List α :=
  let backing := slicesDelete clearTail zero s 0 startingPoint
  let toMove := backing.take startingPoint
  backing ++ toMove

/-- The local variables of the scan loop together with `*allClosePoints`. -/
structure ScanState where
  longestStart : Int
  longestEnd : Int
  localStart : Int
  localEnd : Int
  allClosePoints : List Node

/-- A slice read `s[i]` at a Go `int` index: a panic (`none`) when out of range. -/
def goIndex {α : Type} (s : List α) (i : Int) : Option α :=
  if i < 0 then none else s[i.toNat]?

/-- The slice expression `s[lo:hi]`: a panic (`none`) unless `0 ≤ lo ≤ hi ≤ len(s)`. -/
def goSlice {α : Type} (s : List α) (lo hi : Int) : Option (List α) :=
  if 0 ≤ lo ∧ lo ≤ hi ∧ hi ≤ s.length then some ((s.take hi.toNat).drop lo.toNat) else none

/-- The body of the scan loop (lines 159-182) at position `index` with flag `value`. -/
def scanStep (nodeCloseness : List Bool) (platformNodes : List Node)
    (st : ScanState) (index : Nat) (value : Bool) : Option ScanState :=
  if value then
    match platformNodes[index]? with
    | none => none
    | some node =>
      let st : ScanState := { st with allClosePoints := st.allClosePoints ++ [node] }
      if st.localStart < 0 then
        some { st with localStart := (index : Int), localEnd := (index : Int) }
      else
        match goIndex nodeCloseness ((index : Int) - 1) with
        | none => none
        | some prev =>
          if prev = false then some { st with localStart := (index : Int), localEnd := (index : Int) }
          else some { st with localEnd := st.localEnd + 1 }
  else
    if st.localStart ≥ 0 then
      match goIndex nodeCloseness ((index : Int) - 1) with
      | none => none
      | some prev =>
        if prev then
          if st.localEnd - st.localStart > st.longestEnd - st.longestStart then
            some { st with longestStart := st.localStart, longestEnd := st.localEnd }
          else some st
        else some st
    else some st

/-- The scan loop `for index, value := range nodeCloseness` (lines 158-183), over the
remaining flags `rest` starting at position `index`. -/
def scanLoop (nodeCloseness : List Bool) (platformNodes : List Node) :
    Nat → List Bool → ScanState → Option ScanState
  | _, [], st => some st
  | index, value :: rest, st =>
    match scanStep nodeCloseness platformNodes st index value with
    | none => none
    | some st1 => scanLoop nodeCloseness platformNodes (index + 1) rest st1

/-- SetPlatformSpine (lines 107-213).  The result is the pair of the updated
`platformSpines` and `*allClosePoints`, or `none` when the call panics. -/
def SetPlatformSpine (clearTail : Bool) (sourceNodes : List Node) (platformSpines : SpineMap)
    (trainTracks : List Ring) (nodes : NodeTable) (elementID : ElementID)
    (allClosePoints : List Node) : Option (SpineMap × List Node) :=
  let platformNodeLength := sourceNodes.length
  if platformNodeLength ≠ 0 then
    match sourceNodes[0]?, sourceNodes[platformNodeLength - 1]? with
    | some first, some last =>
      if first.ID = last.ID then
        match classify nodes trainTracks sourceNodes with
        | none => none
        | some nodeCloseness =>
          let startingPoint := findStartingPoint nodeCloseness 0
          let nodeCloseness := deleteAndAppend clearTail false nodeCloseness startingPoint
          let platformNodes := sourceNodes
          let platformNodes := deleteAndAppend clearTail Node.zero platformNodes startingPoint
          let st0 : ScanState := ⟨-1, -1, -1, -1, allClosePoints⟩
          match scanLoop nodeCloseness platformNodes 0 nodeCloseness st0 with
          | none => none
          | some st =>
            if st.longestStart ≥ 0 ∧ st.longestEnd > 0 then
              match goSlice platformNodes st.longestStart (st.longestEnd + 1) with
              | none => none
              | some relevantNodes =>
                match relevantNodes[0]?, relevantNodes[relevantNodes.length - 1]? with
                | some firstRelevant, some lastRelevant =>
                  match nodes firstRelevant.ID, nodes lastRelevant.ID with
                  | some firstNode, some lastNode =>
                    let spinePoints : PlatformSpine :=
                      ⟨NodeToPoint firstNode, NodeToPoint lastNode⟩
                    some (Function.update platformSpines elementID (some spinePoints),
                          st.allClosePoints)
                  | _, _ => none
                | _, _ => none
            else some (platformSpines, st.allClosePoints)
      else
        match nodes first.ID, nodes last.ID with
        | some startNode, some endNode =>
          let currentSpine : PlatformSpine := ⟨NodeToPoint startNode, NodeToPoint endNode⟩
          some (Function.update platformSpines elementID (some currentSpine), allClosePoints)
        | _, _ => none
    | _, _ => none
  else some (platformSpines, allClosePoints)

/-- Whether a boundary node is classified close: IsPointInRectangle returns true (and no
error) for its lookup-table point and some rectangle of `trainTracks`. -/
def classifiedClose (nodes : NodeTable) (trainTracks : List Ring) (node : Node) : Bool :=
  match nodes node.ID with
  | none => false
  | some n =>
    trainTracks.any fun bound => decide (IsPointInRectangle bound (NodeToPoint n) = (true, none))

/-- What a call computes, apart from the prior contents of its two outputs: the spine it
writes (if any) and the nodes it appends to `allClosePoints`; `none` when the call panics. -/
def spineOutcome (clearTail : Bool) (sourceNodes : List Node) (trainTracks : List Ring)
    (nodes : NodeTable) : Option (Option PlatformSpine × List Node) :=
  (SetPlatformSpine clearTail sourceNodes (fun _ => none) trainTracks nodes 0 []).map
    fun r => (r.1 0, r.2)

/-- The mapping after an optional write of `spine` under `elementID`. -/
def writeSpine (platformSpines : SpineMap) (elementID : ElementID) :
    Option PlatformSpine → SpineMap
  | none => platformSpines
  | some spine => Function.update platformSpines elementID (some spine)

/-- Positions s..e of the flag vector all hold true. -/
def AllTrue (flags : List Bool) (s e : Nat) : Prop :=
  ∀ j, s ≤ j → j ≤ e → flags[j]? = some true

/-- An all-true stretch s..e whose closing false, at position e+1, lies before position i. -/
def ClosedRun (flags : List Bool) (i s e : Nat) : Prop :=
  s ≤ e ∧ AllTrue flags s e ∧ flags[e + 1]? = some false ∧ e + 1 < i

/-- Scan invariant for `localStart`, `localEnd` before position i: either no flag before i
is true, or they delimit the last run of true flags begun before i. -/
def LocalInv (flags : List Bool) (i : Nat) (st : ScanState) : Prop :=
  (st.localStart = -1 ∧ ∀ j, j < i → flags[j]? = some false) ∨
  ∃ a b : Nat, st.localStart = a ∧ st.localEnd = b ∧ a ≤ b ∧ b < i ∧ AllTrue flags a b ∧
    (a = 0 ∨ flags[a - 1]? = some false) ∧ ∀ j, b < j → j < i → flags[j]? = some false

/-- Scan invariant for `longestStart`, `longestEnd` before position i: either both are -1
and every run closed so far has a single node, or they delimit the leftmost longest run
closed so far, which has at least two nodes. -/
def LongestInv (flags : List Bool) (i : Nat) (st : ScanState) : Prop :=
  (st.longestStart = -1 ∧ st.longestEnd = -1 ∧ ∀ s e, ClosedRun flags i s e → e = s) ∨
  ∃ a b : Nat, st.longestStart = a ∧ st.longestEnd = b ∧ a < b ∧ ClosedRun flags i a b ∧
    ∀ s e, ClosedRun flags i s e → e - s < b - a ∨ (e - s = b - a ∧ a ≤ s)

/-- The stretch s..e is the longest stretch of true flags, and the leftmost among the
stretches of that length. -/
def LeftmostLongestRun (flags : List Bool) (s e : Nat) : Prop :=
  s ≤ e ∧ AllTrue flags s e ∧
    ∀ s1 e1, s1 ≤ e1 → AllTrue flags s1 e1 → e1 - s1 < e - s ∨ (e1 - s1 = e - s ∧ s ≤ s1)

/-- The branch on `lineBearing < 90` of GetRotatedBoundWithPad (lines 23-31): the pair
(bearingUp, bearingDown). -/
def perpendicularBearings (lineBearing : ℚ) : ℚ × ℚ :=
  if lineBearing < 90 then (lineBearing + 90, lineBearing + 270)
  else (lineBearing + 90, lineBearing - 90)

/-! ## float64 arithmetic -/

/-- A float64 value: a finite number, kept as an exact rational, an infinity or NaN.  The
two signed zeros are identified; no operation used by IsPointInRectangle (subtraction,
multiplication, the comparison `> 0`, `==`) can tell them apart. -/
inductive F64 where
  | finite (q : ℚ)
  | posInf
  | negInf
  | nan
deriving DecidableEq

/-- The nearest natural number to a non-negative rational, ties going to the even one. -/
def roundHalfEven (x : ℚ) : ℕ :=
  if x - ⌊x⌋₊ < 1 / 2 then ⌊x⌋₊
  else if 1 / 2 < x - ⌊x⌋₊ then ⌊x⌋₊ + 1
  else if ⌊x⌋₊ % 2 = 0 then ⌊x⌋₊ else ⌊x⌋₊ + 1

/-- The spacing of the float64 values around a positive magnitude m: 2^(e-52), where e is
the binary exponent of m, not below -1022 (below 2^-1022 the values are subnormal, with
spacing 2^-1074). -/
def ulp (m : ℚ) : ℚ :=
  (2 : ℚ) ^ (max (Int.log 2 m) (-1022) - 52)

/-- A positive magnitude rounded to the nearest multiple of its spacing, ties to even. -/
def roundMagnitude (m : ℚ) : ℚ :=
  (roundHalfEven (m / ulp m) : ℚ) * ulp m

/-- The float64 rounding (round to nearest, ties to even) of an exact result: a magnitude
that rounds to 2^1024 or more overflows to an infinity. -/
def F64.ofRat (q : ℚ) : F64 :=
  if q = 0 then F64.finite 0
  else if 0 < q then
    if roundMagnitude q < (2 : ℚ) ^ (1024 : ℤ) then F64.finite (roundMagnitude q)
    else F64.posInf
  else
    if roundMagnitude (-q) < (2 : ℚ) ^ (1024 : ℤ) then F64.finite (-roundMagnitude (-q))
    else F64.negInf

/-- The float64 subtraction `a - b`. -/
def F64.sub : F64 → F64 → F64
  | F64.finite a, F64.finite b => F64.ofRat (a - b)
  | F64.nan, _ => F64.nan
  | _, F64.nan => F64.nan
  | F64.posInf, F64.posInf => F64.nan
  | F64.negInf, F64.negInf => F64.nan
  | F64.posInf, _ => F64.posInf
  | F64.negInf, _ => F64.negInf
  | F64.finite _, F64.posInf => F64.negInf
  | F64.finite _, F64.negInf => F64.posInf

/-- The float64 multiplication `a * b`. -/
def F64.mul : F64 → F64 → F64
  | F64.finite a, F64.finite b => F64.ofRat (a * b)
  | F64.nan, _ => F64.nan
  | _, F64.nan => F64.nan
  | F64.finite a, F64.posInf => if a = 0 then F64.nan else if 0 < a then F64.posInf else F64.negInf
  | F64.finite a, F64.negInf => if a = 0 then F64.nan else if 0 < a then F64.negInf else F64.posInf
  | F64.posInf, F64.finite b => if b = 0 then F64.nan else if 0 < b then F64.posInf else F64.negInf
  | F64.negInf, F64.finite b => if b = 0 then F64.nan else if 0 < b then F64.negInf else F64.posInf
  | F64.posInf, F64.posInf => F64.posInf
  | F64.posInf, F64.negInf => F64.negInf
  | F64.negInf, F64.posInf => F64.negInf
  | F64.negInf, F64.negInf => F64.posInf

/-- The float64 comparison `x > 0`; false for NaN. -/
def F64.gtZero : F64 → Bool
  | F64.finite q => decide (0 < q)
  | F64.posInf => true
  | F64.negInf => false
  | F64.nan => false

/-- The cross product of lines 55-61 in float64 arithmetic: every subtraction and every
multiplication is rounded.  (Go may fuse `x*y - z*w` into one rounding on some targets; on
the axis-aligned rings considered below one of the two products is an exact zero, for which
the fused and the unfused result agree.) -/
def crossProductF64 (a b point : Point) : F64 :=
  let edge0 := F64.sub (F64.finite b.x) (F64.finite a.x)
  let edge1 := F64.sub (F64.finite b.y) (F64.finite a.y)
  let toPoint0 := F64.sub (F64.finite point.x) (F64.finite a.x)
  let toPoint1 := F64.sub (F64.finite point.y) (F64.finite a.y)
  F64.sub (F64.mul edge0 toPoint1) (F64.mul edge1 toPoint0)

/-- The loop of lines 51-66 in float64 arithmetic, as `edgeLoop`. -/
def edgeLoopF64 (ring : Ring) (point : Point) : Nat → Nat → Bool
  | 0, _ => true
  | fuel + 1, i =>
    let a := ringAt ring i
    let b := ringAt ring (i + 1)
    if (crossProductF64 a b point).gtZero then false
    else edgeLoopF64 ring point fuel (i + 1)

/-- IsPointInRectangle (lines 46-67) in float64 arithmetic, for rings and points with
finite coordinates. -/
def IsPointInRectangleF64 (ring : Ring) (point : Point) : Bool × Option String :=
  if ring.length ≠ 5 || !ringClosed ring then
    (false, some "test")
  else
    (edgeLoopF64 ring point 4 0, none)

/-- A float64 value that is at most zero or -Inf (not NaN). -/
def F64.IsNonpos : F64 → Prop
  | F64.finite q => q ≤ 0
  | F64.negInf => True
  | F64.posInf => False
  | F64.nan => False

/-- A float64 value that is at least zero or +Inf (not NaN). -/
def F64.IsNonneg : F64 → Prop
  | F64.finite q => 0 ≤ q
  | F64.posInf => True
  | F64.negInf => False
  | F64.nan => False

/-- A float64 value for which `x > 0` is false: at most zero, -Inf or NaN. -/
def F64.NotPos : F64 → Prop
  | F64.finite q => q ≤ 0
  | F64.negInf => True
  | F64.nan => True
  | F64.posInf => False

/-- A float64 value for which `x < 0` is false: at least zero, +Inf or NaN. -/
def F64.NotNeg : F64 → Prop
  | F64.finite q => 0 ≤ q
  | F64.posInf => True
  | F64.nan => True
  | F64.negInf => False

/-- A float64 value that is zero or NaN. -/
def F64.ZeroOrNan : F64 → Prop
  | F64.finite q => q = 0
  | F64.nan => True
  | F64.posInf => False
  | F64.negInf => False

/-- The float64 addition `a + b`. -/
def F64.add : F64 → F64 → F64
  | F64.finite a, F64.finite b => F64.ofRat (a + b)
  | F64.nan, _ => F64.nan
  | _, F64.nan => F64.nan
  | F64.posInf, F64.negInf => F64.nan
  | F64.negInf, F64.posInf => F64.nan
  | F64.posInf, _ => F64.posInf
  | F64.negInf, _ => F64.negInf
  | F64.finite _, F64.posInf => F64.posInf
  | F64.finite _, F64.negInf => F64.negInf

/-- The branch on `lineBearing < 90` of GetRotatedBoundWithPad (lines 23-31) in float64
arithmetic, for a finite lineBearing: the pair (bearingUp, bearingDown), each sum and the
difference rounded. -/
def perpendicularBearingsF64 (lineBearing : ℚ) : F64 × F64 :=
  if lineBearing < 90 then
    (F64.add (F64.finite lineBearing) (F64.finite 90),
      F64.add (F64.finite lineBearing) (F64.finite 270))
  else
    (F64.add (F64.finite lineBearing) (F64.finite 90),
      F64.sub (F64.finite lineBearing) (F64.finite 90))

/-- GetRotatedBoundWithPad (lines 20-44) with the bearings of lines 25-31 computed in
float64 arithmetic.  The library primitives geo.Bearing (returning a finite value) and
geo.PointAtBearingAndDistance are parameters. -/
def GetRotatedBoundWithPadF64 (Bearing : Point → Point → ℚ)
    (PointAtBearingAndDistance : Point → F64 → ℚ → Point)
    (p1 p2 : Point) (d : ℚ) : LineString :=
  let lineString : LineString := []
  let lineBearing := Bearing p1 p2
  let bearingUp : F64 :=
    if lineBearing < 90 then F64.add (F64.finite lineBearing) (F64.finite 90)
    else F64.add (F64.finite lineBearing) (F64.finite 90)
  let bearingDown : F64 :=
    if lineBearing < 90 then F64.add (F64.finite lineBearing) (F64.finite 270)
    else F64.sub (F64.finite lineBearing) (F64.finite 90)
  let n1 := PointAtBearingAndDistance p1 bearingUp d
  let n2 := PointAtBearingAndDistance p1 bearingDown d
  let n3 := PointAtBearingAndDistance p2 bearingDown d
  let n4 := PointAtBearingAndDistance p2 bearingUp d
  let lineString := lineString ++ [n1]
  let lineString := lineString ++ [n2]
  let lineString := lineString ++ [n3]
  let lineString := lineString ++ [n4]
  let lineString := lineString ++ [n1]
  lineString

/-! ## Example inputs -/

/-- The float64 value 2^-600, the side of the boxes on which the cross products underflow. -/
def tiny : ℚ := (2 : ℚ) ^ (-600 : ℤ)

/-- The float64 value 76.15710813705945, a segment bearing in degrees. -/
def exampleBearing : ℚ := 2679540029903715 / 2 ^ 45

/-- An axis-aligned track rectangle, the box [0,10]×[0,10] as a clockwise closed ring. -/
def exampleBox : Ring := [⟨10, 0⟩, ⟨0, 0⟩, ⟨0, 10⟩, ⟨10, 10⟩, ⟨10, 0⟩]

/-- The node with identifier `i` at longitude `lon` and latitude `lat`. -/
def mkNode (i : NodeID) (lon lat : ℚ) : Node := ⟨i, lat, lon⟩

/-- A lookup table: nodes 10, 11 and 16 lie inside `exampleBox`, nodes 12 to 15 outside. -/
def exampleNodes : NodeTable := fun i =>
  if i = 10 then some (mkNode 10 2 2) else if i = 11 then some (mkNode 11 3 3)
  else if i = 12 then some (mkNode 12 20 0) else if i = 13 then some (mkNode 13 21 0)
  else if i = 14 then some (mkNode 14 22 0) else if i = 15 then some (mkNode 15 23 0)
  else if i = 16 then some (mkNode 16 1 1) else none

/-- A closed boundary of 8 nodes whose close nodes are exactly the indices 6, 7, 0, 1. -/
def wrapBoundary : List Node :=
  [mkNode 10 2 2, mkNode 11 3 3, mkNode 12 20 0, mkNode 13 21 0, mkNode 14 22 0,
   mkNode 15 23 0, mkNode 16 1 1, mkNode 10 2 2]

/-- A closed boundary of 6 nodes whose close nodes are exactly the indices 1, 2, 3. -/
def lineBoundary : List Node :=
  [mkNode 12 20 0, mkNode 16 1 1, mkNode 10 2 2, mkNode 11 3 3, mkNode 13 21 0, mkNode 12 20 0]

/-- A closed boundary of 3 nodes whose only close node is the isolated index 1. -/
def isolatedBoundary : List Node := [mkNode 12 20 0, mkNode 10 2 2, mkNode 12 20 0]

/-- A closed boundary of 3 nodes none of which is close. -/
def farBoundary : List Node := [mkNode 12 20 0, mkNode 13 21 0, mkNode 12 20 0]

/-- An open boundary of 3 nodes. -/
def openBoundary : List Node := [mkNode 12 20 0, mkNode 10 2 2, mkNode 13 21 0]

/-- A closed boundary of 4 nodes all of which are close. -/
def insideBoundary : List Node := [mkNode 10 2 2, mkNode 11 3 3, mkNode 16 1 1, mkNode 10 2 2]

/-! ## The point classifier and the rectangle builder -/

theorem IsPointInRectangle_five (a b c d e point : Point) :
    IsPointInRectangle [a, b, c, d, e] point =
      if a = e then
        (decide (crossProduct a b point ≤ 0 ∧ crossProduct b c point ≤ 0 ∧
          crossProduct c d point ≤ 0 ∧ crossProduct d e point ≤ 0), none)
      else (false, some "test") := by
  by_cases hae : a = e
  · by_cases h0 : crossProduct a b point ≤ 0 <;>
    by_cases h1 : crossProduct b c point ≤ 0 <;>
    by_cases h2 : crossProduct c d point ≤ 0 <;>
    by_cases h3 : crossProduct d e point ≤ 0 <;>
    simp [IsPointInRectangle, ringClosed, ringAt, edgeLoop, hae, h0, h1, h2, h3, not_lt.mpr] <;>
    simp_all [not_le.mp]
  · simp [IsPointInRectangle, ringClosed, ringAt, hae]

theorem IsPointInRectangle_fst_iff (ring : Ring) (point : Point) :
    (IsPointInRectangle ring point).1 = true ↔ IsPointInRectangle ring point = (true, none) := by
  unfold IsPointInRectangle
  split <;> simp [Prod.ext_iff]

/-- In exact arithmetic, on the clockwise ring of the axis-aligned box with corners (x0,y0)
and (x1,y1), IsPointInRectangle never reports an error and answers true exactly for the
points with x0 ≤ px ≤ x1 and y0 ≤ py ≤ y1 (edges and corners included).  The float64
behaviour is settled in the last section. -/
theorem IsPointInRectangle_axis_aligned (x0 x1 y0 y1 px py : ℚ) (hx : x0 < x1) (hy : y0 < y1) :
    (IsPointInRectangle [⟨x1, y0⟩, ⟨x0, y0⟩, ⟨x0, y1⟩, ⟨x1, y1⟩, ⟨x1, y0⟩] ⟨px, py⟩).2 = none ∧
    ((IsPointInRectangle [⟨x1, y0⟩, ⟨x0, y0⟩, ⟨x0, y1⟩, ⟨x1, y1⟩, ⟨x1, y0⟩] ⟨px, py⟩).1 = true ↔
      (x0 ≤ px ∧ px ≤ x1 ∧ y0 ≤ py ∧ py ≤ y1)) := by
  have hx1 : 0 < x1 - x0 := sub_pos.mpr hx
  have hy1 : 0 < y1 - y0 := sub_pos.mpr hy
  have c0 : crossProduct ⟨x1, y0⟩ ⟨x0, y0⟩ ⟨px, py⟩ ≤ 0 ↔ y0 ≤ py := by
    have e : crossProduct ⟨x1, y0⟩ ⟨x0, y0⟩ ⟨px, py⟩ = -((x1 - x0) * (py - y0)) := by
      simp only [crossProduct]; ring
    rw [e, neg_nonpos, mul_nonneg_iff_of_pos_left hx1, sub_nonneg]
  have c1 : crossProduct ⟨x0, y0⟩ ⟨x0, y1⟩ ⟨px, py⟩ ≤ 0 ↔ x0 ≤ px := by
    have e : crossProduct ⟨x0, y0⟩ ⟨x0, y1⟩ ⟨px, py⟩ = -((y1 - y0) * (px - x0)) := by
      simp only [crossProduct]; ring
    rw [e, neg_nonpos, mul_nonneg_iff_of_pos_left hy1, sub_nonneg]
  have c2 : crossProduct ⟨x0, y1⟩ ⟨x1, y1⟩ ⟨px, py⟩ ≤ 0 ↔ py ≤ y1 := by
    have e : crossProduct ⟨x0, y1⟩ ⟨x1, y1⟩ ⟨px, py⟩ = -((x1 - x0) * (y1 - py)) := by
      simp only [crossProduct]; ring
    rw [e, neg_nonpos, mul_nonneg_iff_of_pos_left hx1, sub_nonneg]
  have c3 : crossProduct ⟨x1, y1⟩ ⟨x1, y0⟩ ⟨px, py⟩ ≤ 0 ↔ px ≤ x1 := by
    have e : crossProduct ⟨x1, y1⟩ ⟨x1, y0⟩ ⟨px, py⟩ = -((y1 - y0) * (x1 - px)) := by
      simp only [crossProduct]; ring
    rw [e, neg_nonpos, mul_nonneg_iff_of_pos_left hy1, sub_nonneg]
  rw [IsPointInRectangle_five]
  simp only [if_true, decide_eq_true_eq, c0, c1, c2, c3, true_and]
  tauto

/-- In exact arithmetic, at the box [0,10]×[0,10] and the corner point (10,0): no error,
classified inside. -/
theorem IsPointInRectangle_axis_aligned_witness :
    ((0 : ℚ) < 10 ∧ (0 : ℚ) < 10) ∧
    (IsPointInRectangle [⟨10, 0⟩, ⟨0, 0⟩, ⟨0, 10⟩, ⟨10, 10⟩, ⟨10, 0⟩] ⟨10, 0⟩).2 = none ∧
    ((IsPointInRectangle [⟨10, 0⟩, ⟨0, 0⟩, ⟨0, 10⟩, ⟨10, 10⟩, ⟨10, 0⟩] ⟨10, 0⟩).1 = true ↔
      ((0 : ℚ) ≤ 10 ∧ (10 : ℚ) ≤ 10 ∧ (0 : ℚ) ≤ 0 ∧ (0 : ℚ) ≤ 10)) :=
  ⟨⟨by norm_num, by norm_num⟩,
    IsPointInRectangle_axis_aligned 0 10 0 10 10 0 (by norm_num) (by norm_num)⟩

/-- C6: IsPointInRectangle reports an error exactly when the ring does not have 5 points or
its first and last points differ, and an error always comes with the boolean false. -/
theorem IsPointInRectangle_error_iff (ring : Ring) (point : Point) :
    ((IsPointInRectangle ring point).2 ≠ none ↔
      (ring.length ≠ 5 ∨ ring.head? ≠ ring.getLast?)) ∧
    ((IsPointInRectangle ring point).2 ≠ none → (IsPointInRectangle ring point).1 = false) := by
  by_cases hlen : ring.length = 5
  · match ring, hlen with
    | [a, b, c, d, e], _ =>
      rw [IsPointInRectangle_five]
      by_cases hae : a = e
      · simp [hae]
      · simp [hae]
  · simp [IsPointInRectangle, hlen]

/-- C9: GetRotatedBoundWithPad returns the 5-point ring [n1, n2, n3, n4, n1], with n1, n2
projected from p1 and n3, n4 from p2 along the two perpendicular bearings; the ring is
closed and IsPointInRectangle never reports an error on it. -/
theorem GetRotatedBoundWithPad_ring (Bearing : Point → Point → ℚ)
    (PointAtBearingAndDistance : Point → ℚ → ℚ → Point) (p1 p2 : Point) (d : ℚ) :
    ∃ bearingUp bearingDown : ℚ,
      GetRotatedBoundWithPad Bearing PointAtBearingAndDistance p1 p2 d =
        [PointAtBearingAndDistance p1 bearingUp d, PointAtBearingAndDistance p1 bearingDown d,
         PointAtBearingAndDistance p2 bearingDown d, PointAtBearingAndDistance p2 bearingUp d,
         PointAtBearingAndDistance p1 bearingUp d] ∧
      (GetRotatedBoundWithPad Bearing PointAtBearingAndDistance p1 p2 d).length = 5 ∧
      (GetRotatedBoundWithPad Bearing PointAtBearingAndDistance p1 p2 d).head? =
        (GetRotatedBoundWithPad Bearing PointAtBearingAndDistance p1 p2 d).getLast? ∧
      ∀ point : Point,
        (IsPointInRectangle (GetRotatedBoundWithPad Bearing PointAtBearingAndDistance p1 p2 d)
          point).2 = none := by
  refine ⟨Bearing p1 p2 + 90,
    if Bearing p1 p2 < 90 then Bearing p1 p2 + 270 else Bearing p1 p2 - 90, ?_⟩
  have h : GetRotatedBoundWithPad Bearing PointAtBearingAndDistance p1 p2 d =
      [PointAtBearingAndDistance p1 (Bearing p1 p2 + 90) d,
       PointAtBearingAndDistance p1
         (if Bearing p1 p2 < 90 then Bearing p1 p2 + 270 else Bearing p1 p2 - 90) d,
       PointAtBearingAndDistance p2
         (if Bearing p1 p2 < 90 then Bearing p1 p2 + 270 else Bearing p1 p2 - 90) d,
       PointAtBearingAndDistance p2 (Bearing p1 p2 + 90) d,
       PointAtBearingAndDistance p1 (Bearing p1 p2 + 90) d] := by
    simp [GetRotatedBoundWithPad]
  rw [h]
  refine ⟨rfl, rfl, rfl, ?_⟩
  intro point
  rw [IsPointInRectangle_five]
  simp

/-! ## Classification of the boundary nodes -/

theorem closenessLoop_eq (nodes : NodeTable) (node n : Node) (hn : nodes node.ID = some n)
    (trainTracks : List Ring) (flag : Bool) :
    closenessLoop nodes node trainTracks flag =
      some (flag || trainTracks.any fun bound =>
        decide (IsPointInRectangle bound (NodeToPoint n) = (true, none))) := by
  induction trainTracks generalizing flag with
  | nil => simp [closenessLoop]
  | cons bound rest ih =>
    simp only [closenessLoop, hn, List.any_cons]
    by_cases h : (IsPointInRectangle bound (NodeToPoint n)).1 = true
    · have h2 := (IsPointInRectangle_fst_iff _ _).mp h
      simp [h, h2, ih]
    · have h2 : ¬ IsPointInRectangle bound (NodeToPoint n) = (true, none) :=
        fun hc => h ((IsPointInRectangle_fst_iff _ _).mpr hc)
      cases flag <;> simp [h, h2, ih]

theorem classify_eq_map (nodes : NodeTable) (trainTracks : List Ring) (sourceNodes : List Node)
    (hpres : ∀ node ∈ sourceNodes, ∃ n, nodes node.ID = some n) :
    classify nodes trainTracks sourceNodes =
      some (sourceNodes.map (classifiedClose nodes trainTracks)) := by
  induction sourceNodes with
  | nil => simp [classify]
  | cons node rest ih =>
    obtain ⟨n, hn⟩ := hpres node (List.mem_cons_self _ _)
    have ih2 := ih fun m hm => hpres m (List.mem_cons_of_mem _ hm)
    simp [classify, closenessLoop_eq nodes node n hn, ih2, classifiedClose, hn]

/-! ## The scan for the longest run -/

theorem findStartingPoint_cons_false (rest : List Bool) (index : Nat) :
    findStartingPoint (false :: rest) index = index := by
  simp [findStartingPoint]

theorem deleteAndAppend_zero {α : Type} (clearTail : Bool) (zero : α) (s : List α) :
    deleteAndAppend clearTail zero s 0 = s := by
  simp [deleteAndAppend, slicesDelete]

/-- The four index variables of the scan do not depend on the contents of
`allClosePoints`, which only grows. -/
theorem scanStep_allClosePoints (nodeCloseness : List Bool) (platformNodes : List Node)
    (st : ScanState) (index : Nat) (value : Bool) :
    scanStep nodeCloseness platformNodes st index value =
      (scanStep nodeCloseness platformNodes { st with allClosePoints := [] } index value).map
        fun r => { r with allClosePoints := st.allClosePoints ++ r.allClosePoints } := by
  unfold scanStep
  cases value
  · simp only [Bool.false_eq_true, if_false]
    split
    · cases goIndex nodeCloseness ((index : Int) - 1) with
      | none => rfl
      | some prev =>
        cases prev
        · simp
        · simp only [if_true]
          split <;> simp
    · simp
  · simp only [if_true]
    cases platformNodes[index]? with
    | none => rfl
    | some node =>
      simp only
      split
      · simp
      · cases goIndex nodeCloseness ((index : Int) - 1) with
        | none => rfl
        | some prev => cases prev <;> simp

theorem scanLoop_allClosePoints (nodeCloseness : List Bool) (platformNodes : List Node)
    (rest : List Bool) (index : Nat) (st : ScanState) :
    scanLoop nodeCloseness platformNodes index rest st =
      (scanLoop nodeCloseness platformNodes index rest { st with allClosePoints := [] }).map
        fun r => { r with allClosePoints := st.allClosePoints ++ r.allClosePoints } := by
  induction rest generalizing index st with
  | nil => simp [scanLoop]
  | cons value rest ih =>
    simp only [scanLoop]
    rw [scanStep_allClosePoints]
    cases h : scanStep nodeCloseness platformNodes { st with allClosePoints := [] } index value with
    | none => simp
    | some st1 =>
      simp only [Option.map_some']
      rw [ih]
      conv_rhs => rw [ih]
      cases scanLoop nodeCloseness platformNodes (index + 1) rest
          { st1 with allClosePoints := [] } with
      | none => simp
      | some r => simp [List.append_assoc]

theorem SetPlatformSpine_eq_outcome (clearTail : Bool) (sourceNodes : List Node)
    (platformSpines : SpineMap) (trainTracks : List Ring) (nodes : NodeTable)
    (elementID : ElementID) (allClosePoints : List Node) :
    SetPlatformSpine clearTail sourceNodes platformSpines trainTracks nodes elementID
        allClosePoints =
      (spineOutcome clearTail sourceNodes trainTracks nodes).map fun o =>
        (writeSpine platformSpines elementID o.1, allClosePoints ++ o.2) := by
  unfold spineOutcome SetPlatformSpine
  simp only []
  by_cases hlen : sourceNodes.length ≠ 0
  · rw [if_pos hlen, if_pos hlen]
    cases sourceNodes[0]? with
    | none => simp
    | some first =>
      cases sourceNodes[sourceNodes.length - 1]? with
      | none => simp
      | some last =>
        simp only []
        by_cases hid : first.ID = last.ID
        · simp only [hid, if_true]
          cases classify nodes trainTracks sourceNodes with
          | none => simp
          | some nodeCloseness =>
            simp only []
            rw [scanLoop_allClosePoints]
            cases scanLoop (deleteAndAppend clearTail false nodeCloseness
                  (findStartingPoint nodeCloseness 0))
                (deleteAndAppend clearTail Node.zero sourceNodes
                  (findStartingPoint nodeCloseness 0)) 0
                (deleteAndAppend clearTail false nodeCloseness
                  (findStartingPoint nodeCloseness 0))
                { longestStart := -1, longestEnd := -1, localStart := -1, localEnd := -1,
                  allClosePoints := [] } with
            | none => simp
            | some st =>
              simp only [Option.map_some']
              by_cases hl : st.longestStart ≥ 0 ∧ st.longestEnd > 0
              · simp only [hl, and_self, if_true]
                cases goSlice (deleteAndAppend clearTail Node.zero sourceNodes
                  (findStartingPoint nodeCloseness 0)) st.longestStart (st.longestEnd + 1) with
                | none => simp
                | some relevantNodes =>
                  simp only []
                  cases relevantNodes[0]? with
                  | none => simp
                  | some firstRelevant =>
                    cases relevantNodes[relevantNodes.length - 1]? with
                    | none => simp
                    | some lastRelevant =>
                      simp only []
                      cases nodes firstRelevant.ID with
                      | none => simp
                      | some firstNode =>
                        cases nodes lastRelevant.ID with
                        | none => simp
                        | some lastNode => simp [writeSpine]
              · simp [hl, writeSpine]
        · simp only [hid, if_false]
          cases nodes first.ID with
          | none => simp
          | some startNode =>
            cases nodes last.ID with
            | none => simp
            | some endNode => simp [writeSpine]
  · simp [hlen, writeSpine]

theorem goIndex_pred {α : Type} (s : List α) (i : Nat) (hi : 0 < i) :
    goIndex s ((i : Int) - 1) = s[i - 1]? := by
  have h : ¬ ((i : Int) - 1 < 0) := by omega
  have h2 : ((i : Int) - 1).toNat = i - 1 := by omega
  simp [goIndex, h, h2]

theorem ClosedRun_succ (flags : List Bool) (i s e : Nat) :
    ClosedRun flags (i + 1) s e ↔
      ClosedRun flags i s e ∨ (e + 1 = i ∧ s ≤ e ∧ AllTrue flags s e ∧ flags[i]? = some false) := by
  unfold ClosedRun
  constructor
  · rintro ⟨h1, h2, h3, h4⟩
    by_cases h : e + 1 < i
    · exact Or.inl ⟨h1, h2, h3, h⟩
    · have he : e + 1 = i := by omega
      subst he
      exact Or.inr ⟨rfl, h1, h2, h3⟩
  · rintro (⟨h1, h2, h3, h4⟩ | ⟨h0, h1, h2, h3⟩)
    · exact ⟨h1, h2, h3, by omega⟩
    · subst h0
      exact ⟨h1, h2, h3, by omega⟩

theorem scanStep_inv (flags : List Bool) (platformNodes : List Node) (st : ScanState)
    (i : Nat) (value : Bool) (hv : flags[i]? = some value) (hpn : i < platformNodes.length)
    (hloc : LocalInv flags i st) (hlong : LongestInv flags i st) :
    ∃ st1, scanStep flags platformNodes st i value = some st1 ∧
      LocalInv flags (i + 1) st1 ∧ LongestInv flags (i + 1) st1 := by
  obtain ⟨ls, le, lcs, lce, acp⟩ := st
  have hnode : platformNodes[i]? = some (platformNodes[i]) := List.getElem?_eq_getElem hpn
  cases value with
  | true =>
    -- the runs closed before i+1 are those closed before i
    have hcr : ∀ s e, ClosedRun flags (i + 1) s e → ClosedRun flags i s e := by
      intro s e h
      rcases (ClosedRun_succ flags i s e).mp h with h | ⟨_, _, _, h⟩
      · exact h
      · rw [hv] at h; simp at h
    have hlong1 : ∀ st1 : ScanState, st1.longestStart = ls → st1.longestEnd = le →
        LongestInv flags (i + 1) st1 := by
      intro st1 h1 h2
      rcases hlong with ⟨ha, hb, hall⟩ | ⟨a, b, ha, hb, hab, hrun, hall⟩
      · exact Or.inl ⟨by rw [h1]; exact ha, by rw [h2]; exact hb, fun s e h => hall s e (hcr s e h)⟩
      · exact Or.inr ⟨a, b, by rw [h1]; exact ha, by rw [h2]; exact hb, hab,
          (ClosedRun_succ flags i a b).mpr (Or.inl hrun), fun s e h => hall s e (hcr s e h)⟩
    rcases hloc with ⟨hs, hnone⟩ | ⟨a, b, ha, hb, hab, hbi, htrue, hleft, hgap⟩
    · simp only at hs
      subst hs
      refine ⟨⟨ls, le, i, i, acp ++ [platformNodes[i]]⟩, ?_, ?_, hlong1 _ rfl rfl⟩
      · simp [scanStep, hnode]
      · refine Or.inr ⟨i, i, rfl, rfl, le_refl _, by omega, ?_, ?_, ?_⟩
        · intro j h1 h2
          have : j = i := by omega
          subst this; exact hv
        · by_cases h0 : i = 0
          · exact Or.inl h0
          · exact Or.inr (hnone (i - 1) (by omega))
        · intro j h1 h2; omega
    · simp only at ha hb
      subst ha hb
      have hi : 0 < i := by omega
      have hnlt : ¬ ((a : Int) < 0) := by omega
      by_cases hbi1 : b = i - 1
      · have hprev : flags[i - 1]? = some true := htrue (i - 1) (by omega) (by omega)
        refine ⟨⟨ls, le, a, (b : Int) + 1, acp ++ [platformNodes[i]]⟩, ?_, ?_, hlong1 _ rfl rfl⟩
        · simp [scanStep, hnode, hnlt, goIndex_pred flags i hi, hprev]
        · refine Or.inr ⟨a, i, rfl, ?_, by omega, by omega, ?_, hleft, ?_⟩
          · simp only; omega
          · intro j h1 h2
            by_cases hj : j = i
            · subst hj; exact hv
            · exact htrue j h1 (by omega)
          · intro j h1 h2; omega
      · have hprev : flags[i - 1]? = some false := hgap (i - 1) (by omega) (by omega)
        refine ⟨⟨ls, le, i, i, acp ++ [platformNodes[i]]⟩, ?_, ?_, hlong1 _ rfl rfl⟩
        · simp [scanStep, hnode, hnlt, goIndex_pred flags i hi, hprev]
        · refine Or.inr ⟨i, i, rfl, rfl, le_refl _, by omega, ?_, Or.inr hprev, ?_⟩
          · intro j h1 h2
            have : j = i := by omega
            subst this; exact hv
          · intro j h1 h2; omega
  | false =>
    have hsplit := fun s e => (ClosedRun_succ flags i s e).mp
    rcases hloc with ⟨hs, hnone⟩ | ⟨a, b, ha, hb, hab, hbi, htrue, hleft, hgap⟩
    · simp only at hs
      subst hs
      -- no flag before i is true, so no run closes at i
      have hcr : ∀ s e, ClosedRun flags (i + 1) s e → ClosedRun flags i s e := by
        intro s e h
        rcases hsplit s e h with h | ⟨h1, h2, h3, _⟩
        · exact h
        · have := h3 e h2 (le_refl _)
          rw [hnone e (by omega)] at this; simp at this
      refine ⟨⟨ls, le, -1, lce, acp⟩, by simp [scanStep], ?_, ?_⟩
      · refine Or.inl ⟨rfl, ?_⟩
        intro j hj
        by_cases hji : j = i
        · subst hji; exact hv
        · exact hnone j (by omega)
      · rcases hlong with ⟨h1, h2, hall⟩ | ⟨la, lb, h1, h2, hlab, hrun, hall⟩
        · exact Or.inl ⟨h1, h2, fun s e h => hall s e (hcr s e h)⟩
        · exact Or.inr ⟨la, lb, h1, h2, hlab, (ClosedRun_succ flags i la lb).mpr (Or.inl hrun),
            fun s e h => hall s e (hcr s e h)⟩
    · simp only at ha hb
      subst ha hb
      have hi : 0 < i := by omega
      have hge : ((a : Int) ≥ 0) := by omega
      have hloc1 : ∀ st1 : ScanState, st1.localStart = a → st1.localEnd = b →
          LocalInv flags (i + 1) st1 := by
        intro st1 h1 h2
        refine Or.inr ⟨a, b, h1, h2, hab, by omega, htrue, hleft, ?_⟩
        intro j h3 h4
        by_cases hji : j = i
        · subst hji; exact hv
        · exact hgap j h3 (by omega)
      by_cases hbi1 : b = i - 1
      · have hprev : flags[i - 1]? = some true := htrue (i - 1) (by omega) (by omega)
        -- a run closing at i ends at b and starts at or after a
        have hnew : ∀ s e, e + 1 = i → s ≤ e → AllTrue flags s e → e = b ∧ a ≤ s := by
          intro s e h1 h2 h3
          refine ⟨by omega, ?_⟩
          by_contra hlt
          rcases hleft with h0 | h0
          · omega
          · have := h3 (a - 1) (by omega) (by omega)
            rw [h0] at this; simp at this
        have hclosed : ClosedRun flags (i + 1) a b :=
          ⟨hab, htrue, by rw [show b + 1 = i by omega]; exact hv, by omega⟩
        rcases hlong with ⟨h1, h2, hall⟩ | ⟨la, lb, h1, h2, hlab, hrun, hall⟩
        · simp only at h1 h2
          subst h1 h2
          by_cases hcmp : (b : Int) - a > (-1 : Int) - (-1)
          · have hlt : a < b := by omega
            refine ⟨⟨a, b, a, b, acp⟩, ?_, hloc1 _ rfl rfl, ?_⟩
            · simp [scanStep, hge, goIndex_pred flags i hi, hprev, hlt]
            · refine Or.inr ⟨a, b, rfl, rfl, by omega, hclosed, ?_⟩
              intro s e h
              rcases hsplit s e h with h | ⟨h3, h4, h5, _⟩
              · have := hall s e h
                left; omega
              · obtain ⟨h6, h7⟩ := hnew s e h3 h4 h5
                omega
          · have hle : b ≤ a := by omega
            refine ⟨⟨-1, -1, a, b, acp⟩, ?_, hloc1 _ rfl rfl, ?_⟩
            · simp [scanStep, hge, goIndex_pred flags i hi, hprev, hle]
            · refine Or.inl ⟨rfl, rfl, ?_⟩
              intro s e h
              rcases hsplit s e h with h | ⟨h3, h4, h5, _⟩
              · exact hall s e h
              · obtain ⟨h6, h7⟩ := hnew s e h3 h4 h5
                omega
        · simp only at h1 h2
          subst h1 h2
          have hlbi : lb + 1 < i := hrun.2.2.2
          by_cases hcmp : (b : Int) - a > (lb : Int) - la
          · refine ⟨⟨a, b, a, b, acp⟩, ?_, hloc1 _ rfl rfl, ?_⟩
            · simp [scanStep, hge, goIndex_pred flags i hi, hprev, hcmp]
            · refine Or.inr ⟨a, b, rfl, rfl, by omega, hclosed, ?_⟩
              intro s e h
              rcases hsplit s e h with h | ⟨h3, h4, h5, _⟩
              · have := hall s e h
                left; omega
              · obtain ⟨h6, h7⟩ := hnew s e h3 h4 h5
                omega
          · refine ⟨⟨la, lb, a, b, acp⟩, ?_, hloc1 _ rfl rfl, ?_⟩
            · simp [scanStep, hge, goIndex_pred flags i hi, hprev, hcmp]
            · refine Or.inr ⟨la, lb, rfl, rfl, hlab,
                (ClosedRun_succ flags i la lb).mpr (Or.inl hrun), ?_⟩
              intro s e h
              rcases hsplit s e h with h | ⟨h3, h4, h5, _⟩
              · exact hall s e h
              · obtain ⟨h6, h7⟩ := hnew s e h3 h4 h5
                omega
      · have hprev : flags[i - 1]? = some false := hgap (i - 1) (by omega) (by omega)
        have hcr : ∀ s e, ClosedRun flags (i + 1) s e → ClosedRun flags i s e := by
          intro s e h
          rcases hsplit s e h with h | ⟨h1, h2, h3, _⟩
          · exact h
          · have := h3 e h2 (le_refl _)
            rw [show e = i - 1 by omega, hprev] at this; simp at this
        refine ⟨⟨ls, le, a, b, acp⟩, ?_, hloc1 _ rfl rfl, ?_⟩
        · simp [scanStep, hge, goIndex_pred flags i hi, hprev]
        · rcases hlong with ⟨h1, h2, hall⟩ | ⟨la, lb, h1, h2, hlab, hrun, hall⟩
          · exact Or.inl ⟨h1, h2, fun s e h => hall s e (hcr s e h)⟩
          · exact Or.inr ⟨la, lb, h1, h2, hlab,
              (ClosedRun_succ flags i la lb).mpr (Or.inl hrun), fun s e h => hall s e (hcr s e h)⟩

theorem scanLoop_inv (flags : List Bool) (platformNodes : List Node)
    (hlen : flags.length ≤ platformNodes.length) (rest : List Bool) :
    ∀ (i : Nat) (st : ScanState), i ≤ flags.length → flags.drop i = rest →
      LocalInv flags i st → LongestInv flags i st →
      ∃ st1, scanLoop flags platformNodes i rest st = some st1 ∧
        LocalInv flags flags.length st1 ∧ LongestInv flags flags.length st1 := by
  induction rest with
  | nil =>
    intro i st hi hdrop hloc hlong
    have h1 : flags.length ≤ i := List.drop_eq_nil_iff.mp hdrop
    have h2 : i = flags.length := by omega
    subst h2
    exact ⟨st, by simp [scanLoop], hloc, hlong⟩
  | cons value rest ih =>
    intro i st hi hdrop hloc hlong
    have hlt : i < flags.length := by
      by_contra h
      have : flags.drop i = [] := List.drop_eq_nil_iff.mpr (by omega)
      rw [this] at hdrop; simp at hdrop
    rw [List.drop_eq_getElem_cons hlt] at hdrop
    have hval : flags[i]? = some value := by
      rw [List.getElem?_eq_getElem hlt]
      exact congrArg some (List.cons.inj hdrop).1
    obtain ⟨st1, hstep, hloc1, hlong1⟩ :=
      scanStep_inv flags platformNodes st i value hval (by omega) hloc hlong
    obtain ⟨st2, hloop, hloc2, hlong2⟩ :=
      ih (i + 1) st1 (by omega) (List.cons.inj hdrop).2 hloc1 hlong1
    exact ⟨st2, by simp [scanLoop, hstep, hloop], hloc2, hlong2⟩

theorem scanLoop_from_start (flags : List Bool) (platformNodes : List Node)
    (hlen : flags.length ≤ platformNodes.length) (allClosePoints : List Node) :
    ∃ st1, scanLoop flags platformNodes 0 flags ⟨-1, -1, -1, -1, allClosePoints⟩ = some st1 ∧
      LongestInv flags flags.length st1 := by
  obtain ⟨st1, h1, _, h3⟩ := scanLoop_inv flags platformNodes hlen flags 0
    ⟨-1, -1, -1, -1, allClosePoints⟩ (Nat.zero_le _) (by simp)
    (Or.inl ⟨rfl, fun j hj => by omega⟩)
    (Or.inl ⟨rfl, rfl, fun s e h => by have := h.2.2.2; omega⟩)
  exact ⟨st1, h1, h3⟩

theorem goSlice_ends {α : Type} (s : List α) (a b : Nat) (hab : a ≤ b) (hb : b < s.length) :
    ∃ r, goSlice s (a : Int) ((b : Int) + 1) = some r ∧ r[0]? = s[a]? ∧
      r[r.length - 1]? = s[b]? := by
  refine ⟨(s.take (b + 1)).drop a, ?_, ?_, ?_⟩
  · have h : (0 : Int) ≤ a ∧ (a : Int) ≤ (b : Int) + 1 ∧ (b : Int) + 1 ≤ s.length := by omega
    have h2 : ((b : Int) + 1).toNat = b + 1 := by omega
    simp [goSlice, h, h2]
  · rw [List.getElem?_drop, List.getElem?_take_of_lt (by omega)]
    simp
  · have hl : ((s.take (b + 1)).drop a).length = b + 1 - a := by
      simp [List.length_drop, List.length_take]; omega
    rw [hl, List.getElem?_drop, List.getElem?_take_of_lt (by omega)]
    congr 1; omega

theorem classifiedClose_congr (nodes : NodeTable) (trainTracks : List Ring) (a b : Node)
    (h : a.ID = b.ID) : classifiedClose nodes trainTracks a = classifiedClose nodes trainTracks b := by
  simp [classifiedClose, h]

/-- A closed boundary whose first node is not classified close is scanned unrotated: the
call is the endpoint extraction applied to the state `st` the scan ends in. -/
theorem SetPlatformSpine_closed_unfold (clearTail : Bool) (sourceNodes : List Node)
    (platformSpines : SpineMap) (trainTracks : List Ring) (nodes : NodeTable)
    (elementID : ElementID) (allClosePoints : List Node) (first last : Node)
    (hfirst : sourceNodes.head? = some first) (hlast : sourceNodes.getLast? = some last)
    (hid : first.ID = last.ID)
    (hpres : ∀ node ∈ sourceNodes, ∃ n, nodes node.ID = some n)
    (hnc : classifiedClose nodes trainTracks first = false) (st : ScanState)
    (hscan : scanLoop (sourceNodes.map (classifiedClose nodes trainTracks)) sourceNodes 0
      (sourceNodes.map (classifiedClose nodes trainTracks))
      ⟨-1, -1, -1, -1, allClosePoints⟩ = some st) :
    SetPlatformSpine clearTail sourceNodes platformSpines trainTracks nodes
      elementID allClosePoints =
      if st.longestStart ≥ 0 ∧ st.longestEnd > 0 then
        match goSlice sourceNodes st.longestStart (st.longestEnd + 1) with
        | none => none
        | some relevantNodes =>
          match relevantNodes[0]?, relevantNodes[relevantNodes.length - 1]? with
          | some firstRelevant, some lastRelevant =>
            match nodes firstRelevant.ID, nodes lastRelevant.ID with
            | some firstNode, some lastNode =>
              some (Function.update platformSpines elementID
                (some ⟨NodeToPoint firstNode, NodeToPoint lastNode⟩), st.allClosePoints)
            | _, _ => none
          | _, _ => none
      else some (platformSpines, st.allClosePoints) := by
  have hlen : sourceNodes.length ≠ 0 := by
    intro h
    rw [List.length_eq_zero] at h
    rw [h] at hfirst; simp at hfirst
  have h0 : sourceNodes[0]? = some first := by rw [← List.head?_eq_getElem?]; exact hfirst
  have hl : sourceNodes[sourceNodes.length - 1]? = some last := by
    rw [← List.getLast?_eq_getElem?]; exact hlast
  have hclass := classify_eq_map nodes trainTracks sourceNodes hpres
  have hsp : findStartingPoint (sourceNodes.map (classifiedClose nodes trainTracks)) 0 = 0 := by
    cases sourceNodes with
    | nil => simp at hlen
    | cons x rest =>
      simp only [List.head?_cons, Option.some.injEq] at hfirst
      subst hfirst
      simp [findStartingPoint, hnc]
  unfold SetPlatformSpine
  simp only []
  rw [if_pos hlen]
  simp only [h0, hl]
  rw [if_pos hid]
  simp only [hclass, hsp, deleteAndAppend_zero, hscan]

/-- A closed boundary whose first node is not classified close: the call either leaves the
mapping alone (no run of two or more nodes was closed) or writes the spine of the run
selected by the scan. -/
theorem SetPlatformSpine_unrotated (clearTail : Bool) (sourceNodes : List Node)
    (platformSpines : SpineMap) (trainTracks : List Ring) (nodes : NodeTable)
    (elementID : ElementID) (allClosePoints : List Node) (first last : Node)
    (hfirst : sourceNodes.head? = some first) (hlast : sourceNodes.getLast? = some last)
    (hid : first.ID = last.ID)
    (hpres : ∀ node ∈ sourceNodes, ∃ n, nodes node.ID = some n)
    (hnc : classifiedClose nodes trainTracks first = false) :
    ∃ st : ScanState,
      LongestInv (sourceNodes.map (classifiedClose nodes trainTracks)) sourceNodes.length st ∧
      ((st.longestStart = -1 ∧ st.longestEnd = -1 ∧
          SetPlatformSpine clearTail sourceNodes platformSpines trainTracks nodes elementID
            allClosePoints = some (platformSpines, st.allClosePoints)) ∨
       ∃ (a b : Nat) (nodeA nodeB nA nB : Node),
          st.longestStart = a ∧ st.longestEnd = b ∧ a < b ∧
          sourceNodes[a]? = some nodeA ∧ sourceNodes[b]? = some nodeB ∧
          nodes nodeA.ID = some nA ∧ nodes nodeB.ID = some nB ∧
          SetPlatformSpine clearTail sourceNodes platformSpines trainTracks nodes elementID
            allClosePoints =
            some (Function.update platformSpines elementID
              (some ⟨NodeToPoint nA, NodeToPoint nB⟩), st.allClosePoints)) := by
  obtain ⟨st, hscan, hlong⟩ := scanLoop_from_start
    (sourceNodes.map (classifiedClose nodes trainTracks)) sourceNodes (by simp) allClosePoints
  have hunfold := SetPlatformSpine_closed_unfold clearTail sourceNodes platformSpines
    trainTracks nodes elementID allClosePoints first last hfirst hlast hid hpres hnc st hscan
  simp only [List.length_map] at hlong
  refine ⟨st, by simpa using hlong, ?_⟩
  rcases hlong with ⟨h1, h2, _⟩ | ⟨a, b, h1, h2, hab, hrun, _⟩
  · left
    refine ⟨h1, h2, ?_⟩
    rw [hunfold, if_neg]
    rw [h1]; omega
  · right
    have hb : b < sourceNodes.length := by
      have := hrun.2.2.2
      omega
    obtain ⟨r, hr, hr0, hr1⟩ := goSlice_ends sourceNodes a b (by omega) hb
    obtain ⟨nA, hnA⟩ := hpres sourceNodes[a] (List.getElem_mem _)
    obtain ⟨nB, hnB⟩ := hpres sourceNodes[b] (List.getElem_mem _)
    have haq : sourceNodes[a]? = some sourceNodes[a] := List.getElem?_eq_getElem (by omega)
    have hbq : sourceNodes[b]? = some sourceNodes[b] := List.getElem?_eq_getElem hb
    refine ⟨a, b, sourceNodes[a], sourceNodes[b], nA, nB, h1, h2, hab, haq, hbq, hnA, hnB, ?_⟩
    rw [hunfold, if_pos (by rw [h1, h2]; omega), h1, h2, hr]
    simp only [hr0, hr1, haq, hbq, hnA, hnB]

theorem last_flag_false (nodes : NodeTable) (trainTracks : List Ring) (sourceNodes : List Node)
    (first last : Node) (hlast : sourceNodes.getLast? = some last) (hid : first.ID = last.ID)
    (hnc : classifiedClose nodes trainTracks first = false) :
    (sourceNodes.map (classifiedClose nodes trainTracks))[sourceNodes.length - 1]? =
      some false := by
  rw [List.getLast?_eq_getElem?] at hlast
  rw [List.getElem?_map, hlast]
  simp [← classifiedClose_congr nodes trainTracks first last hid, hnc]

/-- C2: for a closed boundary whose first node is not classified close (all node IDs in the
lookup table), if positions s..e are the longest stretch of close nodes, leftmost among the
stretches of that length, and hold at least two nodes, then SetPlatformSpine writes under
elementID the spine from the lookup-table point of node s to that of node e. -/
theorem SetPlatformSpine_leftmost_longest_run (clearTail : Bool) (sourceNodes : List Node)
    (platformSpines : SpineMap) (trainTracks : List Ring) (nodes : NodeTable)
    (elementID : ElementID) (allClosePoints : List Node) (first last : Node)
    (s e : Nat) (startNode endNode nStart nEnd : Node)
    (hfirst : sourceNodes.head? = some first) (hlast : sourceNodes.getLast? = some last)
    (hid : first.ID = last.ID)
    (hpres : ∀ node ∈ sourceNodes, ∃ n, nodes node.ID = some n)
    (hnc : classifiedClose nodes trainTracks first = false)
    (hrun : LeftmostLongestRun (sourceNodes.map (classifiedClose nodes trainTracks)) s e)
    (hse : s < e)
    (hs : sourceNodes[s]? = some startNode) (he : sourceNodes[e]? = some endNode)
    (hns : nodes startNode.ID = some nStart) (hne : nodes endNode.ID = some nEnd) :
    ∃ closePoints, SetPlatformSpine clearTail sourceNodes platformSpines trainTracks nodes
        elementID allClosePoints =
      some (Function.update platformSpines elementID
        (some ⟨NodeToPoint nStart, NodeToPoint nEnd⟩), closePoints) := by
  obtain ⟨st, hlong, hres⟩ := SetPlatformSpine_unrotated clearTail sourceNodes platformSpines
    trainTracks nodes elementID allClosePoints first last hfirst hlast hid hpres hnc
  have hlastF := last_flag_false nodes trainTracks sourceNodes first last hlast hid hnc
  obtain ⟨_, htrue, hbest⟩ := hrun
  -- the run is closed by a false flag before the end of the vector
  have heM : e < sourceNodes.length := by
    have := htrue e (by omega) (le_refl _)
    by_contra hc
    rw [List.getElem?_eq_none (by simp; omega)] at this
    simp at this
  have hne1 : e ≠ sourceNodes.length - 1 := by
    intro hc
    have := htrue e (by omega) (le_refl _)
    rw [hc, hlastF] at this; simp at this
  have hclose : (sourceNodes.map (classifiedClose nodes trainTracks))[e + 1]? = some false := by
    have hlt : e + 1 < (sourceNodes.map (classifiedClose nodes trainTracks)).length := by
      simp; omega
    rw [List.getElem?_eq_getElem hlt]
    cases hval : (sourceNodes.map (classifiedClose nodes trainTracks))[e + 1] with
    | false => rfl
    | true =>
      exfalso
      have hext : AllTrue (sourceNodes.map (classifiedClose nodes trainTracks)) s (e + 1) := by
        intro j h1 h2
        by_cases hj : j = e + 1
        · subst hj; rw [List.getElem?_eq_getElem hlt, hval]
        · exact htrue j h1 (by omega)
      have := hbest s (e + 1) (by omega) hext
      omega
  have hcr : ClosedRun (sourceNodes.map (classifiedClose nodes trainTracks))
      sourceNodes.length s e := ⟨by omega, htrue, hclose, by omega⟩
  rcases hres with ⟨h1, h2, _⟩ | ⟨a, b, nodeA, nodeB, nA, nB, h1, h2, hab, hA, hB, hnA, hnB, hset⟩
  · exfalso
    rcases hlong with ⟨_, _, hall⟩ | ⟨a, b, h3, _⟩
    · have := hall s e hcr
      omega
    · rw [h1] at h3; omega
  · rcases hlong with ⟨h3, _⟩ | ⟨a1, b1, h3, h4, _, hrunab, hall⟩
    · rw [h1] at h3; omega
    · have ha : a1 = a := by rw [h1] at h3; omega
      have hb : b1 = b := by rw [h2] at h4; omega
      subst ha hb
      have c1 := hall s e hcr
      have c2 := hbest a1 b1 (by omega) hrunab.2.1
      have hsa : a1 = s := by omega
      have hsb : b1 = e := by omega
      subst hsa hsb
      rw [hs] at hA
      rw [he] at hB
      simp only [Option.some.injEq] at hA hB
      subst hA hB
      rw [hns] at hnA
      rw [hne] at hnB
      simp only [Option.some.injEq] at hnA hnB
      subst hnA hnB
      exact ⟨st.allClosePoints, hset⟩

/-- C3 (amended): for a closed boundary whose first node is not classified close (all node
IDs in the lookup table) and a mapping without an entry for elementID, the call returns and
leaves elementID without an entry if and only if no two consecutive boundary nodes are both
classified close; so no entry is written when no node is close, nor when every close node
is isolated. -/
theorem SetPlatformSpine_writes_iff_adjacent (clearTail : Bool) (sourceNodes : List Node)
    (platformSpines : SpineMap) (trainTracks : List Ring) (nodes : NodeTable)
    (elementID : ElementID) (allClosePoints : List Node) (first last : Node)
    (hfirst : sourceNodes.head? = some first) (hlast : sourceNodes.getLast? = some last)
    (hid : first.ID = last.ID)
    (hpres : ∀ node ∈ sourceNodes, ∃ n, nodes node.ID = some n)
    (hnc : classifiedClose nodes trainTracks first = false)
    (hempty : platformSpines elementID = none) :
    ∃ spines closePoints,
      SetPlatformSpine clearTail sourceNodes platformSpines trainTracks nodes elementID
        allClosePoints = some (spines, closePoints) ∧
      (spines elementID = none ↔
        ¬ ∃ i a b, sourceNodes[i]? = some a ∧ sourceNodes[i + 1]? = some b ∧
          classifiedClose nodes trainTracks a = true ∧
          classifiedClose nodes trainTracks b = true) := by
  obtain ⟨st, hlong, hres⟩ := SetPlatformSpine_unrotated clearTail sourceNodes platformSpines
    trainTracks nodes elementID allClosePoints first last hfirst hlast hid hpres hnc
  have hlastF := last_flag_false nodes trainTracks sourceNodes first last hlast hid hnc
  rcases hres with ⟨h1, h2, hset⟩ | ⟨a, b, nodeA, nodeB, nA, nB, h1, h2, hab, hA, hB, hnA, hnB, hset⟩
  · refine ⟨platformSpines, st.allClosePoints, hset, ?_⟩
    simp only [hempty, true_iff]
    rintro ⟨i, x, y, hx, hy, hcx, hcy⟩
    rcases hlong with ⟨_, _, hall⟩ | ⟨a, b, h3, _⟩
    · have hfx : (sourceNodes.map (classifiedClose nodes trainTracks))[i]? = some true := by
        rw [List.getElem?_map, hx]; simp [hcx]
      have hfy : (sourceNodes.map (classifiedClose nodes trainTracks))[i + 1]? = some true := by
        rw [List.getElem?_map, hy]; simp [hcy]
      have hiM : i + 1 < sourceNodes.length := by
        by_contra hc
        rw [List.getElem?_eq_none (by omega)] at hy
        simp at hy
      have hex : ∃ j, i + 1 < j ∧
          (sourceNodes.map (classifiedClose nodes trainTracks))[j]? = some false := by
        refine ⟨sourceNodes.length - 1, ?_, hlastF⟩
        by_contra hc
        have : i + 1 = sourceNodes.length - 1 := by omega
        rw [this, hlastF] at hfy; simp at hfy
      obtain ⟨hj1, hj2⟩ := Nat.find_spec hex
      have hjM : Nat.find hex < sourceNodes.length := by
        by_contra hc
        rw [List.getElem?_eq_none (by rw [List.length_map]; omega)] at hj2
        simp at hj2
      have hrun : ClosedRun (sourceNodes.map (classifiedClose nodes trainTracks))
          sourceNodes.length i (Nat.find hex - 1) := by
        refine ⟨by omega, ?_, ?_, by omega⟩
        · intro t h1 h2
          by_cases ht : t = i
          · subst ht; exact hfx
          by_cases ht1 : t = i + 1
          · subst ht1; exact hfy
          have hmin := Nat.find_min hex (show t < Nat.find hex by omega)
          have hlt : t < (sourceNodes.map (classifiedClose nodes trainTracks)).length := by
            rw [List.length_map]; omega
          rw [List.getElem?_eq_getElem hlt] at hmin ⊢
          cases hval : (sourceNodes.map (classifiedClose nodes trainTracks))[t] with
          | true => rfl
          | false =>
            exfalso
            apply hmin
            rw [hval]
            exact ⟨by omega, rfl⟩
        · rw [show Nat.find hex - 1 + 1 = Nat.find hex by omega]; exact hj2
      have := hall i (Nat.find hex - 1) hrun
      omega
    · rw [h1] at h3; omega
  · refine ⟨_, st.allClosePoints, hset, ?_⟩
    simp only [Function.update_same, reduceCtorEq, false_iff, not_not]
    rcases hlong with ⟨h3, _⟩ | ⟨a1, b1, _, _, hab1, hrun, _⟩
    · rw [h1] at h3; omega
    · have t0 := hrun.2.1 a1 (le_refl _) (by omega)
      have t1 := hrun.2.1 (a1 + 1) (by omega) (by omega)
      rw [List.getElem?_map, Option.map_eq_some'] at t0 t1
      obtain ⟨x, hx, hcx⟩ := t0
      obtain ⟨y, hy, hcy⟩ := t1
      exact ⟨a1, x, y, hx, hy, hcx, hcy⟩

/-! ## Results on SetPlatformSpine -/

theorem IsPointInRectangle_malformed (ring : Ring) (point : Point)
    (h : ring.length ≠ 5 ∨ ring.head? ≠ ring.getLast?) :
    IsPointInRectangle ring point = (false, some "test") := by
  by_cases hlen : ring.length = 5
  · match ring, hlen with
    | [a, b, c, d, e], _ =>
      rw [IsPointInRectangle_five]
      have hae : a ≠ e := by
        rcases h with h | h
        · simp at h
        · simpa using h
      simp [hae]
  · simp [IsPointInRectangle, hlen]

theorem classifiedClose_skip_malformed (nodes : NodeTable) (before after : List Ring)
    (bad : Ring) (hbad : bad.length ≠ 5 ∨ bad.head? ≠ bad.getLast?) (node : Node) :
    classifiedClose nodes (before ++ bad :: after) node =
      classifiedClose nodes (before ++ after) node := by
  unfold classifiedClose
  cases nodes node.ID with
  | none => rfl
  | some n =>
    simp [List.any_append, IsPointInRectangle_malformed bad _ hbad]

theorem scanLoop_all_false (flags : List Bool) (platformNodes : List Node) (rest : List Bool)
    (hrest : ∀ b ∈ rest, b = false) (index : Nat) (st : ScanState) (hst : st.localStart < 0) :
    scanLoop flags platformNodes index rest st = some st := by
  induction rest generalizing index with
  | nil => simp [scanLoop]
  | cons value rest ih =>
    have hv : value = false := hrest value (List.mem_cons_self _ _)
    subst hv
    have hstep : scanStep flags platformNodes st index false = some st := by
      have : ¬ st.localStart ≥ 0 := by omega
      simp [scanStep, this]
    simp only [scanLoop, hstep]
    exact ih (fun b hb => hrest b (List.mem_cons_of_mem _ hb)) (index + 1)

/-- C7: when every boundary node ID is in the lookup table, the classification loop returns
one flag per node, and the flag of node i is true if and only if some rectangle of
trainTracks makes IsPointInRectangle return (true, no error) on the node's lookup-table
point; removing a malformed rectangle from trainTracks leaves every flag unchanged. -/
theorem classify_flags (nodes : NodeTable) (trainTracks : List Ring) (sourceNodes : List Node)
    (hpres : ∀ node ∈ sourceNodes, ∃ n, nodes node.ID = some n) :
    ∃ flags, classify nodes trainTracks sourceNodes = some flags ∧
      flags.length = sourceNodes.length ∧
      (∀ (i : Nat) (node n : Node), sourceNodes[i]? = some node → nodes node.ID = some n →
        ∃ flag, flags[i]? = some flag ∧
          (flag = true ↔
            ∃ bound ∈ trainTracks, IsPointInRectangle bound (NodeToPoint n) = (true, none))) ∧
      (∀ (before after : List Ring) (bad : Ring), trainTracks = before ++ bad :: after →
        (bad.length ≠ 5 ∨ bad.head? ≠ bad.getLast?) →
        classify nodes (before ++ after) sourceNodes = some flags) := by
  refine ⟨sourceNodes.map (classifiedClose nodes trainTracks),
    classify_eq_map nodes trainTracks sourceNodes hpres, by simp, ?_, ?_⟩
  · intro i node n hi hn
    refine ⟨classifiedClose nodes trainTracks node, by simp [List.getElem?_map, hi], ?_⟩
    simp [classifiedClose, hn]
  · intro before after bad htt hbad
    rw [classify_eq_map nodes (before ++ after) sourceNodes hpres, htt]
    congr 1
    apply List.map_congr_left
    intro node _
    exact (classifiedClose_skip_malformed nodes before after bad hbad node).symm

/-- C4: for an open boundary (first and last node IDs differ, both in the lookup table) and
every list of rectangles, SetPlatformSpine writes under elementID the spine from the
lookup-table point (Lon, Lat) of the first node to that of the last node and leaves
allClosePoints as it was. -/
theorem SetPlatformSpine_open (clearTail : Bool) (sourceNodes : List Node)
    (platformSpines : SpineMap) (nodes : NodeTable) (elementID : ElementID)
    (allClosePoints : List Node) (first last nFirst nLast : Node)
    (hfirst : sourceNodes.head? = some first) (hlast : sourceNodes.getLast? = some last)
    (hopen : first.ID ≠ last.ID)
    (hnf : nodes first.ID = some nFirst) (hnl : nodes last.ID = some nLast)
    (trainTracks : List Ring) :
    SetPlatformSpine clearTail sourceNodes platformSpines trainTracks nodes elementID
        allClosePoints =
      some (Function.update platformSpines elementID
        (some ⟨⟨nFirst.Lon, nFirst.Lat⟩, ⟨nLast.Lon, nLast.Lat⟩⟩), allClosePoints) := by
  have hlen : sourceNodes.length ≠ 0 := by
    intro h
    rw [List.length_eq_zero] at h
    rw [h] at hfirst; simp at hfirst
  have h0 : sourceNodes[0]? = some first := by rw [← List.head?_eq_getElem?]; exact hfirst
  have hl : sourceNodes[sourceNodes.length - 1]? = some last := by
    rw [← List.getLast?_eq_getElem?]; exact hlast
  unfold SetPlatformSpine
  simp only []
  rw [if_pos hlen]
  simp only [h0, hl]
  rw [if_neg hopen]
  simp only [hnf, hnl, NodeToPoint]

/-- C8: if sourceNodes is empty, or the boundary is closed (all node IDs in the lookup
table) and no boundary node is classified close, SetPlatformSpine returns the mapping and
allClosePoints exactly as they were. -/
theorem SetPlatformSpine_no_spine (clearTail : Bool) (sourceNodes : List Node)
    (platformSpines : SpineMap) (trainTracks : List Ring) (nodes : NodeTable)
    (elementID : ElementID) (allClosePoints : List Node)
    (h : sourceNodes = [] ∨
      ((∃ first last, sourceNodes.head? = some first ∧ sourceNodes.getLast? = some last ∧
          first.ID = last.ID) ∧
        (∀ node ∈ sourceNodes, ∃ n, nodes node.ID = some n) ∧
        ∀ node ∈ sourceNodes, classifiedClose nodes trainTracks node = false)) :
    SetPlatformSpine clearTail sourceNodes platformSpines trainTracks nodes elementID
        allClosePoints = some (platformSpines, allClosePoints) := by
  rcases h with h | ⟨⟨first, last, hfirst, hlast, hid⟩, hpres, hfar⟩
  · subst h
    simp [SetPlatformSpine]
  · have hmem : first ∈ sourceNodes := List.mem_of_mem_head? hfirst
    have hscan := scanLoop_all_false (sourceNodes.map (classifiedClose nodes trainTracks))
      sourceNodes (sourceNodes.map (classifiedClose nodes trainTracks))
      (by
        intro b hb
        obtain ⟨node, hn, rfl⟩ := List.mem_map.mp hb
        exact hfar node hn)
      0 ⟨-1, -1, -1, -1, allClosePoints⟩ (by simp)
    rw [SetPlatformSpine_closed_unfold clearTail sourceNodes platformSpines trainTracks nodes
      elementID allClosePoints first last hfirst hlast hid hpres (hfar first hmem) _ hscan]
    simp

/-- C10: running SetPlatformSpine a second time on the outputs of the first run leaves the
mapping as the first run left it, and what a run does to the mapping (panic, nothing, or
the write of one fixed spine under elementID) does not depend on the prior contents of the
mapping or of allClosePoints. -/
theorem SetPlatformSpine_idempotent (clearTail : Bool) (sourceNodes : List Node)
    (trainTracks : List Ring) (nodes : NodeTable) (elementID : ElementID) :
    (∀ (platformSpines : SpineMap) (allClosePoints : List Node),
      ((SetPlatformSpine clearTail sourceNodes platformSpines trainTracks nodes elementID
          allClosePoints).bind fun r =>
        SetPlatformSpine clearTail sourceNodes r.1 trainTracks nodes elementID r.2).map
          Prod.fst =
      (SetPlatformSpine clearTail sourceNodes platformSpines trainTracks nodes elementID
        allClosePoints).map Prod.fst) ∧
    ∃ written : Option (Option PlatformSpine),
      ∀ (platformSpines : SpineMap) (allClosePoints : List Node),
        (SetPlatformSpine clearTail sourceNodes platformSpines trainTracks nodes elementID
          allClosePoints).map Prod.fst =
        written.map fun w =>
          match w with
          | none => platformSpines
          | some spine => Function.update platformSpines elementID (some spine) := by
  constructor
  · intro platformSpines allClosePoints
    rw [SetPlatformSpine_eq_outcome clearTail sourceNodes platformSpines]
    cases hout : spineOutcome clearTail sourceNodes trainTracks nodes with
    | none => simp
    | some o =>
      simp only [Option.map_some', Option.some_bind]
      rw [SetPlatformSpine_eq_outcome, hout]
      obtain ⟨w, newClose⟩ := o
      cases w <;> simp [writeSpine]
  · refine ⟨(spineOutcome clearTail sourceNodes trainTracks nodes).map Prod.fst, ?_⟩
    intro platformSpines allClosePoints
    rw [SetPlatformSpine_eq_outcome clearTail sourceNodes platformSpines]
    cases hout : spineOutcome clearTail sourceNodes trainTracks nodes with
    | none => simp
    | some o =>
      obtain ⟨w, newClose⟩ := o
      cases w <;> simp [writeSpine]

/-! ## The calls on the example inputs -/

theorem exampleBox_inside (px py : ℚ) :
    IsPointInRectangle exampleBox ⟨px, py⟩ =
      (decide (0 ≤ py ∧ 0 ≤ px ∧ py ≤ 10 ∧ px ≤ 10), none) := by
  unfold exampleBox
  rw [IsPointInRectangle_five]
  simp only [crossProduct, if_true]
  congr 1
  apply decide_eq_decide.mpr
  constructor
  · rintro ⟨h0, h1, h2, h3⟩
    refine ⟨?_, ?_, ?_, ?_⟩ <;> linarith
  · rintro ⟨h0, h1, h2, h3⟩
    refine ⟨?_, ?_, ?_, ?_⟩ <;> linarith

theorem exampleNodes_close (node : Node) :
    classifiedClose exampleNodes [exampleBox] node =
      decide (node.ID = 10 ∨ node.ID = 11 ∨ node.ID = 16) := by
  unfold classifiedClose exampleNodes
  split_ifs with h1 h2 h3 h4 h5 h6 h7 <;>
    simp [mkNode, NodeToPoint, exampleBox_inside, *] <;> norm_num

theorem wrapBoundary_present :
    ∀ node ∈ wrapBoundary, ∃ n, exampleNodes node.ID = some n := by
  simp [wrapBoundary, exampleNodes, mkNode]

theorem lineBoundary_present :
    ∀ node ∈ lineBoundary, ∃ n, exampleNodes node.ID = some n := by
  simp [lineBoundary, exampleNodes, mkNode]

theorem isolatedBoundary_present :
    ∀ node ∈ isolatedBoundary, ∃ n, exampleNodes node.ID = some n := by
  simp [isolatedBoundary, exampleNodes, mkNode]

theorem farBoundary_present :
    ∀ node ∈ farBoundary, ∃ n, exampleNodes node.ID = some n := by
  simp [farBoundary, exampleNodes, mkNode]

theorem wrapBoundary_flags :
    wrapBoundary.map (classifiedClose exampleNodes [exampleBox]) =
      [true, true, false, false, false, false, true, true] := by
  simp [wrapBoundary, exampleNodes_close, mkNode]

theorem lineBoundary_flags :
    lineBoundary.map (classifiedClose exampleNodes [exampleBox]) =
      [false, true, true, true, false, false] := by
  simp [lineBoundary, exampleNodes_close, mkNode]

theorem isolatedBoundary_flags :
    isolatedBoundary.map (classifiedClose exampleNodes [exampleBox]) =
      [false, true, false] := by
  simp [isolatedBoundary, exampleNodes_close, mkNode]

theorem lineBoundary_run :
    LeftmostLongestRun (lineBoundary.map (classifiedClose exampleNodes [exampleBox])) 1 3 := by
  rw [lineBoundary_flags]
  refine ⟨by omega, ?_, ?_⟩
  · intro j h1 h2
    interval_cases j <;> rfl
  · intro s1 e1 hse hall
    have hs := hall s1 (le_refl _) hse
    have he := hall e1 hse (le_refl _)
    have hs6 : s1 < 6 := by
      by_contra hc
      rw [List.getElem?_eq_none (by simp; omega)] at hs
      simp at hs
    have he6 : e1 < 6 := by
      by_contra hc
      rw [List.getElem?_eq_none (by simp; omega)] at he
      simp at he
    interval_cases s1 <;> interval_cases e1 <;> simp at hs he hse ⊢

/-- C1 (failing input): on the 8-node closed boundary whose close nodes are exactly the
indices 6, 7, 0, 1, under either behaviour of slices.Delete, the spine written runs from
node 6's point (1,1) to node 7's point (2,2), not to node 1's point (3,3). -/
theorem SetPlatformSpine_wrap_example (clearTail : Bool) :
    wrapBoundary.map (classifiedClose exampleNodes [exampleBox]) =
      [true, true, false, false, false, false, true, true] ∧
    (exampleNodes 16).map NodeToPoint = some ⟨1, 1⟩ ∧
    (exampleNodes 10).map NodeToPoint = some ⟨2, 2⟩ ∧
    (exampleNodes 11).map NodeToPoint = some ⟨3, 3⟩ ∧
    (SetPlatformSpine clearTail wrapBoundary (fun _ => none) [exampleBox] exampleNodes 7 []).map
        (fun r => r.1 7) = some (some ⟨⟨1, 1⟩, ⟨2, 2⟩⟩) ∧
    (SetPlatformSpine clearTail wrapBoundary (fun _ => none) [exampleBox] exampleNodes 7 []).map
        (fun r => r.1 7) ≠ some (some ⟨⟨1, 1⟩, ⟨3, 3⟩⟩) := by
  have heval : (SetPlatformSpine clearTail wrapBoundary (fun _ => none) [exampleBox]
      exampleNodes 7 []).map (fun r => r.1 7) = some (some ⟨⟨1, 1⟩, ⟨2, 2⟩⟩) := by
    unfold SetPlatformSpine
    simp only [classify_eq_map _ _ _ wrapBoundary_present, wrapBoundary_flags]
    cases clearTail <;> rfl
  refine ⟨wrapBoundary_flags, rfl, rfl, rfl, heval, ?_⟩
  rw [heval]
  simp

/-- C3 (counterexample): the closed boundary `isolatedBoundary` has a node classified close,
yet the call, under either behaviour of slices.Delete, writes no entry for elementID. -/
theorem SetPlatformSpine_isolated_counterexample :
    isolatedBoundary.head?.map Node.ID = isolatedBoundary.getLast?.map Node.ID ∧
    (∃ node ∈ isolatedBoundary, classifiedClose exampleNodes [exampleBox] node = true) ∧
    (SetPlatformSpine true isolatedBoundary (fun _ => none) [exampleBox] exampleNodes 7 []).map
        (fun r => r.1 7) = some none ∧
    (SetPlatformSpine false isolatedBoundary (fun _ => none) [exampleBox] exampleNodes 7 []).map
        (fun r => r.1 7) = some none := by
  refine ⟨rfl, ⟨mkNode 10 2 2, by simp [isolatedBoundary], by simp [exampleNodes_close, mkNode]⟩,
    ?_, ?_⟩
  · unfold SetPlatformSpine
    simp only [classify_eq_map _ _ _ isolatedBoundary_present, isolatedBoundary_flags]
    rfl
  · unfold SetPlatformSpine
    simp only [classify_eq_map _ _ _ isolatedBoundary_present, isolatedBoundary_flags]
    rfl

/-- C2 on the 6-node closed boundary whose close nodes are exactly the indices 1, 2, 3: the
spine runs from node 1's point to node 3's point. -/
theorem SetPlatformSpine_leftmost_longest_run_witness :
    LeftmostLongestRun (lineBoundary.map (classifiedClose exampleNodes [exampleBox])) 1 3 ∧
    ∃ closePoints,
      SetPlatformSpine true lineBoundary (fun _ => none) [exampleBox] exampleNodes 7 [] =
        some (Function.update (fun _ => none) 7
          (some ⟨NodeToPoint (mkNode 16 1 1), NodeToPoint (mkNode 11 3 3)⟩), closePoints) :=
  ⟨lineBoundary_run,
    SetPlatformSpine_leftmost_longest_run true lineBoundary (fun _ => none) [exampleBox]
      exampleNodes 7 [] (mkNode 12 20 0) (mkNode 12 20 0) 1 3 (mkNode 16 1 1) (mkNode 11 3 3)
      (mkNode 16 1 1) (mkNode 11 3 3) rfl rfl rfl lineBoundary_present
      (by simp [exampleNodes_close, mkNode]) lineBoundary_run (by decide) rfl rfl rfl rfl⟩

/-- C3 (amended) on the closed boundary whose only close node is isolated. -/
theorem SetPlatformSpine_writes_iff_adjacent_witness :
    classifiedClose exampleNodes [exampleBox] (mkNode 12 20 0) = false ∧
    ∃ spines closePoints,
      SetPlatformSpine true isolatedBoundary (fun _ => none) [exampleBox] exampleNodes 7 [] =
        some (spines, closePoints) ∧
      (spines 7 = none ↔
        ¬ ∃ i a b, isolatedBoundary[i]? = some a ∧ isolatedBoundary[i + 1]? = some b ∧
          classifiedClose exampleNodes [exampleBox] a = true ∧
          classifiedClose exampleNodes [exampleBox] b = true) :=
  ⟨by simp [exampleNodes_close, mkNode],
    SetPlatformSpine_writes_iff_adjacent true isolatedBoundary (fun _ => none) [exampleBox]
      exampleNodes 7 [] (mkNode 12 20 0) (mkNode 12 20 0) rfl rfl rfl isolatedBoundary_present
      (by simp [exampleNodes_close, mkNode]) rfl⟩

/-- C4 on an open boundary of 3 nodes. -/
theorem SetPlatformSpine_open_witness :
    (mkNode 12 20 0).ID ≠ (mkNode 13 21 0).ID ∧
    SetPlatformSpine true openBoundary (fun _ => none) [exampleBox] exampleNodes 7 [] =
      some (Function.update (fun _ => none) 7 (some ⟨⟨20, 0⟩, ⟨21, 0⟩⟩), []) :=
  ⟨by decide,
    SetPlatformSpine_open true openBoundary (fun _ => none) exampleNodes 7 []
      (mkNode 12 20 0) (mkNode 13 21 0) (mkNode 12 20 0) (mkNode 13 21 0) rfl rfl
      (by decide) rfl rfl [exampleBox]⟩

/-- C7 on the 8-node closed boundary and the single rectangle `exampleBox`. -/
theorem classify_flags_witness :
    (∀ node ∈ wrapBoundary, ∃ n, exampleNodes node.ID = some n) ∧
    ∃ flags, classify exampleNodes [exampleBox] wrapBoundary = some flags ∧
      flags.length = wrapBoundary.length ∧
      (∀ (i : Nat) (node n : Node), wrapBoundary[i]? = some node →
        exampleNodes node.ID = some n →
        ∃ flag, flags[i]? = some flag ∧
          (flag = true ↔
            ∃ bound ∈ [exampleBox], IsPointInRectangle bound (NodeToPoint n) = (true, none))) ∧
      (∀ (before after : List Ring) (bad : Ring), [exampleBox] = before ++ bad :: after →
        (bad.length ≠ 5 ∨ bad.head? ≠ bad.getLast?) →
        classify exampleNodes (before ++ after) wrapBoundary = some flags) :=
  ⟨wrapBoundary_present, classify_flags exampleNodes [exampleBox] wrapBoundary wrapBoundary_present⟩

/-- C8 on a closed boundary without any close node. -/
theorem SetPlatformSpine_no_spine_witness :
    (∀ node ∈ farBoundary, classifiedClose exampleNodes [exampleBox] node = false) ∧
    SetPlatformSpine true farBoundary (fun _ => none) [exampleBox] exampleNodes 7 [] =
      some (fun _ => none, []) :=
  ⟨by simp [farBoundary, exampleNodes_close, mkNode],
    SetPlatformSpine_no_spine true farBoundary (fun _ => none) [exampleBox] exampleNodes 7 []
      (Or.inr ⟨⟨mkNode 12 20 0, mkNode 12 20 0, rfl, rfl, rfl⟩, farBoundary_present,
        by simp [farBoundary, exampleNodes_close, mkNode]⟩)⟩

/-! ## Bearings, winding and the frame of the mapping -/

theorem GetRotatedBoundWithPad_bearings (Bearing : Point → Point → ℚ)
    (PointAtBearingAndDistance : Point → ℚ → ℚ → Point) (p1 p2 : Point) (d : ℚ) :
    GetRotatedBoundWithPad Bearing PointAtBearingAndDistance p1 p2 d =
      [PointAtBearingAndDistance p1 (perpendicularBearings (Bearing p1 p2)).1 d,
       PointAtBearingAndDistance p1 (perpendicularBearings (Bearing p1 p2)).2 d,
       PointAtBearingAndDistance p2 (perpendicularBearings (Bearing p1 p2)).2 d,
       PointAtBearingAndDistance p2 (perpendicularBearings (Bearing p1 p2)).1 d,
       PointAtBearingAndDistance p1 (perpendicularBearings (Bearing p1 p2)).1 d] := by
  unfold GetRotatedBoundWithPad perpendicularBearings
  by_cases h : Bearing p1 p2 < 90 <;> simp [h]

/-- In exact arithmetic, GetRotatedBoundWithPad projects along the pair (bearingUp,
bearingDown) of `perpendicularBearings`, and for every segment bearing b, on both sides of
the branch, bearingUp is b + 90 and bearingDown is b - 90 up to a multiple of 360, so the
two differ by 180 up to a multiple of 360.  The float64 behaviour is settled in the last
section. -/
theorem perpendicularBearings_opposite (Bearing : Point → Point → ℚ)
    (PointAtBearingAndDistance : Point → ℚ → ℚ → Point) (p1 p2 : Point) (d : ℚ) :
    GetRotatedBoundWithPad Bearing PointAtBearingAndDistance p1 p2 d =
      [PointAtBearingAndDistance p1 (perpendicularBearings (Bearing p1 p2)).1 d,
       PointAtBearingAndDistance p1 (perpendicularBearings (Bearing p1 p2)).2 d,
       PointAtBearingAndDistance p2 (perpendicularBearings (Bearing p1 p2)).2 d,
       PointAtBearingAndDistance p2 (perpendicularBearings (Bearing p1 p2)).1 d,
       PointAtBearingAndDistance p1 (perpendicularBearings (Bearing p1 p2)).1 d] ∧
    ∀ b : ℚ,
      (∃ m : ℤ, (perpendicularBearings b).1 = b + 90 + 360 * m) ∧
      (∃ m : ℤ, (perpendicularBearings b).2 = b - 90 + 360 * m) ∧
      (∃ m : ℤ, (perpendicularBearings b).1 - (perpendicularBearings b).2 = 180 + 360 * m) := by
  refine ⟨GetRotatedBoundWithPad_bearings _ _ _ _ _, ?_⟩
  intro b
  unfold perpendicularBearings
  by_cases h : b < 90
  · simp only [h, if_true]
    exact ⟨⟨0, by simp⟩, ⟨1, by push_cast; ring⟩, ⟨-1, by push_cast; ring⟩⟩
  · simp only [h, if_false]
    exact ⟨⟨0, by simp⟩, ⟨0, by simp⟩, ⟨0, by push_cast; ring⟩⟩

/-- C17 (failing input): for the segment bearing -135, which lies in [-180, 180], bearingUp
is -45, below 0; for the segment bearing 300, which lies in [0, 360), bearingUp is 390,
not below 360. The ring is then projected along these unnormalized bearings. -/
theorem perpendicularBearings_not_normalized :
    ((-180 : ℚ) ≤ -135 ∧ (-135 : ℚ) ≤ 180) ∧
    perpendicularBearings (-135) = (-45, 135) ∧ ¬ ((0 : ℚ) ≤ (perpendicularBearings (-135)).1) ∧
    ((0 : ℚ) ≤ 300 ∧ (300 : ℚ) < 360) ∧
    perpendicularBearings 300 = (390, 210) ∧ ¬ ((perpendicularBearings 300).1 < 360) ∧
    ∀ (PointAtBearingAndDistance : Point → ℚ → ℚ → Point) (p1 p2 : Point) (d : ℚ),
      GetRotatedBoundWithPad (fun _ _ => -135) PointAtBearingAndDistance p1 p2 d =
        [PointAtBearingAndDistance p1 (-45) d, PointAtBearingAndDistance p1 135 d,
         PointAtBearingAndDistance p2 135 d, PointAtBearingAndDistance p2 (-45) d,
         PointAtBearingAndDistance p1 (-45) d] := by
  have h1 : perpendicularBearings (-135) = (-45, 135) := by
    unfold perpendicularBearings; norm_num
  have h2 : perpendicularBearings 300 = (390, 210) := by
    unfold perpendicularBearings; norm_num
  refine ⟨by norm_num, h1, by rw [h1]; norm_num, by norm_num, h2, by rw [h2]; norm_num, ?_⟩
  intro P p1 p2 d
  rw [GetRotatedBoundWithPad_bearings, h1]

/-- In exact arithmetic, on the counter-clockwise ring of the axis-aligned box with corners
(x0,y0) and (x1,y1), IsPointInRectangle returns (false, no error) for every point.  The
float64 behaviour is settled in the last section. -/
theorem IsPointInRectangle_counterclockwise (x0 x1 y0 y1 px py : ℚ) (hx : x0 < x1)
    (hy : y0 < y1) :
    IsPointInRectangle [⟨x0, y0⟩, ⟨x1, y0⟩, ⟨x1, y1⟩, ⟨x0, y1⟩, ⟨x0, y0⟩] ⟨px, py⟩ =
      (false, none) := by
  have hx1 : 0 < x1 - x0 := sub_pos.mpr hx
  have hy1 : 0 < y1 - y0 := sub_pos.mpr hy
  rw [IsPointInRectangle_five]
  simp only [if_true, Prod.mk.injEq, and_true, decide_eq_false_iff_not]
  rintro ⟨h0, _, h2, _⟩
  simp only [crossProduct] at h0 h2
  have a0 : (x1 - x0) * (py - y0) ≤ 0 := by linarith
  have a2 : (x1 - x0) * (y1 - py) ≤ 0 := by linarith
  have b0 : py - y0 ≤ 0 := by
    by_contra hc
    have := mul_pos hx1 (not_le.mp hc)
    linarith
  have b2 : y1 - py ≤ 0 := by
    by_contra hc
    have := mul_pos hx1 (not_le.mp hc)
    linarith
  linarith

/-- In exact arithmetic, at the box [0,10]×[0,10] and its centre (5,5): classified
outside. -/
theorem IsPointInRectangle_counterclockwise_witness :
    ((0 : ℚ) < 10 ∧ (0 : ℚ) < 10) ∧
    IsPointInRectangle [⟨0, 0⟩, ⟨10, 0⟩, ⟨10, 10⟩, ⟨0, 10⟩, ⟨0, 0⟩] ⟨5, 5⟩ = (false, none) :=
  ⟨by norm_num, IsPointInRectangle_counterclockwise 0 10 0 10 5 5 (by norm_num) (by norm_num)⟩

/-- C19: a call that returns leaves every key other than elementID as it was, removes no
entry, and either leaves the whole mapping as it was or stores one spine under
elementID. -/
theorem SetPlatformSpine_frame (clearTail : Bool) (sourceNodes : List Node)
    (platformSpines : SpineMap) (trainTracks : List Ring) (nodes : NodeTable)
    (elementID : ElementID) (allClosePoints : List Node) (spines : SpineMap)
    (closePoints : List Node)
    (h : SetPlatformSpine clearTail sourceNodes platformSpines trainTracks nodes elementID
      allClosePoints = some (spines, closePoints)) :
    (∀ key, key ≠ elementID → spines key = platformSpines key) ∧
    (∀ key, platformSpines key ≠ none → spines key ≠ none) ∧
    (spines = platformSpines ∨
      ∃ spine, spines = Function.update platformSpines elementID (some spine)) := by
  rw [SetPlatformSpine_eq_outcome] at h
  cases hout : spineOutcome clearTail sourceNodes trainTracks nodes with
  | none => rw [hout] at h; simp at h
  | some o =>
    rw [hout] at h
    simp only [Option.map_some', Option.some.injEq, Prod.mk.injEq] at h
    obtain ⟨h1, _⟩ := h
    subst h1
    obtain ⟨w, newClose⟩ := o
    cases w with
    | none => simp [writeSpine]
    | some spine =>
      refine ⟨?_, ?_, Or.inr ⟨spine, rfl⟩⟩
      · intro key hkey
        simp [writeSpine, Function.update_noteq hkey]
      · intro key hkey
        by_cases hk : key = elementID
        · subst hk; simp [writeSpine]
        · simpa [writeSpine, Function.update_noteq hk] using hkey

/-! ## The vectors scanned for a closed boundary -/

theorem replicate_related {α β : Type} (R : α → β → Prop) (a : α) (b : β) (h : R a b)
    (n : Nat) : List.Forall₂ R (List.replicate n a) (List.replicate n b) := by
  induction n with
  | zero => exact List.Forall₂.nil
  | succ n ih => exact List.Forall₂.cons h ih

/-- The call slices.Delete treats two parallel slices alike: a relation that holds
position by position, and between the two zero values, still holds afterwards. -/
theorem slicesDelete_related {α β : Type} (R : α → β → Prop) (clearTail : Bool)
    (zero1 : α) (zero2 : β) (hz : R zero1 zero2) (s : List α) (t : List β)
    (h : List.Forall₂ R s t) (i j : Nat) :
    List.Forall₂ R (slicesDelete clearTail zero1 s i j) (slicesDelete clearTail zero2 t i j) := by
  unfold slicesDelete
  by_cases hij : i = j
  · simp only [hij, if_true]; exact h
  · simp only [hij, if_false]
    have hlen := h.length_eq
    have hkept : List.Forall₂ R (s.take i ++ s.drop j) (t.take i ++ t.drop j) :=
      List.rel_append (List.forall₂_take i h) (List.forall₂_drop j h)
    have hklen := hkept.length_eq
    refine List.rel_append hkept ?_
    cases clearTail with
    | true =>
      simp only [if_true]
      rw [hlen, hklen]
      exact replicate_related R zero1 zero2 hz _
    | false =>
      simp only [Bool.false_eq_true, if_false]
      rw [hklen]
      exact List.forall₂_drop _ h

theorem deleteAndAppend_related {α β : Type} (R : α → β → Prop) (clearTail : Bool)
    (zero1 : α) (zero2 : β) (hz : R zero1 zero2) (s : List α) (t : List β)
    (h : List.Forall₂ R s t) (k : Nat) :
    List.Forall₂ R (deleteAndAppend clearTail zero1 s k) (deleteAndAppend clearTail zero2 t k) := by
  unfold deleteAndAppend
  have hd := slicesDelete_related R clearTail zero1 zero2 hz s t h 0 k
  exact List.rel_append hd (List.forall₂_take k hd)

/-- After lines 141-150 the flag vector and the node vector are still parallel: they have
the same length, and wherever the flag is true the node at the same position is a node of
`sourceNodes` that is classified close. -/
theorem scanned_parallel (clearTail : Bool) (nodes : NodeTable) (trainTracks : List Ring)
    (sourceNodes : List Node) (k : Nat) :
    (deleteAndAppend clearTail false (sourceNodes.map (classifiedClose nodes trainTracks))
        k).length = (deleteAndAppend clearTail Node.zero sourceNodes k).length ∧
    ∀ j : Nat, (deleteAndAppend clearTail false
        (sourceNodes.map (classifiedClose nodes trainTracks)) k)[j]? = some true →
      ∃ node, (deleteAndAppend clearTail Node.zero sourceNodes k)[j]? = some node ∧
        node ∈ sourceNodes ∧ classifiedClose nodes trainTracks node = true := by
  have hbase : List.Forall₂
      (fun (flag : Bool) (node : Node) => flag = true →
        node ∈ sourceNodes ∧ classifiedClose nodes trainTracks node = true)
      (sourceNodes.map (classifiedClose nodes trainTracks)) sourceNodes := by
    rw [List.forall₂_map_left_iff, List.forall₂_same]
    intro x hx hc
    exact ⟨hx, hc⟩
  have hrel := deleteAndAppend_related _ clearTail false Node.zero (by simp)
    _ _ hbase k
  refine ⟨hrel.length_eq, ?_⟩
  intro j hj
  have hjlt : j < (deleteAndAppend clearTail false
      (sourceNodes.map (classifiedClose nodes trainTracks)) k).length := by
    by_contra hc
    rw [List.getElem?_eq_none (by omega)] at hj
    simp at hj
  have hjlt2 : j < (deleteAndAppend clearTail Node.zero sourceNodes k).length := by
    rw [← hrel.length_eq]; exact hjlt
  have hget := hrel.get hjlt hjlt2
  rw [List.getElem?_eq_getElem hjlt] at hj
  simp only [Option.some.injEq] at hj
  simp only [List.get_eq_getElem] at hget
  obtain ⟨hmem, hclose⟩ := hget hj
  exact ⟨_, List.getElem?_eq_getElem hjlt2, hmem, hclose⟩

theorem closenessLoop_some (nodes : NodeTable) (trainTracks : List Ring) (node : Node)
    (flag : Bool) (h : closenessLoop nodes node trainTracks false = some flag) :
    flag = classifiedClose nodes trainTracks node := by
  cases trainTracks with
  | nil =>
    simp only [closenessLoop, Option.some.injEq] at h
    subst h
    unfold classifiedClose
    cases nodes node.ID <;> simp
  | cons bound rest =>
    cases hn : nodes node.ID with
    | none => simp [closenessLoop, hn] at h
    | some n =>
      rw [closenessLoop_eq nodes node n hn] at h
      simp only [Bool.false_or, Option.some.injEq] at h
      subst h
      simp [classifiedClose, hn]

theorem classify_some_eq (nodes : NodeTable) (trainTracks : List Ring)
    (sourceNodes : List Node) (flags : List Bool)
    (h : classify nodes trainTracks sourceNodes = some flags) :
    flags = sourceNodes.map (classifiedClose nodes trainTracks) := by
  induction sourceNodes generalizing flags with
  | nil => simp [classify] at h; simp [h]
  | cons node rest ih =>
    simp only [classify] at h
    cases hc : closenessLoop nodes node trainTracks false with
    | none => simp [hc] at h
    | some flag =>
      cases hr : classify nodes trainTracks rest with
      | none => simp [hc, hr] at h
      | some restFlags =>
        simp only [hc, hr, Option.some.injEq] at h
        subst h
        simp [closenessLoop_some nodes trainTracks node flag hc, ih restFlags hr]

theorem classifiedClose_present (nodes : NodeTable) (trainTracks : List Ring) (node : Node)
    (h : classifiedClose nodes trainTracks node = true) : ∃ n, nodes node.ID = some n := by
  unfold classifiedClose at h
  cases hn : nodes node.ID with
  | none => simp [hn] at h
  | some n => exact ⟨n, rfl⟩

/-- A closed boundary whose classification panics makes the call panic. -/
theorem SetPlatformSpine_closed_none (clearTail : Bool) (sourceNodes : List Node)
    (platformSpines : SpineMap) (trainTracks : List Ring) (nodes : NodeTable)
    (elementID : ElementID) (allClosePoints : List Node) (first last : Node)
    (hfirst : sourceNodes.head? = some first) (hlast : sourceNodes.getLast? = some last)
    (hid : first.ID = last.ID) (hclass : classify nodes trainTracks sourceNodes = none) :
    SetPlatformSpine clearTail sourceNodes platformSpines trainTracks nodes elementID
      allClosePoints = none := by
  have hlen : sourceNodes.length ≠ 0 := by
    intro h
    rw [List.length_eq_zero] at h
    rw [h] at hfirst; simp at hfirst
  have h0 : sourceNodes[0]? = some first := by rw [← List.head?_eq_getElem?]; exact hfirst
  have hl : sourceNodes[sourceNodes.length - 1]? = some last := by
    rw [← List.getLast?_eq_getElem?]; exact hlast
  unfold SetPlatformSpine
  simp only []
  rw [if_pos hlen]
  simp only [h0, hl]
  rw [if_pos hid]
  simp only [hclass]

/-- A closed boundary: the call is the endpoint extraction applied to the state `st` in
which the scan of the vectors left by lines 141-150 ends. -/
theorem SetPlatformSpine_closed_scan (clearTail : Bool) (sourceNodes : List Node)
    (platformSpines : SpineMap) (trainTracks : List Ring) (nodes : NodeTable)
    (elementID : ElementID) (allClosePoints : List Node) (first last : Node)
    (hfirst : sourceNodes.head? = some first) (hlast : sourceNodes.getLast? = some last)
    (hid : first.ID = last.ID) (flags : List Bool)
    (hclass : classify nodes trainTracks sourceNodes = some flags)
    (scannedFlags : List Bool) (scannedNodes : List Node)
    (hsf : scannedFlags = deleteAndAppend clearTail false flags (findStartingPoint flags 0))
    (hsn : scannedNodes =
      deleteAndAppend clearTail Node.zero sourceNodes (findStartingPoint flags 0))
    (st : ScanState)
    (hscan : scanLoop scannedFlags scannedNodes 0 scannedFlags
      ⟨-1, -1, -1, -1, allClosePoints⟩ = some st) :
    SetPlatformSpine clearTail sourceNodes platformSpines trainTracks nodes
      elementID allClosePoints =
      if st.longestStart ≥ 0 ∧ st.longestEnd > 0 then
        match goSlice scannedNodes st.longestStart (st.longestEnd + 1) with
        | none => none
        | some relevantNodes =>
          match relevantNodes[0]?, relevantNodes[relevantNodes.length - 1]? with
          | some firstRelevant, some lastRelevant =>
            match nodes firstRelevant.ID, nodes lastRelevant.ID with
            | some firstNode, some lastNode =>
              some (Function.update platformSpines elementID
                (some ⟨NodeToPoint firstNode, NodeToPoint lastNode⟩), st.allClosePoints)
            | _, _ => none
          | _, _ => none
      else some (platformSpines, st.allClosePoints) := by
  have hlen : sourceNodes.length ≠ 0 := by
    intro h
    rw [List.length_eq_zero] at h
    rw [h] at hfirst; simp at hfirst
  have h0 : sourceNodes[0]? = some first := by rw [← List.head?_eq_getElem?]; exact hfirst
  have hl : sourceNodes[sourceNodes.length - 1]? = some last := by
    rw [← List.getLast?_eq_getElem?]; exact hlast
  subst hsf hsn
  unfold SetPlatformSpine
  simp only []
  rw [if_pos hlen]
  simp only [h0, hl]
  rw [if_pos hid]
  simp only [hclass, hscan]

/-- A closed boundary whose classification succeeds: the scan returns, and the call either
leaves the mapping alone or writes the spine between two close nodes of `sourceNodes`
found at positions a < b of the scanned vectors, with every flag from a to b true. -/
theorem SetPlatformSpine_closed_cases (clearTail : Bool) (sourceNodes : List Node)
    (platformSpines : SpineMap) (trainTracks : List Ring) (nodes : NodeTable)
    (elementID : ElementID) (allClosePoints : List Node) (first last : Node)
    (hfirst : sourceNodes.head? = some first) (hlast : sourceNodes.getLast? = some last)
    (hid : first.ID = last.ID)
    (hclass : classify nodes trainTracks sourceNodes =
      some (sourceNodes.map (classifiedClose nodes trainTracks)))
    (scannedFlags : List Bool) (scannedNodes : List Node)
    (hsf : scannedFlags = deleteAndAppend clearTail false
      (sourceNodes.map (classifiedClose nodes trainTracks))
      (findStartingPoint (sourceNodes.map (classifiedClose nodes trainTracks)) 0))
    (hsn : scannedNodes = deleteAndAppend clearTail Node.zero sourceNodes
      (findStartingPoint (sourceNodes.map (classifiedClose nodes trainTracks)) 0)) :
    ∃ st : ScanState,
      scanLoop scannedFlags scannedNodes 0 scannedFlags
        ⟨-1, -1, -1, -1, allClosePoints⟩ = some st ∧
      LongestInv scannedFlags scannedFlags.length st ∧
      ((st.longestStart = -1 ∧ st.longestEnd = -1 ∧
          SetPlatformSpine clearTail sourceNodes platformSpines trainTracks nodes elementID
            allClosePoints = some (platformSpines, st.allClosePoints)) ∨
       ∃ (a b : Nat) (nodeA nodeB nA nB : Node),
          st.longestStart = a ∧ st.longestEnd = b ∧ a < b ∧ b < scannedNodes.length ∧
          AllTrue scannedFlags a b ∧
          scannedNodes[a]? = some nodeA ∧ scannedNodes[b]? = some nodeB ∧
          nodeA ∈ sourceNodes ∧ nodeB ∈ sourceNodes ∧
          classifiedClose nodes trainTracks nodeA = true ∧
          classifiedClose nodes trainTracks nodeB = true ∧
          nodes nodeA.ID = some nA ∧ nodes nodeB.ID = some nB ∧
          SetPlatformSpine clearTail sourceNodes platformSpines trainTracks nodes elementID
            allClosePoints =
            some (Function.update platformSpines elementID
              (some ⟨NodeToPoint nA, NodeToPoint nB⟩), st.allClosePoints)) := by
  obtain ⟨hplen, hpar⟩ := scanned_parallel clearTail nodes trainTracks sourceNodes
    (findStartingPoint (sourceNodes.map (classifiedClose nodes trainTracks)) 0)
  rw [← hsf, ← hsn] at hplen hpar
  obtain ⟨st, hscan, hlong⟩ := scanLoop_from_start scannedFlags scannedNodes (by omega)
    allClosePoints
  have hunfold := SetPlatformSpine_closed_scan clearTail sourceNodes platformSpines
    trainTracks nodes elementID allClosePoints first last hfirst hlast hid _ hclass
    scannedFlags scannedNodes hsf hsn st hscan
  refine ⟨st, hscan, hlong, ?_⟩
  rcases hlong with ⟨h1, h2, _⟩ | ⟨a, b, h1, h2, hab, hrun, _⟩
  · left
    refine ⟨h1, h2, ?_⟩
    rw [hunfold, if_neg]
    rw [h1]; omega
  · right
    have hb : b < scannedNodes.length := by
      have := hrun.2.2.2
      omega
    obtain ⟨r, hr, hr0, hr1⟩ := goSlice_ends scannedNodes a b (by omega) hb
    obtain ⟨nodeA, hA, hAmem, hAclose⟩ := hpar a (hrun.2.1 a (le_refl _) (by omega))
    obtain ⟨nodeB, hB, hBmem, hBclose⟩ := hpar b (hrun.2.1 b (by omega) (le_refl _))
    obtain ⟨nA, hnA⟩ := classifiedClose_present nodes trainTracks nodeA hAclose
    obtain ⟨nB, hnB⟩ := classifiedClose_present nodes trainTracks nodeB hBclose
    refine ⟨a, b, nodeA, nodeB, nA, nB, h1, h2, hab, hb, hrun.2.1, hA, hB, hAmem, hBmem,
      hAclose, hBclose, hnA, hnB, ?_⟩
    rw [hunfold, if_pos (by rw [h1, h2]; omega), h1, h2, hr]
    simp only [hr0, hr1, hA, hB, hnA, hnB]

theorem findStartingPoint_all_true (flags : List Bool) (h : ∀ b ∈ flags, b = true)
    (index : Nat) : findStartingPoint flags index = 0 := by
  induction flags generalizing index with
  | nil => rfl
  | cons value rest ih =>
    have hv : value = true := h value (List.mem_cons_self _ _)
    subst hv
    simp only [findStartingPoint, Bool.true_eq_false, if_false]
    exact ih (fun b hb => h b (List.mem_cons_of_mem _ hb)) (index + 1)

/-- C12: for a closed boundary in which every node is classified close, the starting point
is 0, the scanned vectors are the original ones (no rotation), and the call returns with
the mapping unchanged: no spine is written. -/
theorem SetPlatformSpine_all_close (clearTail : Bool) (sourceNodes : List Node)
    (platformSpines : SpineMap) (trainTracks : List Ring) (nodes : NodeTable)
    (elementID : ElementID) (allClosePoints : List Node) (first last : Node)
    (hfirst : sourceNodes.head? = some first) (hlast : sourceNodes.getLast? = some last)
    (hid : first.ID = last.ID)
    (hall : ∀ node ∈ sourceNodes, classifiedClose nodes trainTracks node = true) :
    findStartingPoint (sourceNodes.map (classifiedClose nodes trainTracks)) 0 = 0 ∧
    deleteAndAppend clearTail false (sourceNodes.map (classifiedClose nodes trainTracks))
      (findStartingPoint (sourceNodes.map (classifiedClose nodes trainTracks)) 0) =
      sourceNodes.map (classifiedClose nodes trainTracks) ∧
    deleteAndAppend clearTail Node.zero sourceNodes
      (findStartingPoint (sourceNodes.map (classifiedClose nodes trainTracks)) 0) =
      sourceNodes ∧
    ∃ closePoints,
      SetPlatformSpine clearTail sourceNodes platformSpines trainTracks nodes elementID
        allClosePoints = some (platformSpines, closePoints) := by
  have hflags : ∀ b ∈ sourceNodes.map (classifiedClose nodes trainTracks), b = true := by
    intro b hb
    obtain ⟨node, hn, rfl⟩ := List.mem_map.mp hb
    exact hall node hn
  have hsp := findStartingPoint_all_true _ hflags 0
  have hclass := classify_eq_map nodes trainTracks sourceNodes
    (fun node hn => classifiedClose_present nodes trainTracks node (hall node hn))
  refine ⟨hsp, by rw [hsp, deleteAndAppend_zero], by rw [hsp, deleteAndAppend_zero], ?_⟩
  obtain ⟨st, _, hlong, hres⟩ := SetPlatformSpine_closed_cases clearTail sourceNodes
    platformSpines trainTracks nodes elementID allClosePoints first last hfirst hlast hid hclass
    _ _ rfl rfl
  rcases hres with ⟨_, _, hset⟩ | ⟨a, b, _, _, _, _, h1, _⟩
  · exact ⟨st.allClosePoints, hset⟩
  · exfalso
    rcases hlong with ⟨h3, _⟩ | ⟨a1, b1, _, _, _, hrun, _⟩
    · rw [h1] at h3; omega
    · have hfalse := hrun.2.2.1
      rw [hsp, deleteAndAppend_zero] at hfalse
      have hmem := List.getElem?_mem hfalse
      have := hflags false hmem
      simp at this

/-- C13: when a call on a closed boundary stores a spine under a key that had no entry,
the spine runs between the lookup-table points of two nodes of sourceNodes that are
classified close, found at two positions a < b of the scanned node vector, and every
scanned flag from a to b is true. -/
theorem SetPlatformSpine_anchored_on_close (clearTail : Bool) (sourceNodes : List Node)
    (platformSpines : SpineMap) (trainTracks : List Ring) (nodes : NodeTable)
    (elementID : ElementID) (allClosePoints : List Node) (first last : Node)
    (spines : SpineMap) (closePoints : List Node) (spine : PlatformSpine)
    (hfirst : sourceNodes.head? = some first) (hlast : sourceNodes.getLast? = some last)
    (hid : first.ID = last.ID)
    (hcall : SetPlatformSpine clearTail sourceNodes platformSpines trainTracks nodes elementID
      allClosePoints = some (spines, closePoints))
    (hbefore : platformSpines elementID = none) (hafter : spines elementID = some spine) :
    ∃ (a b : Nat) (nodeA nodeB nA nB : Node),
      a < b ∧
      (∀ j : Nat, a ≤ j → j ≤ b →
        (deleteAndAppend clearTail false (sourceNodes.map (classifiedClose nodes trainTracks))
          (findStartingPoint (sourceNodes.map (classifiedClose nodes trainTracks)) 0))[j]? =
          some true) ∧
      (deleteAndAppend clearTail Node.zero sourceNodes
        (findStartingPoint (sourceNodes.map (classifiedClose nodes trainTracks)) 0))[a]? =
        some nodeA ∧
      (deleteAndAppend clearTail Node.zero sourceNodes
        (findStartingPoint (sourceNodes.map (classifiedClose nodes trainTracks)) 0))[b]? =
        some nodeB ∧
      nodeA ∈ sourceNodes ∧ nodeB ∈ sourceNodes ∧
      classifiedClose nodes trainTracks nodeA = true ∧
      classifiedClose nodes trainTracks nodeB = true ∧
      nodes nodeA.ID = some nA ∧ nodes nodeB.ID = some nB ∧
      spine = ⟨NodeToPoint nA, NodeToPoint nB⟩ := by
  cases hc : classify nodes trainTracks sourceNodes with
  | none =>
    rw [SetPlatformSpine_closed_none clearTail sourceNodes platformSpines trainTracks nodes
      elementID allClosePoints first last hfirst hlast hid hc] at hcall
    simp at hcall
  | some flags =>
    have hflags := classify_some_eq nodes trainTracks sourceNodes flags hc
    subst hflags
    obtain ⟨st, _, _, hres⟩ := SetPlatformSpine_closed_cases clearTail sourceNodes
      platformSpines trainTracks nodes elementID allClosePoints first last hfirst hlast hid hc
      _ _ rfl rfl
    rcases hres with ⟨_, _, hset⟩ |
      ⟨a, b, nodeA, nodeB, nA, nB, _, _, hab, _, htrue, hA, hB, hAm, hBm, hAc, hBc, hnA, hnB,
        hset⟩
    · rw [hset] at hcall
      simp only [Option.some.injEq, Prod.mk.injEq] at hcall
      rw [← hcall.1, hbefore] at hafter
      simp at hafter
    · rw [hset] at hcall
      simp only [Option.some.injEq, Prod.mk.injEq] at hcall
      rw [← hcall.1, Function.update_same] at hafter
      simp only [Option.some.injEq] at hafter
      exact ⟨a, b, nodeA, nodeB, nA, nB, hab, htrue, hA, hB, hAm, hBm, hAc, hBc, hnA, hnB,
        hafter.symm⟩

/-- C15: if every node ID of sourceNodes is in the lookup table, the call returns (no read
out of range, no missing lookup), the scan of the closed-boundary vectors returns, and the
indices it selects are either both -1 or satisfy 0 ≤ longestStart < longestEnd <
len(platformNodes). -/
theorem SetPlatformSpine_in_range (clearTail : Bool) (sourceNodes : List Node)
    (platformSpines : SpineMap) (trainTracks : List Ring) (nodes : NodeTable)
    (elementID : ElementID) (allClosePoints : List Node)
    (hpres : ∀ node ∈ sourceNodes, ∃ n, nodes node.ID = some n) :
    (∃ result, SetPlatformSpine clearTail sourceNodes platformSpines trainTracks nodes elementID
      allClosePoints = some result) ∧
    ∃ flags st, classify nodes trainTracks sourceNodes = some flags ∧
      scanLoop (deleteAndAppend clearTail false flags (findStartingPoint flags 0))
        (deleteAndAppend clearTail Node.zero sourceNodes (findStartingPoint flags 0)) 0
        (deleteAndAppend clearTail false flags (findStartingPoint flags 0))
        ⟨-1, -1, -1, -1, allClosePoints⟩ = some st ∧
      ((st.longestStart = -1 ∧ st.longestEnd = -1) ∨
        (0 ≤ st.longestStart ∧ st.longestStart < st.longestEnd ∧
          st.longestEnd <
            (deleteAndAppend clearTail Node.zero sourceNodes
              (findStartingPoint flags 0)).length)) := by
  have hclass := classify_eq_map nodes trainTracks sourceNodes hpres
  obtain ⟨hplen, _⟩ := scanned_parallel clearTail nodes trainTracks sourceNodes
    (findStartingPoint (sourceNodes.map (classifiedClose nodes trainTracks)) 0)
  constructor
  · cases hsrc : sourceNodes with
    | nil => exact ⟨(platformSpines, allClosePoints), by simp [SetPlatformSpine]⟩
    | cons x rest =>
      rw [← hsrc]
      have hne : sourceNodes ≠ [] := by rw [hsrc]; simp
      have hfirst : sourceNodes.head? = some (sourceNodes.head hne) := List.head?_eq_head hne
      have hlast : sourceNodes.getLast? = some (sourceNodes.getLast hne) :=
        List.getLast?_eq_getLast _ hne
      by_cases hid : (sourceNodes.head hne).ID = (sourceNodes.getLast hne).ID
      · obtain ⟨st, _, _, hres⟩ := SetPlatformSpine_closed_cases clearTail sourceNodes
          platformSpines trainTracks nodes elementID allClosePoints _ _ hfirst hlast hid hclass
          _ _ rfl rfl
        rcases hres with ⟨_, _, hset⟩ | ⟨a, b, nodeA, nodeB, nA, nB, hwrite⟩
        · exact ⟨_, hset⟩
        · exact ⟨_, hwrite.2.2.2.2.2.2.2.2.2.2.2.2.2⟩
      · obtain ⟨nF, hnF⟩ := hpres _ (List.head_mem hne)
        obtain ⟨nL, hnL⟩ := hpres _ (List.getLast_mem hne)
        have h0 : sourceNodes[0]? = some (sourceNodes.head hne) := by
          rw [← List.head?_eq_getElem?]; exact hfirst
        have hl : sourceNodes[sourceNodes.length - 1]? = some (sourceNodes.getLast hne) := by
          rw [← List.getLast?_eq_getElem?]; exact hlast
        have hlen : sourceNodes.length ≠ 0 := by
          rw [hsrc]; simp
        refine ⟨(Function.update platformSpines elementID
          (some ⟨NodeToPoint nF, NodeToPoint nL⟩), allClosePoints), ?_⟩
        unfold SetPlatformSpine
        simp only []
        rw [if_pos hlen]
        simp only [h0, hl]
        rw [if_neg hid]
        simp only [hnF, hnL]
  · obtain ⟨st, hscan, hlong⟩ := scanLoop_from_start
      (deleteAndAppend clearTail false (sourceNodes.map (classifiedClose nodes trainTracks))
        (findStartingPoint (sourceNodes.map (classifiedClose nodes trainTracks)) 0))
      (deleteAndAppend clearTail Node.zero sourceNodes
        (findStartingPoint (sourceNodes.map (classifiedClose nodes trainTracks)) 0))
      (by omega) allClosePoints
    refine ⟨_, st, hclass, hscan, ?_⟩
    rcases hlong with ⟨h1, h2, _⟩ | ⟨a, b, h1, h2, hab, hrun, _⟩
    · exact Or.inl ⟨h1, h2⟩
    · right
      have := hrun.2.2.2
      rw [h1, h2]
      omega

/-! ## Further calls on the example inputs -/

/-- C11 (failing input): on the 8-node closed boundary whose first non-close node is at
index 2, the flag vector and the node vector that are scanned have length 10, not 8, and the
flag vector differs from the cyclic left-rotation by 2 under either behaviour of
slices.Delete. -/
theorem deleteAndAppend_wrap_example (clearTail : Bool) :
    wrapBoundary.length = 8 ∧
    findStartingPoint (wrapBoundary.map (classifiedClose exampleNodes [exampleBox])) 0 = 2 ∧
    (wrapBoundary.map (classifiedClose exampleNodes [exampleBox])).rotate 2 =
      [false, false, false, false, true, true, true, true] ∧
    deleteAndAppend clearTail false
        (wrapBoundary.map (classifiedClose exampleNodes [exampleBox])) 2 =
      (if clearTail then [false, false, false, false, true, true, false, false, false, false]
       else [false, false, false, false, true, true, true, true, false, false]) ∧
    (deleteAndAppend clearTail false
        (wrapBoundary.map (classifiedClose exampleNodes [exampleBox])) 2).length = 10 ∧
    (deleteAndAppend clearTail Node.zero wrapBoundary 2).map Node.ID =
      (if clearTail then [12, 13, 14, 15, 16, 10, 0, 0, 12, 13]
       else [12, 13, 14, 15, 16, 10, 16, 10, 12, 13]) := by
  rw [wrapBoundary_flags]
  cases clearTail <;> exact ⟨rfl, rfl, rfl, rfl, rfl, rfl⟩

/-- C14 (failing input): on the 8-node closed boundary the close nodes are those at indices
0, 1, 6, 7 (IDs 10, 11, 16, 10), but the call appends the nodes with IDs 16, 10 (or 16, 10,
16, 10 when slices.Delete leaves the tail): node 11 at index 1 is missing. -/
theorem SetPlatformSpine_closePoints_wrap_example (clearTail : Bool) :
    (wrapBoundary.filter (classifiedClose exampleNodes [exampleBox])).map Node.ID =
      [10, 11, 16, 10] ∧
    (SetPlatformSpine clearTail wrapBoundary (fun _ => none) [exampleBox] exampleNodes 7 []).map
        (fun r => r.2.map Node.ID) =
      some (if clearTail then [16, 10] else [16, 10, 16, 10]) := by
  constructor
  · simp [wrapBoundary, exampleNodes_close, mkNode, List.filter]
  · unfold SetPlatformSpine
    simp only [classify_eq_map _ _ _ wrapBoundary_present, wrapBoundary_flags]
    cases clearTail <;> rfl

theorem insideBoundary_close :
    ∀ node ∈ insideBoundary, classifiedClose exampleNodes [exampleBox] node = true := by
  simp [insideBoundary, exampleNodes_close, mkNode]

theorem wrapBoundary_call :
    SetPlatformSpine true wrapBoundary (fun _ => none) [exampleBox] exampleNodes 7 [] =
      some (Function.update (fun _ => none) 7 (some ⟨⟨1, 1⟩, ⟨2, 2⟩⟩),
        [mkNode 16 1 1, mkNode 10 2 2]) := by
  unfold SetPlatformSpine
  simp only [classify_eq_map _ _ _ wrapBoundary_present, wrapBoundary_flags]
  rfl

/-- C12 on a closed boundary of 4 nodes that are all close: nothing is written. -/
theorem SetPlatformSpine_all_close_witness :
    (∀ node ∈ insideBoundary, classifiedClose exampleNodes [exampleBox] node = true) ∧
    findStartingPoint (insideBoundary.map (classifiedClose exampleNodes [exampleBox])) 0 = 0 ∧
    deleteAndAppend true false (insideBoundary.map (classifiedClose exampleNodes [exampleBox]))
      (findStartingPoint (insideBoundary.map (classifiedClose exampleNodes [exampleBox])) 0) =
      insideBoundary.map (classifiedClose exampleNodes [exampleBox]) ∧
    deleteAndAppend true Node.zero insideBoundary
      (findStartingPoint (insideBoundary.map (classifiedClose exampleNodes [exampleBox])) 0) =
      insideBoundary ∧
    ∃ closePoints,
      SetPlatformSpine true insideBoundary (fun _ => none) [exampleBox] exampleNodes 7 [] =
        some (fun _ => none, closePoints) :=
  ⟨insideBoundary_close,
    SetPlatformSpine_all_close true insideBoundary (fun _ => none) [exampleBox] exampleNodes 7 []
      (mkNode 10 2 2) (mkNode 10 2 2) rfl rfl rfl insideBoundary_close⟩

/-- C13 on the 8-node closed boundary whose close nodes are the indices 6, 7, 0, 1. -/
theorem SetPlatformSpine_anchored_on_close_witness :
    ∃ (a b : Nat) (nodeA nodeB nA nB : Node),
      a < b ∧
      (∀ j : Nat, a ≤ j → j ≤ b →
        (deleteAndAppend true false (wrapBoundary.map (classifiedClose exampleNodes [exampleBox]))
          (findStartingPoint (wrapBoundary.map (classifiedClose exampleNodes [exampleBox]))
            0))[j]? = some true) ∧
      (deleteAndAppend true Node.zero wrapBoundary
        (findStartingPoint (wrapBoundary.map (classifiedClose exampleNodes [exampleBox]))
          0))[a]? = some nodeA ∧
      (deleteAndAppend true Node.zero wrapBoundary
        (findStartingPoint (wrapBoundary.map (classifiedClose exampleNodes [exampleBox]))
          0))[b]? = some nodeB ∧
      nodeA ∈ wrapBoundary ∧ nodeB ∈ wrapBoundary ∧
      classifiedClose exampleNodes [exampleBox] nodeA = true ∧
      classifiedClose exampleNodes [exampleBox] nodeB = true ∧
      exampleNodes nodeA.ID = some nA ∧ exampleNodes nodeB.ID = some nB ∧
      (⟨⟨1, 1⟩, ⟨2, 2⟩⟩ : PlatformSpine) = ⟨NodeToPoint nA, NodeToPoint nB⟩ :=
  SetPlatformSpine_anchored_on_close true wrapBoundary (fun _ => none) [exampleBox] exampleNodes
    7 [] (mkNode 10 2 2) (mkNode 10 2 2) _ _ ⟨⟨1, 1⟩, ⟨2, 2⟩⟩ rfl rfl rfl wrapBoundary_call rfl
    (by simp)

/-- C15 on the 8-node closed boundary whose close nodes are the indices 6, 7, 0, 1. -/
theorem SetPlatformSpine_in_range_witness :
    (∀ node ∈ wrapBoundary, ∃ n, exampleNodes node.ID = some n) ∧
    (∃ result, SetPlatformSpine true wrapBoundary (fun _ => none) [exampleBox] exampleNodes 7
      [] = some result) ∧
    ∃ flags st, classify exampleNodes [exampleBox] wrapBoundary = some flags ∧
      scanLoop (deleteAndAppend true false flags (findStartingPoint flags 0))
        (deleteAndAppend true Node.zero wrapBoundary (findStartingPoint flags 0)) 0
        (deleteAndAppend true false flags (findStartingPoint flags 0))
        ⟨-1, -1, -1, -1, []⟩ = some st ∧
      ((st.longestStart = -1 ∧ st.longestEnd = -1) ∨
        (0 ≤ st.longestStart ∧ st.longestStart < st.longestEnd ∧
          st.longestEnd <
            (deleteAndAppend true Node.zero wrapBoundary
              (findStartingPoint flags 0)).length)) :=
  ⟨wrapBoundary_present,
    SetPlatformSpine_in_range true wrapBoundary (fun _ => none) [exampleBox] exampleNodes 7 []
      wrapBoundary_present⟩

/-- C19 on the 8-node closed boundary: only the key 7 is written. -/
theorem SetPlatformSpine_frame_witness :
    (∀ key, key ≠ 7 →
      (Function.update (fun _ => none) 7 (some ⟨⟨1, 1⟩, ⟨2, 2⟩⟩) : SpineMap) key = none) ∧
    (∀ key, (fun _ => none : SpineMap) key ≠ none →
      (Function.update (fun _ => none) 7 (some ⟨⟨1, 1⟩, ⟨2, 2⟩⟩) : SpineMap) key ≠ none) ∧
    ((Function.update (fun _ => none) 7 (some ⟨⟨1, 1⟩, ⟨2, 2⟩⟩) : SpineMap) = (fun _ => none) ∨
      ∃ spine, (Function.update (fun _ => none) 7 (some ⟨⟨1, 1⟩, ⟨2, 2⟩⟩) : SpineMap) =
        Function.update (fun _ => none) 7 (some spine)) :=
  SetPlatformSpine_frame true wrapBoundary (fun _ => none) [exampleBox] exampleNodes 7 [] _ _
    wrapBoundary_call

/-! ## The classifier and the bearings in float64 arithmetic -/

theorem roundHalfEven_bounds (x : ℚ) (hx : 0 ≤ x) :
    x - 1 / 2 ≤ (roundHalfEven x : ℚ) ∧ (roundHalfEven x : ℚ) ≤ x + 1 / 2 := by
  have h1 := Nat.floor_le hx
  have h2 := Nat.lt_floor_add_one x
  unfold roundHalfEven
  split_ifs <;> push_cast <;> constructor <;> linarith

theorem roundHalfEven_of_lt_half (x : ℚ) (h : x < 1 / 2) : roundHalfEven x = 0 := by
  have hf : ⌊x⌋₊ = 0 := Nat.floor_eq_zero.mpr (by linarith)
  unfold roundHalfEven
  rw [if_pos (by rw [hf]; simpa using h)]
  exact hf

theorem roundHalfEven_natCast (k : ℕ) : roundHalfEven (k : ℚ) = k := by
  unfold roundHalfEven
  simp

theorem ulp_pos (m : ℚ) : 0 < ulp m := by
  unfold ulp
  positivity

theorem two_zpow_log_le (m : ℚ) (hm : 0 < m) : (2 : ℚ) ^ Int.log 2 m ≤ m := by
  have := Int.zpow_log_le_self (b := 2) (by norm_num) hm
  simpa using this

theorem lt_two_zpow_log_succ (m : ℚ) : m < (2 : ℚ) ^ (Int.log 2 m + 1) := by
  have := Int.lt_zpow_succ_log_self (b := 2) (by norm_num) m
  simpa using this

/-- The spacing never exceeds a magnitude that is at least the smallest subnormal. -/
theorem ulp_le_self (m : ℚ) (hm : (2 : ℚ) ^ (-1074 : ℤ) ≤ m) : ulp m ≤ m := by
  have hpos : 0 < m := lt_of_lt_of_le (by positivity) hm
  unfold ulp
  rcases le_total (Int.log 2 m) (-1022) with h | h
  · rw [max_eq_right h]
    norm_num at hm ⊢
    exact hm
  · rw [max_eq_left h]
    calc (2 : ℚ) ^ (Int.log 2 m - 52) ≤ (2 : ℚ) ^ Int.log 2 m :=
          zpow_le_zpow_right₀ (by norm_num) (by omega)
      _ ≤ m := two_zpow_log_le m hpos

theorem roundMagnitude_nonneg (m : ℚ) : 0 ≤ roundMagnitude m := by
  unfold roundMagnitude
  exact mul_nonneg (Nat.cast_nonneg _) (ulp_pos m).le

/-- No underflow: a magnitude of at least 2^-1074 rounds to at least half of itself. -/
theorem roundMagnitude_ge_half (m : ℚ) (hm : (2 : ℚ) ^ (-1074 : ℤ) ≤ m) :
    m / 2 ≤ roundMagnitude m := by
  have hpos : 0 < m := lt_of_lt_of_le (by positivity) hm
  have hu := ulp_pos m
  have hle := ulp_le_self m hm
  have hx : 1 ≤ m / ulp m := by rw [le_div_iff₀ hu]; linarith
  have hb := (roundHalfEven_bounds (m / ulp m) (by positivity)).1
  have hn : m / ulp m / 2 ≤ (roundHalfEven (m / ulp m) : ℚ) := by linarith
  unfold roundMagnitude
  calc m / 2 = m / ulp m / 2 * ulp m := by field_simp; ring
    _ ≤ (roundHalfEven (m / ulp m) : ℚ) * ulp m := mul_le_mul_of_nonneg_right hn hu.le

/-- No overflow: a positive magnitude below 2^1023 rounds to less than 2^1024. -/
theorem roundMagnitude_lt (m : ℚ) (hpos : 0 < m) (hm : m < (2 : ℚ) ^ (1023 : ℤ)) :
    roundMagnitude m < (2 : ℚ) ^ (1024 : ℤ) := by
  have hu := ulp_pos m
  have hlog : Int.log 2 m < 1023 := by
    have := (Int.lt_zpow_iff_log_lt (b := 2) (by norm_num) hpos (x := 1023)).mp
      (by simpa using hm)
    exact this
  have hule : ulp m ≤ (2 : ℚ) ^ (970 : ℤ) := by
    unfold ulp
    exact zpow_le_zpow_right₀ (by norm_num) (by omega)
  have hb := (roundHalfEven_bounds (m / ulp m) (by positivity)).2
  unfold roundMagnitude
  calc (roundHalfEven (m / ulp m) : ℚ) * ulp m ≤ (m / ulp m + 1 / 2) * ulp m :=
        mul_le_mul_of_nonneg_right hb hu.le
    _ = m + ulp m / 2 := by field_simp; ring
    _ < (2 : ℚ) ^ (1023 : ℤ) + (2 : ℚ) ^ (970 : ℤ) / 2 := by linarith
    _ < (2 : ℚ) ^ (1024 : ℤ) := by norm_num

/-- Underflow: a magnitude of at most 2^-1076 rounds to zero. -/
theorem roundMagnitude_tiny (m : ℚ) (hpos : 0 < m) (hm : m ≤ (2 : ℚ) ^ (-1076 : ℤ)) :
    roundMagnitude m = 0 := by
  have hlog : Int.log 2 m < -1022 := by
    apply (Int.lt_zpow_iff_log_lt (b := 2) (by norm_num) hpos (x := -1022)).mp
    have : (2 : ℚ) ^ (-1076 : ℤ) < (2 : ℚ) ^ (-1022 : ℤ) :=
      zpow_lt_zpow_right₀ (by norm_num) (by norm_num)
    simpa using lt_of_le_of_lt hm this
  have hulp : ulp m = (2 : ℚ) ^ (-1074 : ℤ) := by
    unfold ulp
    rw [max_eq_right (by omega)]
    norm_num
  have hx : m / ulp m < 1 / 2 := by
    rw [hulp, div_lt_iff₀ (by positivity)]
    calc m ≤ (2 : ℚ) ^ (-1076 : ℤ) := hm
      _ < 1 / 2 * (2 : ℚ) ^ (-1074 : ℤ) := by
        rw [show (-1074 : ℤ) = -1076 + 2 by norm_num, zpow_add₀ (by norm_num)]
        have : (0 : ℚ) < (2 : ℚ) ^ (-1076 : ℤ) := by positivity
        norm_num
  unfold roundMagnitude
  rw [roundHalfEven_of_lt_half _ hx]
  simp

/-- A power of two in the normal range is a float64 value: it rounds to itself. -/
theorem roundMagnitude_two_zpow (k : ℤ) (hk : -1022 ≤ k) :
    roundMagnitude ((2 : ℚ) ^ k) = (2 : ℚ) ^ k := by
  have hlog : Int.log 2 ((2 : ℚ) ^ k) = k := by
    have := Int.log_zpow (R := ℚ) (b := 2) (by norm_num) k
    simpa using this
  have hulp : ulp ((2 : ℚ) ^ k) = (2 : ℚ) ^ (k - 52) := by
    unfold ulp
    rw [hlog, max_eq_left hk]
  have hx : (2 : ℚ) ^ k / ulp ((2 : ℚ) ^ k) = ((2 ^ 52 : ℕ) : ℚ) := by
    rw [hulp, ← zpow_sub₀ (by norm_num)]
    norm_num
  have hsplit : (2 : ℚ) ^ k = (2 : ℚ) ^ (52 : ℤ) * (2 : ℚ) ^ (k - 52) := by
    rw [← zpow_add₀ (by norm_num)]
    congr 1
    omega
  unfold roundMagnitude
  rw [hx, roundHalfEven_natCast, hulp]
  conv_rhs => rw [hsplit]
  norm_num

theorem F64.ofRat_zero : F64.ofRat 0 = F64.finite 0 := by
  simp [F64.ofRat]

theorem F64.ofRat_pos (q : ℚ) (hq : 0 < q) :
    F64.ofRat q = if roundMagnitude q < (2 : ℚ) ^ (1024 : ℤ) then F64.finite (roundMagnitude q)
      else F64.posInf := by
  simp [F64.ofRat, hq, hq.ne']

theorem F64.ofRat_neg (q : ℚ) (hq : q < 0) :
    F64.ofRat q = if roundMagnitude (-q) < (2 : ℚ) ^ (1024 : ℤ) then
        F64.finite (-roundMagnitude (-q))
      else F64.negInf := by
  simp [F64.ofRat, hq.ne, not_lt.mpr hq.le]

/-- Rounding keeps the sign: a non-negative result rounds to a non-negative value or +Inf. -/
theorem F64.ofRat_nonneg (q : ℚ) (hq : 0 ≤ q) :
    F64.ofRat q = F64.posInf ∨ ∃ r, 0 ≤ r ∧ F64.ofRat q = F64.finite r := by
  rcases hq.eq_or_lt with h | h
  · right; exact ⟨0, le_refl _, by rw [← h, F64.ofRat_zero]⟩
  · rw [F64.ofRat_pos q h]
    split_ifs
    · right; exact ⟨_, roundMagnitude_nonneg q, rfl⟩
    · left; rfl

/-- Rounding keeps the sign: a non-positive result rounds to a non-positive value or -Inf. -/
theorem F64.ofRat_nonpos (q : ℚ) (hq : q ≤ 0) :
    F64.ofRat q = F64.negInf ∨ ∃ r, r ≤ 0 ∧ F64.ofRat q = F64.finite r := by
  rcases hq.eq_or_lt with h | h
  · right; exact ⟨0, le_refl _, by rw [h, F64.ofRat_zero]⟩
  · rw [F64.ofRat_neg q h]
    split_ifs
    · right; exact ⟨_, neg_nonpos.mpr (roundMagnitude_nonneg _), rfl⟩
    · left; rfl

/-- A result of at least 2^-1074 does not underflow: it rounds to +Inf or to a finite value
of at least half the result. -/
theorem F64.ofRat_ge (q : ℚ) (hq : (2 : ℚ) ^ (-1074 : ℤ) ≤ q) :
    F64.ofRat q = F64.posInf ∨ ∃ r, q / 2 ≤ r ∧ F64.ofRat q = F64.finite r := by
  have hpos : 0 < q := lt_of_lt_of_le (by positivity) hq
  rw [F64.ofRat_pos q hpos]
  split_ifs
  · right; exact ⟨_, roundMagnitude_ge_half q hq, rfl⟩
  · left; rfl

theorem F64.ofRat_le (q : ℚ) (hq : q ≤ -(2 : ℚ) ^ (-1074 : ℤ)) :
    F64.ofRat q = F64.negInf ∨ ∃ r, r ≤ q / 2 ∧ F64.ofRat q = F64.finite r := by
  have hpos : (0 : ℚ) < (2 : ℚ) ^ (-1074 : ℤ) := by positivity
  have hneg : q < 0 := by linarith
  rw [F64.ofRat_neg q hneg]
  split_ifs
  · right
    refine ⟨_, ?_, rfl⟩
    have := roundMagnitude_ge_half (-q) (by linarith)
    linarith
  · left; rfl

/-- A result of magnitude below 2^1023 does not overflow. -/
theorem F64.ofRat_finite (q : ℚ) (hq : |q| < (2 : ℚ) ^ (1023 : ℤ)) :
    ∃ r, F64.ofRat q = F64.finite r := by
  rcases lt_trichotomy q 0 with h | h | h
  · rw [F64.ofRat_neg q h, if_pos (roundMagnitude_lt (-q) (by linarith)
      (by rw [abs_of_neg h] at hq; exact hq))]
    exact ⟨_, rfl⟩
  · exact ⟨0, by rw [h, F64.ofRat_zero]⟩
  · rw [F64.ofRat_pos q h, if_pos (roundMagnitude_lt q h
      (by rw [abs_of_pos h] at hq; exact hq))]
    exact ⟨_, rfl⟩

/-- Underflow: a result of magnitude at most 2^-1076 rounds to zero. -/
theorem F64.ofRat_tiny (q : ℚ) (hq : |q| ≤ (2 : ℚ) ^ (-1076 : ℤ)) :
    F64.ofRat q = F64.finite 0 := by
  have hsmall : (0 : ℚ) < (2 : ℚ) ^ (1024 : ℤ) := by positivity
  rcases lt_trichotomy q 0 with h | h | h
  · rw [F64.ofRat_neg q h, roundMagnitude_tiny (-q) (by linarith)
      (by rw [abs_of_neg h] at hq; exact hq), if_pos hsmall, neg_zero]
  · rw [h, F64.ofRat_zero]
  · rw [F64.ofRat_pos q h, roundMagnitude_tiny q h (by rw [abs_of_pos h] at hq; exact hq),
      if_pos hsmall]

/-- The powers of two of the normal range and their negatives are float64 values. -/
theorem F64.ofRat_two_zpow (k : ℤ) (hk : -1022 ≤ k) (hk2 : k ≤ 1023) :
    F64.ofRat ((2 : ℚ) ^ k) = F64.finite ((2 : ℚ) ^ k) ∧
    F64.ofRat (-(2 : ℚ) ^ k) = F64.finite (-(2 : ℚ) ^ k) := by
  have hpos : (0 : ℚ) < (2 : ℚ) ^ k := by positivity
  have hlt : (2 : ℚ) ^ k < (2 : ℚ) ^ (1024 : ℤ) :=
    zpow_lt_zpow_right₀ (by norm_num) (by omega)
  constructor
  · rw [F64.ofRat_pos _ hpos, roundMagnitude_two_zpow k hk, if_pos hlt]
  · rw [F64.ofRat_neg _ (by linarith), neg_neg, roundMagnitude_two_zpow k hk, if_pos hlt]

theorem F64.ofRat_isNonpos (q : ℚ) (hq : q ≤ 0) : (F64.ofRat q).IsNonpos := by
  rcases F64.ofRat_nonpos q hq with h | ⟨r, hr, h⟩
  · rw [h]; trivial
  · rw [h]; exact hr

theorem F64.ofRat_isNonneg (q : ℚ) (hq : 0 ≤ q) : (F64.ofRat q).IsNonneg := by
  rcases F64.ofRat_nonneg q hq with h | ⟨r, hr, h⟩
  · rw [h]; trivial
  · rw [h]; exact hr

theorem F64.IsNonpos.notPos {x : F64} (h : x.IsNonpos) : x.NotPos := by
  cases x <;> simp_all [F64.IsNonpos, F64.NotPos]

theorem F64.IsNonneg.notNeg {x : F64} (h : x.IsNonneg) : x.NotNeg := by
  cases x <;> simp_all [F64.IsNonneg, F64.NotNeg]

theorem F64.mul_nonpos_nonneg (a b : F64) (ha : a.IsNonpos) (hb : b.IsNonneg) :
    (F64.mul a b).NotPos := by
  cases a <;> cases b <;> simp only [F64.IsNonpos, F64.IsNonneg] at ha hb <;>
    simp only [F64.mul] <;> try trivial
  · exact (F64.ofRat_isNonpos _ (mul_nonpos_of_nonpos_of_nonneg ha hb)).notPos
  · split_ifs with h1 h2 <;>
      first
      | trivial
      | (exfalso; linarith)
      | (exfalso; exact h2 (lt_of_le_of_ne (by assumption) (Ne.symm h1)))
  · split_ifs with h1 h2 <;>
      first
      | trivial
      | (exfalso; linarith)
      | (exfalso; exact h2 (lt_of_le_of_ne (by assumption) (Ne.symm h1)))

theorem F64.mul_nonneg_nonpos (a b : F64) (ha : a.IsNonneg) (hb : b.IsNonpos) :
    (F64.mul a b).NotPos := by
  cases a <;> cases b <;> simp only [F64.IsNonpos, F64.IsNonneg] at ha hb <;>
    simp only [F64.mul] <;> try trivial
  · exact (F64.ofRat_isNonpos _ (mul_nonpos_of_nonneg_of_nonpos ha hb)).notPos
  · split_ifs with h1 h2 <;>
      first
      | trivial
      | (exfalso; linarith)
      | (exfalso; exact h2 (lt_of_le_of_ne (by assumption) (Ne.symm h1)))
  · split_ifs with h1 h2 <;>
      first
      | trivial
      | (exfalso; linarith)
      | (exfalso; exact h2 (lt_of_le_of_ne (by assumption) (Ne.symm h1)))

theorem F64.mul_nonneg_nonneg (a b : F64) (ha : a.IsNonneg) (hb : b.IsNonneg) :
    (F64.mul a b).NotNeg := by
  cases a <;> cases b <;> simp only [F64.IsNonpos, F64.IsNonneg] at ha hb <;>
    simp only [F64.mul] <;> try trivial
  · exact (F64.ofRat_isNonneg _ (mul_nonneg ha hb)).notNeg
  · split_ifs with h1 h2 <;>
      first
      | trivial
      | (exfalso; linarith)
      | (exfalso; exact h2 (lt_of_le_of_ne (by assumption) (Ne.symm h1)))
  · split_ifs with h1 h2 <;>
      first
      | trivial
      | (exfalso; linarith)
      | (exfalso; exact h2 (lt_of_le_of_ne (by assumption) (Ne.symm h1)))

theorem F64.mul_nonpos_nonpos (a b : F64) (ha : a.IsNonpos) (hb : b.IsNonpos) :
    (F64.mul a b).NotNeg := by
  cases a <;> cases b <;> simp only [F64.IsNonpos, F64.IsNonneg] at ha hb <;>
    simp only [F64.mul] <;> try trivial
  · exact (F64.ofRat_isNonneg _ (mul_nonneg_of_nonpos_of_nonpos ha hb)).notNeg
  · split_ifs with h1 h2 <;>
      first
      | trivial
      | (exfalso; linarith)
      | (exfalso; exact h2 (lt_of_le_of_ne (by assumption) (Ne.symm h1)))
  · split_ifs with h1 h2 <;>
      first
      | trivial
      | (exfalso; linarith)
      | (exfalso; exact h2 (lt_of_le_of_ne (by assumption) (Ne.symm h1)))

theorem F64.zero_mul (t : F64) : (F64.mul (F64.finite 0) t).ZeroOrNan := by
  cases t <;> simp [F64.mul, F64.ZeroOrNan, F64.ofRat_zero]

/-- A difference `A - B` with A not above zero and B zero is not above zero. -/
theorem F64.gtZero_sub_zero (a b : F64) (ha : a.NotPos) (hb : b.ZeroOrNan) :
    (F64.sub a b).gtZero = false := by
  cases a <;> cases b <;> simp only [F64.NotPos, F64.ZeroOrNan] at ha hb <;>
    simp only [F64.sub, F64.gtZero] <;> try trivial
  subst hb
  rcases F64.ofRat_nonpos _ (show _ - (0 : ℚ) ≤ 0 by linarith) with h | ⟨r, hr, h⟩
  · rw [h]
  · rw [h]; simp [F64.gtZero, hr]

/-- A difference `A - B` with A zero and B not below zero is not above zero. -/
theorem F64.gtZero_zero_sub (a b : F64) (ha : a.ZeroOrNan) (hb : b.NotNeg) :
    (F64.sub a b).gtZero = false := by
  cases a <;> cases b <;> simp only [F64.NotNeg, F64.ZeroOrNan] at ha hb <;>
    simp only [F64.sub, F64.gtZero] <;> try trivial
  subst ha
  rcases F64.ofRat_nonpos _ (show (0 : ℚ) - _ ≤ 0 by linarith) with h | ⟨r, hr, h⟩
  · rw [h]
  · rw [h]; simp [F64.gtZero, hr]

theorem IsPointInRectangleF64_five (a b c d e point : Point) :
    IsPointInRectangleF64 [a, b, c, d, e] point =
      if a = e then
        (!(crossProductF64 a b point).gtZero && !(crossProductF64 b c point).gtZero &&
          !(crossProductF64 c d point).gtZero && !(crossProductF64 d e point).gtZero, none)
      else (false, some "test") := by
  by_cases hae : a = e
  · subst hae
    cases h0 : (crossProductF64 a b point).gtZero <;>
    cases h1 : (crossProductF64 b c point).gtZero <;>
    cases h2 : (crossProductF64 c d point).gtZero <;>
    cases h3 : (crossProductF64 d a point).gtZero <;>
    simp [IsPointInRectangleF64, ringClosed, ringAt, edgeLoopF64, h0, h1, h2, h3]
  · simp [IsPointInRectangleF64, ringClosed, ringAt, hae]

theorem crossProductF64_eq (a b point : Point) :
    crossProductF64 a b point =
      F64.sub (F64.mul (F64.ofRat (b.x - a.x)) (F64.ofRat (point.y - a.y)))
        (F64.mul (F64.ofRat (b.y - a.y)) (F64.ofRat (point.x - a.x))) := rfl

theorem F64.ofRat_ge_finite (q : ℚ) (hq : (2 : ℚ) ^ (-1074 : ℤ) ≤ q)
    (hq2 : q < (2 : ℚ) ^ (1023 : ℤ)) : ∃ r, q / 2 ≤ r ∧ F64.ofRat q = F64.finite r := by
  have hpos : 0 < q := lt_of_lt_of_le (by positivity) hq
  obtain ⟨r0, hr0⟩ := F64.ofRat_finite q (by rw [abs_of_pos hpos]; exact hq2)
  rcases F64.ofRat_ge q hq with h | h
  · rw [h] at hr0; cases hr0
  · exact h

theorem F64.ofRat_le_finite (q : ℚ) (hq : q ≤ -(2 : ℚ) ^ (-1074 : ℤ))
    (hq2 : -(2 : ℚ) ^ (1023 : ℤ) < q) : ∃ r, r ≤ q / 2 ∧ F64.ofRat q = F64.finite r := by
  have hpos : (0 : ℚ) < (2 : ℚ) ^ (-1074 : ℤ) := by positivity
  obtain ⟨r0, hr0⟩ := F64.ofRat_finite q (by rw [abs_of_neg (by linarith)]; linarith)
  rcases F64.ofRat_le q hq with h | h
  · rw [h] at hr0; cases hr0
  · exact h

/-- A product of at least 2^-1073 minus zero is above zero in float64. -/
theorem F64.gtZero_mul_sub_zero (r1 r2 : ℚ) (h : (2 : ℚ) ^ (-1073 : ℤ) ≤ r1 * r2) :
    (F64.sub (F64.mul (F64.finite r1) (F64.finite r2)) (F64.finite 0)).gtZero = true := by
  have h73 : (2 : ℚ) ^ (-1073 : ℤ) = 2 * (2 : ℚ) ^ (-1074 : ℤ) := by
    rw [show (-1073 : ℤ) = 1 + -1074 by norm_num, zpow_add₀ (by norm_num)]
    norm_num
  have hp : (0 : ℚ) < (2 : ℚ) ^ (-1074 : ℤ) := by positivity
  rw [h73] at h
  have key : ∀ q : ℚ, (2 : ℚ) ^ (-1074 : ℤ) ≤ q → (F64.ofRat q).gtZero = true := by
    intro q hq
    rcases F64.ofRat_ge q hq with h2 | ⟨b, hb, h2⟩
    · rw [h2]; rfl
    · rw [h2]
      simp only [F64.gtZero, decide_eq_true_eq]
      generalize (2 : ℚ) ^ (-1074 : ℤ) = c at hp hq
      linarith
  simp only [F64.mul]
  rcases F64.ofRat_ge (r1 * r2) (by generalize (2 : ℚ) ^ (-1074 : ℤ) = c at hp h ⊢; linarith)
    with h1 | ⟨a, ha, h1⟩
  · rw [h1]; rfl
  · rw [h1]
    simp only [F64.sub, sub_zero]
    apply key
    generalize (2 : ℚ) ^ (-1074 : ℤ) = c at hp h ⊢
    linarith

/-- Zero minus a product of at most -2^-1073 is above zero in float64. -/
theorem F64.gtZero_zero_sub_mul (r1 r2 : ℚ) (h : r1 * r2 ≤ -(2 : ℚ) ^ (-1073 : ℤ)) :
    (F64.sub (F64.finite 0) (F64.mul (F64.finite r1) (F64.finite r2))).gtZero = true := by
  have h73 : (2 : ℚ) ^ (-1073 : ℤ) = 2 * (2 : ℚ) ^ (-1074 : ℤ) := by
    rw [show (-1073 : ℤ) = 1 + -1074 by norm_num, zpow_add₀ (by norm_num)]
    norm_num
  have hp : (0 : ℚ) < (2 : ℚ) ^ (-1074 : ℤ) := by positivity
  rw [h73] at h
  have key : ∀ q : ℚ, (2 : ℚ) ^ (-1074 : ℤ) ≤ q → (F64.ofRat q).gtZero = true := by
    intro q hq
    rcases F64.ofRat_ge q hq with h2 | ⟨b, hb, h2⟩
    · rw [h2]; rfl
    · rw [h2]
      simp only [F64.gtZero, decide_eq_true_eq]
      generalize (2 : ℚ) ^ (-1074 : ℤ) = c at hp hq
      linarith
  simp only [F64.mul]
  rcases F64.ofRat_le (r1 * r2) (by generalize (2 : ℚ) ^ (-1074 : ℤ) = c at hp h ⊢; linarith)
    with h1 | ⟨a, ha, h1⟩
  · rw [h1]; rfl
  · rw [h1]
    simp only [F64.sub, zero_sub]
    apply key
    generalize (2 : ℚ) ^ (-1074 : ℤ) = c at hp h ⊢
    linarith

theorem two_zpow_facts :
    (2 : ℚ) ^ (-1074 : ℤ) ≤ (2 : ℚ) ^ (-500 : ℤ) ∧
    (2 : ℚ) ^ (-1073 : ℤ) ≤ (2 : ℚ) ^ (-500 : ℤ) / 2 * ((2 : ℚ) ^ (-500 : ℤ) / 2) ∧
    (2 : ℚ) ^ (1000 : ℤ) + (2 : ℚ) ^ (1000 : ℤ) < (2 : ℚ) ^ (1023 : ℤ) ∧
    (0 : ℚ) < (2 : ℚ) ^ (-500 : ℤ) := by
  refine ⟨zpow_le_zpow_right₀ (by norm_num) (by norm_num), ?_, ?_, by positivity⟩
  · have e : (2 : ℚ) ^ (-500 : ℤ) / 2 * ((2 : ℚ) ^ (-500 : ℤ) / 2) = (2 : ℚ) ^ (-1002 : ℤ) := by
      rw [show (-1002 : ℤ) = -500 + -500 + -1 + -1 by norm_num, zpow_add₀ (by norm_num),
        zpow_add₀ (by norm_num), zpow_add₀ (by norm_num)]
      norm_num
    rw [e]
    exact zpow_le_zpow_right₀ (by norm_num) (by norm_num)
  · have e : (2 : ℚ) ^ (1000 : ℤ) + (2 : ℚ) ^ (1000 : ℤ) = (2 : ℚ) ^ (1001 : ℤ) := by
      rw [show (1001 : ℤ) = 1000 + 1 by norm_num, zpow_add₀ (by norm_num)]
      norm_num
    rw [e]
    exact zpow_lt_zpow_right₀ (by norm_num) (by norm_num)

theorem F64.ofRat_ge_of_le (q d : ℚ) (hd : (2 : ℚ) ^ (-1074 : ℤ) ≤ d) (hq : d ≤ q)
    (hq2 : |q| < (2 : ℚ) ^ (1023 : ℤ)) : ∃ r, d / 2 ≤ r ∧ F64.ofRat q = F64.finite r := by
  obtain ⟨r, hr, e⟩ := F64.ofRat_ge_finite q (le_trans hd hq) (lt_of_abs_lt hq2)
  exact ⟨r, le_trans (div_le_div_of_nonneg_right hq (by norm_num)) hr, e⟩

theorem F64.ofRat_le_of_le (q d : ℚ) (hd : (2 : ℚ) ^ (-1074 : ℤ) ≤ d) (hq : q ≤ -d)
    (hq2 : |q| < (2 : ℚ) ^ (1023 : ℤ)) : ∃ r, r ≤ -(d / 2) ∧ F64.ofRat q = F64.finite r := by
  obtain ⟨r, hr, e⟩ := F64.ofRat_le_finite q (le_trans hq (neg_le_neg hd)) (neg_lt_of_abs_lt hq2)
  refine ⟨r, le_trans hr ?_, e⟩
  have := div_le_div_of_nonneg_right hq (show (0 : ℚ) ≤ 2 by norm_num)
  rw [neg_div] at this
  exact this

/-- The cross product of an edge with `edge[1] = 0` is above zero in float64 when `edge[0]`
and `toPoint[1]` have the same sign and magnitudes of at least 2^-500 (no overflow in the
differences). -/
theorem crossF64_pos_first (e0 t1 t0 : ℚ) (he : |e0| < (2 : ℚ) ^ (1023 : ℤ))
    (ht1 : |t1| < (2 : ℚ) ^ (1023 : ℤ)) (ht0 : |t0| < (2 : ℚ) ^ (1023 : ℤ))
    (h : ((2 : ℚ) ^ (-500 : ℤ) ≤ e0 ∧ (2 : ℚ) ^ (-500 : ℤ) ≤ t1) ∨
      (e0 ≤ -(2 : ℚ) ^ (-500 : ℤ) ∧ t1 ≤ -(2 : ℚ) ^ (-500 : ℤ))) :
    (F64.sub (F64.mul (F64.ofRat e0) (F64.ofRat t1))
      (F64.mul (F64.ofRat 0) (F64.ofRat t0))).gtZero = true := by
  obtain ⟨f1, f2, _, f4⟩ := two_zpow_facts
  obtain ⟨r0, hr0⟩ := F64.ofRat_finite t0 ht0
  have hzero : F64.mul (F64.ofRat 0) (F64.ofRat t0) = F64.finite 0 := by
    rw [F64.ofRat_zero, hr0]
    simp [F64.mul, F64.ofRat_zero]
  have hd2 : (0 : ℚ) ≤ (2 : ℚ) ^ (-500 : ℤ) / 2 := by positivity
  rw [hzero]
  rcases h with ⟨h1, h2⟩ | ⟨h1, h2⟩
  · obtain ⟨r1, a1, e1⟩ := F64.ofRat_ge_of_le e0 _ f1 h1 he
    obtain ⟨r2, a2, e2⟩ := F64.ofRat_ge_of_le t1 _ f1 h2 ht1
    rw [e1, e2]
    apply F64.gtZero_mul_sub_zero
    exact le_trans f2 (mul_le_mul a1 a2 hd2 (le_trans hd2 a1))
  · obtain ⟨r1, a1, e1⟩ := F64.ofRat_le_of_le e0 _ f1 h1 he
    obtain ⟨r2, a2, e2⟩ := F64.ofRat_le_of_le t1 _ f1 h2 ht1
    rw [e1, e2]
    apply F64.gtZero_mul_sub_zero
    have b1 : (2 : ℚ) ^ (-500 : ℤ) / 2 ≤ -r1 := le_neg_of_le_neg a1
    have b2 : (2 : ℚ) ^ (-500 : ℤ) / 2 ≤ -r2 := le_neg_of_le_neg a2
    have := le_trans f2 (mul_le_mul b1 b2 hd2 (le_trans hd2 b1))
    rwa [neg_mul_neg] at this

/-- The cross product of an edge with `edge[0] = 0` is above zero in float64 when `edge[1]`
and `toPoint[0]` have opposite signs and magnitudes of at least 2^-500. -/
theorem crossF64_pos_second (e1 t0 t1 : ℚ) (he : |e1| < (2 : ℚ) ^ (1023 : ℤ))
    (ht0 : |t0| < (2 : ℚ) ^ (1023 : ℤ)) (ht1 : |t1| < (2 : ℚ) ^ (1023 : ℤ))
    (h : ((2 : ℚ) ^ (-500 : ℤ) ≤ e1 ∧ t0 ≤ -(2 : ℚ) ^ (-500 : ℤ)) ∨
      (e1 ≤ -(2 : ℚ) ^ (-500 : ℤ) ∧ (2 : ℚ) ^ (-500 : ℤ) ≤ t0)) :
    (F64.sub (F64.mul (F64.ofRat 0) (F64.ofRat t1))
      (F64.mul (F64.ofRat e1) (F64.ofRat t0))).gtZero = true := by
  obtain ⟨f1, f2, _, f4⟩ := two_zpow_facts
  obtain ⟨r0, hr0⟩ := F64.ofRat_finite t1 ht1
  have hzero : F64.mul (F64.ofRat 0) (F64.ofRat t1) = F64.finite 0 := by
    rw [F64.ofRat_zero, hr0]
    simp [F64.mul, F64.ofRat_zero]
  have hd2 : (0 : ℚ) ≤ (2 : ℚ) ^ (-500 : ℤ) / 2 := by positivity
  rw [hzero]
  rcases h with ⟨h1, h2⟩ | ⟨h1, h2⟩
  · obtain ⟨r1, a1, q1⟩ := F64.ofRat_ge_of_le e1 _ f1 h1 he
    obtain ⟨r2, a2, q2⟩ := F64.ofRat_le_of_le t0 _ f1 h2 ht0
    rw [q1, q2]
    apply F64.gtZero_zero_sub_mul
    have b2 : (2 : ℚ) ^ (-500 : ℤ) / 2 ≤ -r2 := le_neg_of_le_neg a2
    have := le_trans f2 (mul_le_mul a1 b2 hd2 (le_trans hd2 a1))
    rw [mul_neg] at this
    exact le_neg_of_le_neg this
  · obtain ⟨r1, a1, q1⟩ := F64.ofRat_le_of_le e1 _ f1 h1 he
    obtain ⟨r2, a2, q2⟩ := F64.ofRat_ge_of_le t0 _ f1 h2 ht0
    rw [q1, q2]
    apply F64.gtZero_zero_sub_mul
    have b1 : (2 : ℚ) ^ (-500 : ℤ) / 2 ≤ -r1 := le_neg_of_le_neg a1
    have := le_trans f2 (mul_le_mul b1 a2 hd2 (le_trans hd2 b1))
    rw [neg_mul] at this
    exact le_neg_of_le_neg this

theorem abs_sub_lt_of_bounded (a b : ℚ) (ha : |a| ≤ (2 : ℚ) ^ (1000 : ℤ))
    (hb : |b| ≤ (2 : ℚ) ^ (1000 : ℤ)) : |a - b| < (2 : ℚ) ^ (1023 : ℤ) :=
  lt_of_le_of_lt (le_trans (abs_sub a b) (add_le_add ha hb)) two_zpow_facts.2.2.1

theorem F64.ofRat_zero_mul (t : F64) : (F64.mul (F64.ofRat 0) t).ZeroOrNan := by
  rw [F64.ofRat_zero]
  exact F64.zero_mul t

/-- C5 (amended): on the clockwise ring of the axis-aligned box with corners (x0,y0) and
(x1,y1), x0 < x1 and y0 < y1, IsPointInRectangle in float64 arithmetic returns
(true, no error) for every point with x0 ≤ px ≤ x1 and y0 ≤ py ≤ y1, edges and corners
included; and when all coordinates have magnitude at most 2^1000 and both sides are at least
2^-500 long, it returns (false, no error) for every point that lies 2^-500 or more beyond a
side of the box. -/
theorem IsPointInRectangleF64_axis_aligned (x0 x1 y0 y1 px py : ℚ) (hx : x0 < x1)
    (hy : y0 < y1) :
    ((x0 ≤ px ∧ px ≤ x1 ∧ y0 ≤ py ∧ py ≤ y1) →
      IsPointInRectangleF64 [⟨x1, y0⟩, ⟨x0, y0⟩, ⟨x0, y1⟩, ⟨x1, y1⟩, ⟨x1, y0⟩] ⟨px, py⟩ =
        (true, none)) ∧
    ((|x0| ≤ (2 : ℚ) ^ (1000 : ℤ) ∧ |x1| ≤ (2 : ℚ) ^ (1000 : ℤ) ∧
        |y0| ≤ (2 : ℚ) ^ (1000 : ℤ) ∧ |y1| ≤ (2 : ℚ) ^ (1000 : ℤ) ∧
        |px| ≤ (2 : ℚ) ^ (1000 : ℤ) ∧ |py| ≤ (2 : ℚ) ^ (1000 : ℤ)) →
      (2 : ℚ) ^ (-500 : ℤ) ≤ x1 - x0 → (2 : ℚ) ^ (-500 : ℤ) ≤ y1 - y0 →
      (px - x0 ≤ -(2 : ℚ) ^ (-500 : ℤ) ∨ (2 : ℚ) ^ (-500 : ℤ) ≤ px - x1 ∨
        py - y0 ≤ -(2 : ℚ) ^ (-500 : ℤ) ∨ (2 : ℚ) ^ (-500 : ℤ) ≤ py - y1) →
      IsPointInRectangleF64 [⟨x1, y0⟩, ⟨x0, y0⟩, ⟨x0, y1⟩, ⟨x1, y1⟩, ⟨x1, y0⟩] ⟨px, py⟩ =
        (false, none)) := by
  rw [IsPointInRectangleF64_five]
  simp only [if_true, crossProductF64_eq, sub_self]
  constructor
  · rintro ⟨h1, h2, h3, h4⟩
    have c0 := F64.gtZero_sub_zero _ _
      (F64.mul_nonpos_nonneg _ _ (F64.ofRat_isNonpos (x0 - x1) (by linarith))
        (F64.ofRat_isNonneg (py - y0) (by linarith)))
      (F64.ofRat_zero_mul (F64.ofRat (px - x1)))
    have c1 := F64.gtZero_zero_sub _ _
      (F64.ofRat_zero_mul (F64.ofRat (py - y0)))
      (F64.mul_nonneg_nonneg _ _ (F64.ofRat_isNonneg (y1 - y0) (by linarith))
        (F64.ofRat_isNonneg (px - x0) (by linarith)))
    have c2 := F64.gtZero_sub_zero _ _
      (F64.mul_nonneg_nonpos _ _ (F64.ofRat_isNonneg (x1 - x0) (by linarith))
        (F64.ofRat_isNonpos (py - y1) (by linarith)))
      (F64.ofRat_zero_mul (F64.ofRat (px - x0)))
    have c3 := F64.gtZero_zero_sub _ _
      (F64.ofRat_zero_mul (F64.ofRat (py - y1)))
      (F64.mul_nonpos_nonpos _ _ (F64.ofRat_isNonpos (y0 - y1) (by linarith))
        (F64.ofRat_isNonpos (px - x1) (by linarith)))
    simp only [c0, c1, c2, c3, Bool.not_false, Bool.and_self]
  · rintro ⟨b1, b2, b3, b4, b5, b6⟩ hdx hdy hout
    rcases hout with h | h | h | h
    · have c1 := crossF64_pos_second (y1 - y0) (px - x0) (py - y0)
        (abs_sub_lt_of_bounded _ _ b4 b3) (abs_sub_lt_of_bounded _ _ b5 b1)
        (abs_sub_lt_of_bounded _ _ b6 b3) (Or.inl ⟨hdy, h⟩)
      simp only [c1, Bool.not_true, Bool.and_false, Bool.false_and]
    · have c3 := crossF64_pos_second (y0 - y1) (px - x1) (py - y1)
        (abs_sub_lt_of_bounded _ _ b3 b4) (abs_sub_lt_of_bounded _ _ b5 b2)
        (abs_sub_lt_of_bounded _ _ b6 b4) (Or.inr ⟨by linarith, h⟩)
      simp only [c3, Bool.not_true, Bool.and_false, Bool.false_and]
    · have c0 := crossF64_pos_first (x0 - x1) (py - y0) (px - x1)
        (abs_sub_lt_of_bounded _ _ b1 b2) (abs_sub_lt_of_bounded _ _ b6 b3)
        (abs_sub_lt_of_bounded _ _ b5 b2) (Or.inr ⟨by linarith, h⟩)
      simp only [c0, Bool.not_true, Bool.and_false, Bool.false_and]
    · have c2 := crossF64_pos_first (x1 - x0) (py - y1) (px - x0)
        (abs_sub_lt_of_bounded _ _ b2 b1) (abs_sub_lt_of_bounded _ _ b6 b4)
        (abs_sub_lt_of_bounded _ _ b5 b1) (Or.inl ⟨hdx, h⟩)
      simp only [c2, Bool.not_true, Bool.and_false, Bool.false_and]

/-- C18 (amended): on the counter-clockwise ring of the axis-aligned box with corners (x0,y0)
and (x1,y1), with sides at least 2^-499 long and all coordinates of magnitude at most 2^1000,
IsPointInRectangle in float64 arithmetic returns (false, no error) for every point of
magnitude at most 2^1000, the points inside the box included. -/
theorem IsPointInRectangleF64_counterclockwise (x0 x1 y0 y1 px py : ℚ)
    (hb : |x0| ≤ (2 : ℚ) ^ (1000 : ℤ) ∧ |x1| ≤ (2 : ℚ) ^ (1000 : ℤ) ∧
      |y0| ≤ (2 : ℚ) ^ (1000 : ℤ) ∧ |y1| ≤ (2 : ℚ) ^ (1000 : ℤ) ∧
      |px| ≤ (2 : ℚ) ^ (1000 : ℤ) ∧ |py| ≤ (2 : ℚ) ^ (1000 : ℤ))
    (hx : (2 : ℚ) ^ (-499 : ℤ) ≤ x1 - x0) (hy : (2 : ℚ) ^ (-499 : ℤ) ≤ y1 - y0) :
    IsPointInRectangleF64 [⟨x0, y0⟩, ⟨x1, y0⟩, ⟨x1, y1⟩, ⟨x0, y1⟩, ⟨x0, y0⟩] ⟨px, py⟩ =
      (false, none) := by
  obtain ⟨b1, b2, b3, b4, b5, b6⟩ := hb
  have h499 : (2 : ℚ) ^ (-499 : ℤ) = (2 : ℚ) ^ (-500 : ℤ) + (2 : ℚ) ^ (-500 : ℤ) := by
    rw [show (-499 : ℤ) = -500 + 1 by norm_num, zpow_add₀ (by norm_num)]
    norm_num
  have hpos : (0 : ℚ) < (2 : ℚ) ^ (-500 : ℤ) := by positivity
  rw [h499] at hx hy
  rw [IsPointInRectangleF64_five]
  simp only [if_true, crossProductF64_eq, sub_self]
  rcases le_or_lt ((2 : ℚ) ^ (-500 : ℤ)) (py - y0) with h | h
  · have c0 := crossF64_pos_first (x1 - x0) (py - y0) (px - x0)
      (abs_sub_lt_of_bounded _ _ b2 b1) (abs_sub_lt_of_bounded _ _ b6 b3)
      (abs_sub_lt_of_bounded _ _ b5 b1) (Or.inl ⟨by linarith, h⟩)
    simp only [c0, Bool.not_true, Bool.and_false, Bool.false_and]
  · have c2 := crossF64_pos_first (x0 - x1) (py - y1) (px - x1)
      (abs_sub_lt_of_bounded _ _ b1 b2) (abs_sub_lt_of_bounded _ _ b6 b4)
      (abs_sub_lt_of_bounded _ _ b5 b2) (Or.inr ⟨by linarith, by linarith⟩)
    simp only [c2, Bool.not_true, Bool.and_false, Bool.false_and]

theorem roundMagnitude_le_small (m : ℚ) (hpos : 0 < m) (hm : m ≤ (2 : ℚ) ^ (-599 : ℤ)) :
    roundMagnitude m ≤ (2 : ℚ) ^ (-598 : ℤ) := by
  have hu := ulp_pos m
  have hlog : Int.log 2 m < -598 := by
    apply (Int.lt_zpow_iff_log_lt (b := 2) (by norm_num) hpos (x := -598)).mp
    have : (2 : ℚ) ^ (-599 : ℤ) < (2 : ℚ) ^ (-598 : ℤ) :=
      zpow_lt_zpow_right₀ (by norm_num) (by norm_num)
    simpa using lt_of_le_of_lt hm this
  have hule : ulp m ≤ (2 : ℚ) ^ (-599 : ℤ) := by
    unfold ulp
    exact zpow_le_zpow_right₀ (by norm_num) (by omega)
  have hb := (roundHalfEven_bounds (m / ulp m) (by positivity)).2
  have h598 : (2 : ℚ) ^ (-598 : ℤ) = (2 : ℚ) ^ (-599 : ℤ) + (2 : ℚ) ^ (-599 : ℤ) := by
    rw [show (-598 : ℤ) = -599 + 1 by norm_num, zpow_add₀ (by norm_num)]
    norm_num
  have hp : (0 : ℚ) < (2 : ℚ) ^ (-599 : ℤ) := by positivity
  unfold roundMagnitude
  calc (roundHalfEven (m / ulp m) : ℚ) * ulp m ≤ (m / ulp m + 1 / 2) * ulp m :=
        mul_le_mul_of_nonneg_right hb hu.le
    _ = m + ulp m / 2 := by field_simp; ring
    _ ≤ (2 : ℚ) ^ (-599 : ℤ) + (2 : ℚ) ^ (-599 : ℤ) := by
        generalize (2 : ℚ) ^ (-599 : ℤ) = c at hm hule hp
        linarith
    _ = (2 : ℚ) ^ (-598 : ℤ) := h598.symm

theorem F64.ofRat_small (q : ℚ) (hq : |q| ≤ (2 : ℚ) ^ (-599 : ℤ)) :
    ∃ r, F64.ofRat q = F64.finite r ∧ |r| ≤ (2 : ℚ) ^ (-598 : ℤ) := by
  have hbig : (2 : ℚ) ^ (-598 : ℤ) < (2 : ℚ) ^ (1024 : ℤ) :=
    zpow_lt_zpow_right₀ (by norm_num) (by norm_num)
  rcases lt_trichotomy q 0 with h | h | h
  · have hr := roundMagnitude_le_small (-q) (by linarith) (by rw [abs_of_neg h] at hq; exact hq)
    rw [F64.ofRat_neg q h, if_pos (lt_of_le_of_lt hr hbig)]
    exact ⟨_, rfl, by rw [abs_neg, abs_of_nonneg (roundMagnitude_nonneg _)]; exact hr⟩
  · exact ⟨0, by rw [h, F64.ofRat_zero], by rw [abs_zero]; positivity⟩
  · have hr := roundMagnitude_le_small q h (by rw [abs_of_pos h] at hq; exact hq)
    rw [F64.ofRat_pos q h, if_pos (lt_of_le_of_lt hr hbig)]
    exact ⟨_, rfl, by rw [abs_of_nonneg (roundMagnitude_nonneg _)]; exact hr⟩

/-- Underflow of the cross product: when the four coordinate differences are at most 2^-599
in magnitude, both products round to zero and the cross product is zero. -/
theorem crossF64_small (e0 e1 t0 t1 : ℚ) (h0 : |e0| ≤ (2 : ℚ) ^ (-599 : ℤ))
    (h1 : |e1| ≤ (2 : ℚ) ^ (-599 : ℤ)) (h2 : |t0| ≤ (2 : ℚ) ^ (-599 : ℤ))
    (h3 : |t1| ≤ (2 : ℚ) ^ (-599 : ℤ)) :
    F64.sub (F64.mul (F64.ofRat e0) (F64.ofRat t1)) (F64.mul (F64.ofRat e1) (F64.ofRat t0)) =
      F64.finite 0 := by
  obtain ⟨r0, q0, b0⟩ := F64.ofRat_small e0 h0
  obtain ⟨r1, q1, b1⟩ := F64.ofRat_small e1 h1
  obtain ⟨r2, q2, b2⟩ := F64.ofRat_small t0 h2
  obtain ⟨r3, q3, b3⟩ := F64.ofRat_small t1 h3
  have hprod : ∀ a b : ℚ, |a| ≤ (2 : ℚ) ^ (-598 : ℤ) → |b| ≤ (2 : ℚ) ^ (-598 : ℤ) →
      F64.ofRat (a * b) = F64.finite 0 := by
    intro a b ha hb
    apply F64.ofRat_tiny
    rw [abs_mul]
    calc |a| * |b| ≤ (2 : ℚ) ^ (-598 : ℤ) * (2 : ℚ) ^ (-598 : ℤ) :=
          mul_le_mul ha hb (abs_nonneg _) (by positivity)
      _ = (2 : ℚ) ^ (-1196 : ℤ) := by rw [← zpow_add₀ (by norm_num)]; norm_num
      _ ≤ (2 : ℚ) ^ (-1076 : ℤ) := zpow_le_zpow_right₀ (by norm_num) (by norm_num)
  rw [q0, q1, q2, q3]
  simp only [F64.mul, hprod r0 r3 b0 b3, hprod r1 r2 b1 b2, F64.sub, sub_zero, F64.ofRat_zero]

theorem abs_sub_le_small (a b : ℚ) (ha : |a| ≤ (2 : ℚ) ^ (-600 : ℤ))
    (hb : |b| ≤ (2 : ℚ) ^ (-600 : ℤ)) : |a - b| ≤ (2 : ℚ) ^ (-599 : ℤ) := by
  have h599 : (2 : ℚ) ^ (-599 : ℤ) = (2 : ℚ) ^ (-600 : ℤ) + (2 : ℚ) ^ (-600 : ℤ) := by
    rw [show (-599 : ℤ) = -600 + 1 by norm_num, zpow_add₀ (by norm_num)]
    norm_num
  rw [h599]
  exact le_trans (abs_sub a b) (add_le_add ha hb)

/-- Underflow of the whole test: on a closed ring of 5 points, when all coordinates of
the ring and of the point are at most 2^-600 in magnitude, the four float64 cross products
are zero and IsPointInRectangle answers true, wherever the point lies. -/
theorem IsPointInRectangleF64_underflow (a b c d point : Point)
    (ha : |a.x| ≤ (2 : ℚ) ^ (-600 : ℤ) ∧ |a.y| ≤ (2 : ℚ) ^ (-600 : ℤ))
    (hb : |b.x| ≤ (2 : ℚ) ^ (-600 : ℤ) ∧ |b.y| ≤ (2 : ℚ) ^ (-600 : ℤ))
    (hc : |c.x| ≤ (2 : ℚ) ^ (-600 : ℤ) ∧ |c.y| ≤ (2 : ℚ) ^ (-600 : ℤ))
    (hd : |d.x| ≤ (2 : ℚ) ^ (-600 : ℤ) ∧ |d.y| ≤ (2 : ℚ) ^ (-600 : ℤ))
    (hp : |point.x| ≤ (2 : ℚ) ^ (-600 : ℤ) ∧ |point.y| ≤ (2 : ℚ) ^ (-600 : ℤ)) :
    IsPointInRectangleF64 [a, b, c, d, a] point = (true, none) := by
  have key : ∀ u v : Point,
      (|u.x| ≤ (2 : ℚ) ^ (-600 : ℤ) ∧ |u.y| ≤ (2 : ℚ) ^ (-600 : ℤ)) →
      (|v.x| ≤ (2 : ℚ) ^ (-600 : ℤ) ∧ |v.y| ≤ (2 : ℚ) ^ (-600 : ℤ)) →
      (crossProductF64 u v point).gtZero = false := by
    intro u v hu hv
    rw [crossProductF64_eq, crossF64_small _ _ _ _ (abs_sub_le_small _ _ hv.1 hu.1)
      (abs_sub_le_small _ _ hv.2 hu.2) (abs_sub_le_small _ _ hp.1 hu.1)
      (abs_sub_le_small _ _ hp.2 hu.2)]
    simp [F64.gtZero]
  rw [IsPointInRectangleF64_five]
  simp [key a b ha hb, key b c hb hc, key c d hc hd, key d a hd ha]

theorem tiny_facts :
    (0 : ℚ) < tiny ∧ |tiny| ≤ (2 : ℚ) ^ (-600 : ℤ) ∧ |(-tiny)| ≤ (2 : ℚ) ^ (-600 : ℤ) ∧
    |(0 : ℚ)| ≤ (2 : ℚ) ^ (-600 : ℤ) ∧ |tiny / 2| ≤ (2 : ℚ) ^ (-600 : ℤ) ∧
    F64.ofRat tiny = F64.finite tiny ∧ F64.ofRat (-tiny) = F64.finite (-tiny) ∧
    F64.ofRat (tiny / 2) = F64.finite (tiny / 2) := by
  have hpos : (0 : ℚ) < tiny := by unfold tiny; positivity
  have hhalf : tiny / 2 = (2 : ℚ) ^ (-601 : ℤ) := by
    unfold tiny
    rw [show (-600 : ℤ) = -601 + 1 by norm_num, zpow_add₀ (by norm_num)]
    norm_num
  refine ⟨hpos, ?_, ?_, ?_, ?_, ?_, ?_, ?_⟩
  · rw [abs_of_pos hpos]; exact le_refl _
  · rw [abs_neg, abs_of_pos hpos]; exact le_refl _
  · rw [abs_zero]; positivity
  · rw [abs_of_pos (by linarith)]
    have : tiny / 2 ≤ tiny := by linarith
    exact this
  · exact (F64.ofRat_two_zpow (-600) (by norm_num) (by norm_num)).1
  · exact (F64.ofRat_two_zpow (-600) (by norm_num) (by norm_num)).2
  · rw [hhalf]; exact (F64.ofRat_two_zpow (-601) (by norm_num) (by norm_num)).1

/-- C5 (counterexample): 2^-600 and -2^-600 are float64 values; on the clockwise ring of the
box [0, 2^-600]×[0, 2^-600] the point (0, -2^-600), which lies below the box, is classified
inside with no error in float64 arithmetic: the cross product 2^-1200 of the first edge
underflows to zero. -/
theorem IsPointInRectangleF64_outside_counterexample :
    ((0 : ℚ) < tiny ∧ F64.ofRat tiny = F64.finite tiny ∧
      F64.ofRat (-tiny) = F64.finite (-tiny)) ∧
    IsPointInRectangleF64 [⟨tiny, 0⟩, ⟨0, 0⟩, ⟨0, tiny⟩, ⟨tiny, tiny⟩, ⟨tiny, 0⟩] ⟨0, -tiny⟩ =
      (true, none) ∧
    ¬ ((0 : ℚ) ≤ 0 ∧ (0 : ℚ) ≤ tiny ∧ (0 : ℚ) ≤ -tiny ∧ -tiny ≤ tiny) := by
  obtain ⟨h0, h1, h2, h3, _, h5, h6, _⟩ := tiny_facts
  refine ⟨⟨h0, h5, h6⟩, ?_, ?_⟩
  · exact IsPointInRectangleF64_underflow ⟨tiny, 0⟩ ⟨0, 0⟩ ⟨0, tiny⟩ ⟨tiny, tiny⟩ ⟨0, -tiny⟩
      ⟨h1, h3⟩ ⟨h3, h3⟩ ⟨h3, h1⟩ ⟨h1, h1⟩ ⟨h3, h2⟩
  · rintro ⟨_, _, h, _⟩
    linarith

/-- C18 (counterexample): 2^-600 and 2^-601 are float64 values; on the counter-clockwise ring
of the box [0, 2^-600]×[0, 2^-600] the centre (2^-601, 2^-601), strictly inside the box, is
classified inside with no error in float64 arithmetic: the four cross products, of magnitude
2^-1201, underflow to zero. -/
theorem IsPointInRectangleF64_centre_counterexample :
    ((0 : ℚ) < tiny ∧ F64.ofRat tiny = F64.finite tiny ∧
      F64.ofRat (tiny / 2) = F64.finite (tiny / 2)) ∧
    ((0 : ℚ) < tiny / 2 ∧ tiny / 2 < tiny) ∧
    IsPointInRectangleF64 [⟨0, 0⟩, ⟨tiny, 0⟩, ⟨tiny, tiny⟩, ⟨0, tiny⟩, ⟨0, 0⟩]
      ⟨tiny / 2, tiny / 2⟩ = (true, none) := by
  obtain ⟨h0, h1, _, h3, h4, h5, _, h7⟩ := tiny_facts
  refine ⟨⟨h0, h5, h7⟩, ⟨by linarith, by linarith⟩, ?_⟩
  exact IsPointInRectangleF64_underflow ⟨0, 0⟩ ⟨tiny, 0⟩ ⟨tiny, tiny⟩ ⟨0, tiny⟩
    ⟨tiny / 2, tiny / 2⟩ ⟨h3, h3⟩ ⟨h1, h3⟩ ⟨h1, h1⟩ ⟨h3, h1⟩ ⟨h4, h4⟩

theorem abs_le_two_zpow_1000 (q : ℚ) (h : |q| ≤ 1024) : |q| ≤ (2 : ℚ) ^ (1000 : ℤ) := by
  have h1 : (1024 : ℚ) = (2 : ℚ) ^ (10 : ℤ) := by norm_num
  rw [h1] at h
  exact le_trans h (zpow_le_zpow_right₀ (by norm_num) (by norm_num))

theorem two_zpow_le_of_one_le (k : ℤ) (hk : k ≤ 0) (q : ℚ) (h : 1 ≤ q) : (2 : ℚ) ^ k ≤ q := by
  have h1 : (2 : ℚ) ^ k ≤ (2 : ℚ) ^ (0 : ℤ) := zpow_le_zpow_right₀ (by norm_num) hk
  rw [zpow_zero] at h1
  exact le_trans h1 h

/-- C5 (amended) at the box [0,10]×[0,10]: the corner point (10,0) is classified inside and
the point (20,5) outside, both without error. -/
theorem IsPointInRectangleF64_axis_aligned_witness :
    ((0 : ℚ) < 10 ∧ (0 : ℚ) < 10) ∧
    IsPointInRectangleF64 [⟨10, 0⟩, ⟨0, 0⟩, ⟨0, 10⟩, ⟨10, 10⟩, ⟨10, 0⟩] ⟨10, 0⟩ = (true, none) ∧
    IsPointInRectangleF64 [⟨10, 0⟩, ⟨0, 0⟩, ⟨0, 10⟩, ⟨10, 10⟩, ⟨10, 0⟩] ⟨20, 5⟩ =
      (false, none) :=
  ⟨⟨by norm_num, by norm_num⟩,
    (IsPointInRectangleF64_axis_aligned 0 10 0 10 10 0 (by norm_num) (by norm_num)).1
      ⟨by norm_num, by norm_num, by norm_num, by norm_num⟩,
    (IsPointInRectangleF64_axis_aligned 0 10 0 10 20 5 (by norm_num) (by norm_num)).2
      ⟨abs_le_two_zpow_1000 _ (by norm_num), abs_le_two_zpow_1000 _ (by norm_num),
        abs_le_two_zpow_1000 _ (by norm_num), abs_le_two_zpow_1000 _ (by norm_num),
        abs_le_two_zpow_1000 _ (by norm_num), abs_le_two_zpow_1000 _ (by norm_num)⟩
      (two_zpow_le_of_one_le _ (by norm_num) _ (by norm_num))
      (two_zpow_le_of_one_le _ (by norm_num) _ (by norm_num))
      (Or.inr (Or.inl (two_zpow_le_of_one_le _ (by norm_num) _ (by norm_num))))⟩

/-- C18 (amended) at the box [0,10]×[0,10] and its centre (5,5): classified outside. -/
theorem IsPointInRectangleF64_counterclockwise_witness :
    ((2 : ℚ) ^ (-499 : ℤ) ≤ 10 - 0) ∧
    IsPointInRectangleF64 [⟨0, 0⟩, ⟨10, 0⟩, ⟨10, 10⟩, ⟨0, 10⟩, ⟨0, 0⟩] ⟨5, 5⟩ = (false, none) :=
  ⟨two_zpow_le_of_one_le _ (by norm_num) _ (by norm_num),
    IsPointInRectangleF64_counterclockwise 0 10 0 10 5 5
      ⟨abs_le_two_zpow_1000 _ (by norm_num), abs_le_two_zpow_1000 _ (by norm_num),
        abs_le_two_zpow_1000 _ (by norm_num), abs_le_two_zpow_1000 _ (by norm_num),
        abs_le_two_zpow_1000 _ (by norm_num), abs_le_two_zpow_1000 _ (by norm_num)⟩
      (two_zpow_le_of_one_le _ (by norm_num) _ (by norm_num))
      (two_zpow_le_of_one_le _ (by norm_num) _ (by norm_num))⟩

/-- The binary exponent of a magnitude between 2^k and 2^(k+1). -/
theorem int_log_two_eq (m : ℚ) (k : ℤ) (h1 : (2 : ℚ) ^ k ≤ m) (h2 : m < (2 : ℚ) ^ (k + 1)) :
    Int.log 2 m = k := by
  have hpos : 0 < m := lt_of_lt_of_le (by positivity) h1
  have ha : Int.log 2 m < k + 1 :=
    (Int.lt_zpow_iff_log_lt (b := 2) (by norm_num) hpos (x := k + 1)).mp (by simpa using h2)
  have hb : k ≤ Int.log 2 m :=
    (Int.zpow_le_iff_le_log (b := 2) (by norm_num) hpos (x := k)).mp (by simpa using h1)
  omega

/-- Rounding moves a magnitude by at most half its spacing. -/
theorem roundMagnitude_error (m : ℚ) (hm : 0 < m) : |roundMagnitude m - m| ≤ ulp m / 2 := by
  have hu := ulp_pos m
  have hb := roundHalfEven_bounds (m / ulp m) (by positivity)
  have e1 : (m / ulp m - 1 / 2) * ulp m = m - ulp m / 2 := by field_simp; ring
  have e2 : (m / ulp m + 1 / 2) * ulp m = m + ulp m / 2 := by field_simp; ring
  have l1 := mul_le_mul_of_nonneg_right hb.1 hu.le
  have l2 := mul_le_mul_of_nonneg_right hb.2 hu.le
  rw [e1] at l1
  rw [e2] at l2
  unfold roundMagnitude
  rw [abs_le]
  constructor <;> linarith

/-- Below 512 the float64 values are at most 2^-44 apart. -/
theorem ulp_le_of_lt (m : ℚ) (hpos : 0 < m) (h : m < (2 : ℚ) ^ (9 : ℤ)) :
    ulp m ≤ (2 : ℚ) ^ (-44 : ℤ) := by
  have hlog : Int.log 2 m < 9 :=
    (Int.lt_zpow_iff_log_lt (b := 2) (by norm_num) hpos (x := 9)).mp (by simpa using h)
  unfold ulp
  exact zpow_le_zpow_right₀ (by norm_num) (by omega)

/-- A result of magnitude below 512 is rounded to a finite value at most 2^-45 away. -/
theorem F64.ofRat_error (q : ℚ) (hq : |q| < (2 : ℚ) ^ (9 : ℤ)) :
    ∃ r, F64.ofRat q = F64.finite r ∧ |r - q| ≤ (2 : ℚ) ^ (-45 : ℤ) := by
  have h9 : (2 : ℚ) ^ (9 : ℤ) < (2 : ℚ) ^ (1023 : ℤ) :=
    zpow_lt_zpow_right₀ (by norm_num) (by norm_num)
  have h45 : (2 : ℚ) ^ (-44 : ℤ) / 2 = (2 : ℚ) ^ (-45 : ℤ) := by
    rw [show (-44 : ℤ) = -45 + 1 by norm_num, zpow_add₀ (by norm_num)]
    norm_num
  rcases lt_trichotomy q 0 with h | h | h
  · rw [abs_of_neg h] at hq
    have hpos : 0 < -q := by linarith
    rw [F64.ofRat_neg q h, if_pos (roundMagnitude_lt (-q) hpos (lt_trans hq h9))]
    refine ⟨_, rfl, ?_⟩
    have he := roundMagnitude_error (-q) hpos
    have hu := ulp_le_of_lt (-q) hpos hq
    rw [show -roundMagnitude (-q) - q = -(roundMagnitude (-q) - -q) by ring, abs_neg]
    rw [← h45]
    generalize (2 : ℚ) ^ (-44 : ℤ) = c at hu ⊢
    linarith
  · exact ⟨0, by rw [h, F64.ofRat_zero], by rw [h]; simp; positivity⟩
  · rw [abs_of_pos h] at hq
    rw [F64.ofRat_pos q h, if_pos (roundMagnitude_lt q h (lt_trans hq h9))]
    refine ⟨_, rfl, ?_⟩
    have he := roundMagnitude_error q h
    have hu := ulp_le_of_lt q h hq
    rw [← h45]
    generalize (2 : ℚ) ^ (-44 : ℤ) = c at hu ⊢
    linarith

/-- A sum or difference of a bearing of at most 180 degrees and a constant of at most 270 has
magnitude below 512. -/
theorem abs_lt_512 (q : ℚ) (h : |q| ≤ 450) : |q| < (2 : ℚ) ^ (9 : ℤ) := by
  have : (2 : ℚ) ^ (9 : ℤ) = 512 := by norm_num
  rw [this]
  linarith

/-- The ring of GetRotatedBoundWithPad is projected along the pair (bearingUp, bearingDown)
of `perpendicularBearingsF64`, in the same corner order on both sides of the branch. -/
theorem GetRotatedBoundWithPadF64_bearings (Bearing : Point → Point → ℚ)
    (PointAtBearingAndDistance : Point → F64 → ℚ → Point) (p1 p2 : Point) (d : ℚ) :
    GetRotatedBoundWithPadF64 Bearing PointAtBearingAndDistance p1 p2 d =
      [PointAtBearingAndDistance p1 (perpendicularBearingsF64 (Bearing p1 p2)).1 d,
       PointAtBearingAndDistance p1 (perpendicularBearingsF64 (Bearing p1 p2)).2 d,
       PointAtBearingAndDistance p2 (perpendicularBearingsF64 (Bearing p1 p2)).2 d,
       PointAtBearingAndDistance p2 (perpendicularBearingsF64 (Bearing p1 p2)).1 d,
       PointAtBearingAndDistance p1 (perpendicularBearingsF64 (Bearing p1 p2)).1 d] := by
  unfold GetRotatedBoundWithPadF64 perpendicularBearingsF64
  by_cases h : Bearing p1 p2 < 90 <;> simp [h]

/-- The two float64 bearings computed for a segment bearing b of magnitude at most 180 are
finite; bearingUp is within 2^-45 of b + 90, bearingDown within 2^-45 of b + 270 below the
branch point 90 and of b - 90 from it on. -/
theorem perpendicularBearingsF64_bounds (b : ℚ) (hb : |b| ≤ 180) :
    ∃ up down : ℚ, perpendicularBearingsF64 b = (F64.finite up, F64.finite down) ∧
      |up - (b + 90)| ≤ (2 : ℚ) ^ (-45 : ℤ) ∧
      |down - (if b < 90 then b + 270 else b - 90)| ≤ (2 : ℚ) ^ (-45 : ℤ) := by
  have hb2 := abs_le.mp hb
  obtain ⟨u, hu, hue⟩ := F64.ofRat_error (b + 90)
    (abs_lt_512 _ (abs_le.mpr ⟨by linarith, by linarith⟩))
  by_cases hlt : b < 90
  · obtain ⟨d, hd, hde⟩ := F64.ofRat_error (b + 270)
      (abs_lt_512 _ (abs_le.mpr ⟨by linarith, by linarith⟩))
    refine ⟨u, d, ?_, hue, ?_⟩
    · unfold perpendicularBearingsF64
      rw [if_pos hlt]
      simp only [F64.add, hu, hd]
    · rw [if_pos hlt]; exact hde
  · obtain ⟨d, hd, hde⟩ := F64.ofRat_error (b - 90)
      (abs_lt_512 _ (abs_le.mpr ⟨by linarith, by linarith⟩))
    refine ⟨u, d, ?_, hue, ?_⟩
    · unfold perpendicularBearingsF64
      rw [if_neg hlt]
      simp only [F64.add, F64.sub, hu, hd]
    · rw [if_neg hlt]; exact hde

/-- C16 (amended): for a segment whose bearing b has magnitude at most 180, the two bearings
computed by GetRotatedBoundWithPad in float64 arithmetic are finite, the ring is projected
along them in the same corner order on both sides of the branch, bearingUp is b + 90 up to
2^-45, bearingDown is b - 90 plus a multiple of 360 up to 2^-45, and the two differ by 180
plus a multiple of 360 up to 2^-44. -/
theorem perpendicularBearingsF64_opposite (Bearing : Point → Point → ℚ)
    (PointAtBearingAndDistance : Point → F64 → ℚ → Point) (p1 p2 : Point) (d : ℚ)
    (hb : |Bearing p1 p2| ≤ 180) :
    ∃ up down : ℚ,
      perpendicularBearingsF64 (Bearing p1 p2) = (F64.finite up, F64.finite down) ∧
      GetRotatedBoundWithPadF64 Bearing PointAtBearingAndDistance p1 p2 d =
        [PointAtBearingAndDistance p1 (F64.finite up) d,
         PointAtBearingAndDistance p1 (F64.finite down) d,
         PointAtBearingAndDistance p2 (F64.finite down) d,
         PointAtBearingAndDistance p2 (F64.finite up) d,
         PointAtBearingAndDistance p1 (F64.finite up) d] ∧
      |up - (Bearing p1 p2 + 90)| ≤ (2 : ℚ) ^ (-45 : ℤ) ∧
      (∃ k : ℤ, |down - (Bearing p1 p2 - 90) - 360 * k| ≤ (2 : ℚ) ^ (-45 : ℤ)) ∧
      (∃ k : ℤ, |up - down - 180 - 360 * k| ≤ (2 : ℚ) ^ (-44 : ℤ)) := by
  have h44 : (2 : ℚ) ^ (-44 : ℤ) = (2 : ℚ) ^ (-45 : ℤ) + (2 : ℚ) ^ (-45 : ℤ) := by
    rw [show (-44 : ℤ) = -45 + 1 by norm_num, zpow_add₀ (by norm_num)]
    norm_num
  obtain ⟨u, dn, hpair, hue, hde⟩ := perpendicularBearingsF64_bounds (Bearing p1 p2) hb
  refine ⟨u, dn, hpair, ?_, hue, ?_⟩
  · rw [GetRotatedBoundWithPadF64_bearings, hpair]
  · by_cases hlt : Bearing p1 p2 < 90
    · rw [if_pos hlt] at hde
      refine ⟨⟨1, ?_⟩, ⟨-1, ?_⟩⟩
      · rw [show dn - (Bearing p1 p2 - 90) - 360 * ((1 : ℤ) : ℚ) =
          dn - (Bearing p1 p2 + 270) by push_cast; ring]
        exact hde
      · rw [show u - dn - 180 - 360 * ((-1 : ℤ) : ℚ) =
          (u - (Bearing p1 p2 + 90)) - (dn - (Bearing p1 p2 + 270)) by push_cast; ring]
        rw [h44]
        exact le_trans (abs_sub _ _) (add_le_add hue hde)
    · rw [if_neg hlt] at hde
      refine ⟨⟨0, ?_⟩, ⟨0, ?_⟩⟩
      · rw [show dn - (Bearing p1 p2 - 90) - 360 * ((0 : ℤ) : ℚ) =
          dn - (Bearing p1 p2 - 90) by push_cast; ring]
        exact hde
      · rw [show u - dn - 180 - 360 * ((0 : ℤ) : ℚ) =
          (u - (Bearing p1 p2 + 90)) - (dn - (Bearing p1 p2 - 90)) by push_cast; ring]
        rw [h44]
        exact le_trans (abs_sub _ _) (add_le_add hue hde)

/-- C16 (amended) at a segment of bearing 0. -/
theorem perpendicularBearingsF64_opposite_witness :
    |(0 : ℚ)| ≤ 180 ∧
    ∃ up down : ℚ,
      perpendicularBearingsF64 0 = (F64.finite up, F64.finite down) ∧
      GetRotatedBoundWithPadF64 (fun _ _ => 0) (fun p _ _ => p) ⟨0, 0⟩ ⟨0, 1⟩ 1 =
        [⟨0, 0⟩, ⟨0, 0⟩, ⟨0, 1⟩, ⟨0, 1⟩, ⟨0, 0⟩] ∧
      |up - (0 + 90)| ≤ (2 : ℚ) ^ (-45 : ℤ) ∧
      (∃ k : ℤ, |down - (0 - 90) - 360 * k| ≤ (2 : ℚ) ^ (-45 : ℤ)) ∧
      (∃ k : ℤ, |up - down - 180 - 360 * k| ≤ (2 : ℚ) ^ (-44 : ℤ)) :=
  ⟨by norm_num,
    perpendicularBearingsF64_opposite (fun _ _ => 0) (fun p _ _ => p) ⟨0, 0⟩ ⟨0, 1⟩ 1
      (by norm_num)⟩

/-- A value n * 2^e with a 53-bit significand n and e at least -1074 is a float64 value:
rounding leaves it unchanged. -/
theorem roundMagnitude_exact (n : ℕ) (e : ℤ) (h1 : 2 ^ 52 ≤ n) (h2 : n < 2 ^ 53)
    (he : -1074 ≤ e) : roundMagnitude ((n : ℚ) * (2 : ℚ) ^ e) = (n : ℚ) * (2 : ℚ) ^ e := by
  have hpe : (0 : ℚ) < (2 : ℚ) ^ e := by positivity
  have hlog : Int.log 2 ((n : ℚ) * (2 : ℚ) ^ e) = 52 + e := by
    apply int_log_two_eq
    · rw [zpow_add₀ (by norm_num)]
      apply mul_le_mul_of_nonneg_right _ hpe.le
      have hc : ((2 ^ 52 : ℕ) : ℚ) ≤ (n : ℚ) := by exact_mod_cast h1
      have e52 : (2 : ℚ) ^ (52 : ℤ) = ((2 ^ 52 : ℕ) : ℚ) := by norm_num
      rw [e52]
      exact hc
    · rw [show 52 + e + 1 = 53 + e by ring, zpow_add₀ (by norm_num)]
      apply mul_lt_mul_of_pos_right _ hpe
      have hc : (n : ℚ) < ((2 ^ 53 : ℕ) : ℚ) := by exact_mod_cast h2
      have e53 : (2 : ℚ) ^ (53 : ℤ) = ((2 ^ 53 : ℕ) : ℚ) := by norm_num
      rw [e53]
      exact hc
  have hulp : ulp ((n : ℚ) * (2 : ℚ) ^ e) = (2 : ℚ) ^ e := by
    unfold ulp
    rw [hlog, max_eq_left (by omega)]
    congr 1
    ring
  unfold roundMagnitude
  rw [hulp, mul_div_assoc, div_self hpe.ne', mul_one, roundHalfEven_natCast]

/-- A tie between an odd number and its successor is rounded to the successor. -/
theorem roundHalfEven_tie_odd (n : ℕ) (h : n % 2 = 1) :
    roundHalfEven ((n : ℚ) + 1 / 2) = n + 1 := by
  have hf : ⌊(n : ℚ) + 1 / 2⌋₊ = n := by
    rw [Nat.floor_eq_iff (by positivity)]
    constructor <;> linarith
  unfold roundHalfEven
  rw [hf]
  have h1 : ¬ ((n : ℚ) + 1 / 2 - (n : ℚ) < 1 / 2) := by norm_num
  have h2 : ¬ ((1 : ℚ) / 2 < (n : ℚ) + 1 / 2 - (n : ℚ)) := by norm_num
  have h3 : ¬ (n % 2 = 0) := by omega
  rw [if_neg h1, if_neg h2, if_neg h3]

/-- The bearing 76.15710813705945 is a float64 value below 90; the code computes bearingDown
as the float64 sum 76.15710813705945 + 270, which is a tie between two float64 values and is
rounded up by 2^-45 to 346.1571081370595. -/
theorem exampleBearing_down :
    F64.ofRat exampleBearing = F64.finite exampleBearing ∧ exampleBearing < 90 ∧
    (perpendicularBearingsF64 exampleBearing).2 = F64.finite (3044830123472089 / 2 ^ 43) := by
  have hb : exampleBearing = ((5359080059807430 : ℕ) : ℚ) * (2 : ℚ) ^ (-46 : ℤ) := by
    unfold exampleBearing
    norm_num
  have hlt : exampleBearing < 90 := by unfold exampleBearing; norm_num
  have hpos : 0 < exampleBearing := by unfold exampleBearing; norm_num
  have hbig : (0 : ℚ) < (2 : ℚ) ^ (1024 : ℤ) := by positivity
  refine ⟨?_, hlt, ?_⟩
  · have hr : roundMagnitude exampleBearing = exampleBearing := by
      rw [hb]
      exact roundMagnitude_exact _ _ (by norm_num) (by norm_num) (by norm_num)
    rw [F64.ofRat_pos _ hpos, hr, if_pos]
    exact lt_of_lt_of_le (lt_trans hlt (by norm_num : (90 : ℚ) < 1024))
      (by
        have : (1024 : ℚ) = (2 : ℚ) ^ (10 : ℤ) := by norm_num
        rw [this]
        exact zpow_le_zpow_right₀ (by norm_num) (by norm_num))
  · have hsum : exampleBearing + 270 = 12179320493888355 / 2 ^ 45 := by
      unfold exampleBearing; norm_num
    have hspos : (0 : ℚ) < exampleBearing + 270 := by linarith
    have hlog : Int.log 2 (exampleBearing + 270) = 8 := by
      apply int_log_two_eq
      · rw [hsum]; norm_num
      · rw [hsum]; norm_num
    have hulp : ulp (exampleBearing + 270) = (2 : ℚ) ^ (-44 : ℤ) := by
      unfold ulp
      rw [hlog]
      norm_num
    have hq : (exampleBearing + 270) / (2 : ℚ) ^ (-44 : ℤ) =
        ((6089660246944177 : ℕ) : ℚ) + 1 / 2 := by
      rw [hsum]; norm_num
    have hr : roundMagnitude (exampleBearing + 270) = 3044830123472089 / 2 ^ 43 := by
      unfold roundMagnitude
      rw [hulp, hq, roundHalfEven_tie_odd _ (by norm_num)]
      norm_num
    unfold perpendicularBearingsF64
    rw [if_pos hlt]
    simp only [F64.add]
    rw [F64.ofRat_pos _ hspos, hr, if_pos]
    have : (3044830123472089 / 2 ^ 43 : ℚ) < (2 : ℚ) ^ (10 : ℤ) := by norm_num
    exact lt_trans this (zpow_lt_zpow_right₀ (by norm_num) (by norm_num))

/-- C16 (counterexample): for the segment bearing 76.15710813705945, a float64 value below
90, the code computes bearingDown = 346.1571081370595, which exceeds b - 90 by 360 + 2^-45:
bearingDown is not congruent to b - 90 modulo 360. -/
theorem perpendicularBearingsF64_counterexample :
    (F64.ofRat exampleBearing = F64.finite exampleBearing ∧ exampleBearing < 90) ∧
    (perpendicularBearingsF64 exampleBearing).2 = F64.finite (3044830123472089 / 2 ^ 43) ∧
    (3044830123472089 / 2 ^ 43 : ℚ) - (exampleBearing - 90) = 360 + 1 / 2 ^ 45 ∧
    ¬ ∃ k : ℤ, (3044830123472089 / 2 ^ 43 : ℚ) - (exampleBearing - 90) = 360 * k := by
  have hd : (3044830123472089 / 2 ^ 43 : ℚ) - (exampleBearing - 90) = 360 + 1 / 2 ^ 45 := by
    unfold exampleBearing; norm_num
  refine ⟨⟨exampleBearing_down.1, exampleBearing_down.2.1⟩, exampleBearing_down.2.2, hd, ?_⟩
  rintro ⟨k, hk⟩
  rw [hd] at hk
  have h1 : ((k - 1) * (360 * 2 ^ 45) : ℚ) = 1 := by
    field_simp at hk
    linarith
  have h2 : (k - 1) * (360 * 2 ^ 45) = (1 : ℤ) := by exact_mod_cast h1
  omega

end Linebound
